import Mathlib

/-!
# REST response binding of `internal/protocol/rest/unmarshal.go`

A shallow embedding of the REST unmarshaller of the SDK: the response of an
HTTP call (status code, header collection, body) is bound to the fields of a
result structure according to the struct tags of its fields. After it come the
credential providers of `aws/credentials` (namespace `credentials`), the
generator command of `internal/model/cli/gen-api` (namespace `genapi`) and the
server-side encryption handlers of `service/s3/sse.go` (namespace `s3`).

Conventions of the embedding

* A Go `string` and a Go `[]byte` are lists of bytes (`List Nat`, every element
  below 256).
* `strings.ToLower` is embedded in full (`strings.ToLower`, over
  `utf8.DecodeRuneInString`, `strings.Map` and `utf8.EncodeRune`) where it is
  applied to response data, the header names in `unmarshalHeaderMap`; the table
  `unicode.ToLower` is a parameter (`StdLib.ToLowerRune`) of which only the
  ASCII part is fixed. Where it is applied to the first byte of a field name of
  a result structure, its branch for ASCII text (`ToLower`) stands for it, and
  so does `isExported`: the field names of the generated shapes are ASCII
  identifiers, and a theorem about all the fields of a structure says so with
  an `isASCII` hypothesis on the field names.
* A `reflect.Value` of a struct field is a `Value`: the Go type of the field
  together with its content (`none` is a nil pointer, nil slice, nil map or nil
  interface).
* A run-time panic of the Go code is an outcome of its own (`Outcome.panic`),
  carrying the state reached when the panic was raised.
-/

set_option autoImplicit false

namespace rest

/-! ## Go strings -/

/-- A Go string or byte slice: its bytes. -/
abbrev GoString := List Nat

/-- The bytes of an ASCII literal. -/
def str (s : String) : GoString := s.toList.map Char.toNat

/-- Every byte is below `utf8.RuneSelf`. -/
def isASCII (s : GoString) : Bool := s.all (fun c => decide (c < 128))

/-- Lower-casing of one ASCII byte, `'A'..'Z'` to `'a'..'z'`. -/
def lowerByte (c : Nat) : Nat := if 65 ≤ c ∧ c ≤ 90 then c + 32 else c

/-- The branch of Go `strings.ToLower` for a text without a byte from `0x80`
on: `'A'..'Z'` go to `'a'..'z'` byte by byte. The function on every text is
`strings.ToLower` below. -/
def ToLower (s : GoString) : GoString := s.map lowerByte

/-- Go `strings.HasPrefix`: `len(s) >= len(prefix) && s[0:len(prefix)] == prefix`. -/
def HasPrefix (s pre : GoString) : Bool :=
  decide (pre.length ≤ s.length) && (s.take pre.length == pre)

/-! ## Header canonicalizer (`net/textproto`) -/

/-- Go `textproto.validHeaderFieldByte`: the token characters of RFC 7230. -/
def validHeaderFieldByte (c : Nat) : Bool :=
  decide (48 ≤ c ∧ c ≤ 57) || decide (65 ≤ c ∧ c ≤ 90) || decide (97 ≤ c ∧ c ≤ 122) ||
    [33, 35, 36, 37, 38, 39, 42, 43, 45, 46, 94, 95, 96, 124, 126].contains c

/-- The loop of `textproto.canonicalMIMEHeaderKey`: upper case for the first
letter and for a letter after a dash, lower case for every other letter. -/
def canonLoop : Bool → GoString → GoString
  | _, [] => []
  | upper, c :: cs =>
    let c1 := if upper && decide (97 ≤ c ∧ c ≤ 122) then c - 32
              else if !upper && decide (65 ≤ c ∧ c ≤ 90) then c + 32
              else c
    c1 :: canonLoop (c1 == 45) cs

/-- Go `http.CanonicalHeaderKey`: a key with a byte that is no token character
is returned unchanged. -/
def CanonicalHeaderKey (s : GoString) : GoString :=
  if s.all validHeaderFieldByte then canonLoop true s else s

/-- Go `http.Header`, a `map[string][]string`, as the list of its entries in
the order in which a `range` statement enumerates them. -/
abbrev Header := List (GoString × List GoString)

/-- Go map indexing `h[key]`; a missing key gives the nil slice. -/
def Header.index (h : Header) (key : GoString) : List GoString :=
  match h.find? (fun e => e.1 == key) with
  | some e => e.2
  | none => []

/-- Go `http.Header.Get`: the first value of the canonical key, or `""`. -/
def Header.Get (h : Header) (key : GoString) : GoString :=
  match h.index (CanonicalHeaderKey key) with
  | [] => []
  | v :: _ => v

/-- Go `http.Header.Set`: the entry of the canonical key is replaced by the
single value. -/
def Header.Set (h : Header) (key value : GoString) : Header :=
  let k := CanonicalHeaderKey key
  if h.any (fun e => e.1 == k) then
    h.map (fun e => if e.1 == k then (k, [value]) else e)
  else h ++ [(k, [value])]

/-! ## Scalar coercers of the Go library -/

/-- An `error` value returned by a Go library call or built by the binder. -/
inductive GoError where
  /-- `base64.CorruptInputError` -/
  | corruptInput
  /-- `*strconv.NumError` of function `fn` on text `num`, with `ErrRange` or `ErrSyntax` -/
  | numError (fn : String) (num : GoString) (range : Bool)
  /-- `*time.ParseError` of a text against a layout -/
  | timeParse (layout value : GoString)
  /-- the error of a failed read of the body -/
  | readError (cause : GoString)
  /-- `fmt.Errorf("Unsupported value for param %v (%s)", ...)`, with the type -/
  | unsupportedValue (ty : GoString)
  /-- `fmt.Errorf("unknown payload type %s", ...)`, with the type -/
  | unknownPayloadType (ty : GoString)
  deriving DecidableEq, Repr

/-- The decode map of `base64.StdEncoding`: the sextet of an alphabet byte. -/
def decodeMap (c : Nat) : Option Nat :=
  if 65 ≤ c ∧ c ≤ 90 then some (c - 65)
  else if 97 ≤ c ∧ c ≤ 122 then some (c - 71)
  else if 48 ≤ c ∧ c ≤ 57 then some (c + 4)
  else if c = 43 then some 62
  else if c = 47 then some 63
  else none

/-- The bytes of a quantum of `n` sextets (2, 3 or 4): `n - 1` bytes of the
24-bit value, left-over bits dropped (the encoding is not strict). -/
def quantumBytes (q : List Nat) : GoString :=
  let val := q.getD 0 0 * 262144 + q.getD 1 0 * 4096 + q.getD 2 0 * 64 + q.getD 3 0
  [val / 65536 % 256, val / 256 % 256, val % 256].take (q.length - 1)

/-- Skipping of `\r` and `\n`. -/
def skipNewlines : GoString → GoString
  | [] => []
  | c :: cs => if c = 10 ∨ c = 13 then skipNewlines cs else c :: cs

/-- Go `base64.StdEncoding.Decode` over the rest of the input, with the sextets
`q` of the quantum under way and the bytes `out` written so far; `none` is a
`CorruptInputError`. -/
def decodeLoop : GoString → List Nat → GoString → Option GoString
  | [], q, out => if q = [] then some out else none
  | c :: cs, q, out =>
    match decodeMap c with
    | some v =>
      if q.length = 3 then decodeLoop cs [] (out ++ quantumBytes (q ++ [v]))
      else decodeLoop cs (q ++ [v]) out
    | none =>
      if c = 10 ∨ c = 13 then decodeLoop cs q out
      else if c ≠ 61 then none
      else if q.length < 2 then none
      else if q.length = 2 then
        match skipNewlines cs with
        | [] => none
        | d :: ds =>
          if d ≠ 61 then none
          else if skipNewlines ds = [] then some (out ++ quantumBytes q) else none
      else if skipNewlines cs = [] then some (out ++ quantumBytes q) else none

/-- Go `base64.StdEncoding.DecodeString`. -/
def DecodeString (s : GoString) : Except GoError GoString :=
  match decodeLoop s [] [] with
  | some b => .ok b
  | none => .error .corruptInput

/-- Go `strconv.ParseBool`. -/
def ParseBool (s : GoString) : Except GoError Bool :=
  if s = str "1" ∨ s = str "t" ∨ s = str "T" ∨ s = str "true" ∨ s = str "TRUE" ∨ s = str "True" then
    .ok true
  else if s = str "0" ∨ s = str "f" ∨ s = str "F" ∨ s = str "false" ∨ s = str "FALSE"
      ∨ s = str "False" then
    .ok false
  else .error (.numError "ParseBool" s false)

/-- The value of a text of decimal digits after the digits read so far,
`none` when a byte is no digit. -/
def parseDigits : GoString → Nat → Option Nat
  | [], acc => some acc
  | c :: cs, acc => if 48 ≤ c ∧ c ≤ 57 then parseDigits cs (acc * 10 + (c - 48)) else none

/-- The loop of `strconv.ParseUint(s, 10, 64)` over the bytes not read yet, with
the value `n` read so far: the result and the error (`false` is `ErrSyntax`,
`true` is `ErrRange`). The loop stops at the first byte that fails: a byte that
is no decimal digit gives `ErrSyntax`, a digit that takes the value to `2^64`
or more gives the greatest value and `ErrRange`. -/
def ParseUint.loop : GoString → Nat → Nat × Option Bool
  | [], n => (n, none)
  | c :: cs, n =>
    if ¬ (48 ≤ c ∧ c ≤ 57) then (0, some false)
    else if n ≥ (2 ^ 64 - 1) / 10 + 1 then (2 ^ 64 - 1, some true)
    else if n * 10 + (c - 48) ≥ 2 ^ 64 then (2 ^ 64 - 1, some true)
    else ParseUint.loop cs (n * 10 + (c - 48))

/-- Go `strconv.ParseUint(s, 10, 64)`: the result and the error. -/
def ParseUint (s : GoString) : Nat × Option Bool :=
  if s = [] then (0, some false) else ParseUint.loop s 0

/-- Go `strconv.ParseInt(s, 10, 64)`: a syntax error of `ParseUint` is returned
under the name of `ParseInt`; after a range error of `ParseUint` its result is
the greatest value, which the two tests against `2^63` turn into the range
error of `ParseInt`. -/
def ParseInt (s : GoString) : Except GoError Int :=
  match s with
  | [] => .error (.numError "ParseInt" s false)
  | c :: cs =>
    let neg := decide (c = 45)
    let digits := if c = 43 ∨ c = 45 then cs else s
    match ParseUint digits with
    | (_, some false) => .error (.numError "ParseInt" s false)
    | (un, _) =>
      if !neg && decide (un ≥ 2 ^ 63) then .error (.numError "ParseInt" s true)
      else if neg && decide (un > 2 ^ 63) then .error (.numError "ParseInt" s true)
      else .ok (if neg then -(un : Int) else (un : Int))

/-- A `float64`, by its IEEE 754 bits. -/
abbrev Float64 := Nat

/-- A `time.Time`, by its nanoseconds since the epoch. -/
abbrev Time := Int

/-- The parts of the Go library that are taken as given: the two parsers
`strconv.ParseFloat(s, 64)` and `time.Parse(layout, value)`, and the table
`unicode.ToLower` of the lower case of a rune, of which only the ASCII part is
fixed here: `'A'..'Z'` go to `'a'..'z'`, every other ASCII rune to itself. -/
structure StdLib where
  ParseFloat : GoString → Except GoError Float64
  TimeParse : GoString → GoString → Except GoError Time
  ToLowerRune : Nat → Nat
  toLower_ascii : ∀ r : Nat, r < 128 → ToLowerRune r = lowerByte r

/-! ## UTF-8 and lower case (`unicode/utf8`, `strings`) -/

/-- Go `utf8.RuneError`, the rune `U+FFFD`. -/
def RuneError : Nat := 65533

/-- A continuation byte of UTF-8, `0x80..0xBF`. -/
def isCont (b : Nat) : Bool := decide (128 ≤ b ∧ b ≤ 191)

/-- Go `utf8.DecodeRuneInString`: the first rune of the text and its width in
bytes. An encoding that is invalid (a stray continuation byte, an overlong
form, a surrogate, a rune above `U+10FFFF`) or cut short gives `RuneError`
with width 1, the empty text gives `RuneError` with width 0. -/
def DecodeRune : GoString → Nat × Nat
  | [] => (RuneError, 0)
  | b0 :: rest =>
    if b0 < 128 then (b0, 1)
    else if 194 ≤ b0 ∧ b0 ≤ 223 then
      match rest with
      | b1 :: _ => if isCont b1 then ((b0 - 192) * 64 + (b1 - 128), 2) else (RuneError, 1)
      | [] => (RuneError, 1)
    else if 224 ≤ b0 ∧ b0 ≤ 239 then
      match rest with
      | b1 :: b2 :: _ =>
        if (if b0 = 224 then 160 else 128) ≤ b1 ∧ b1 ≤ (if b0 = 237 then 159 else 191)
            ∧ isCont b2 = true then
          ((b0 - 224) * 4096 + (b1 - 128) * 64 + (b2 - 128), 3)
        else (RuneError, 1)
      | _ => (RuneError, 1)
    else if 240 ≤ b0 ∧ b0 ≤ 244 then
      match rest with
      | b1 :: b2 :: b3 :: _ =>
        if (if b0 = 240 then 144 else 128) ≤ b1 ∧ b1 ≤ (if b0 = 244 then 143 else 191)
            ∧ isCont b2 = true ∧ isCont b3 = true then
          ((b0 - 240) * 262144 + (b1 - 128) * 4096 + (b2 - 128) * 64 + (b3 - 128), 4)
        else (RuneError, 1)
      | _ => (RuneError, 1)
    else (RuneError, 1)

/-- Go `utf8.EncodeRune`: the UTF-8 bytes of a rune; a surrogate and a rune
above `U+10FFFF` are written as `RuneError`. -/
def EncodeRune (r : Nat) : GoString :=
  if r < 128 then [r]
  else if r < 2048 then [192 + r / 64, 128 + r % 64]
  else if r > 1114111 ∨ (55296 ≤ r ∧ r ≤ 57343) then [239, 191, 189]
  else if r < 65536 then [224 + r / 4096, 128 + r / 64 % 64, 128 + r % 64]
  else [240 + r / 262144, 128 + r / 4096 % 64, 128 + r / 64 % 64, 128 + r % 64]

/-- The loop of Go `strings.Map` over the runes of the text, for a mapping
that drops no rune: every rune, `RuneError` for a byte that starts no valid
encoding, is mapped and written in UTF-8. The first argument bounds the number
of runes. -/
def Map.loop (mapping : Nat → Nat) : Nat → GoString → GoString
  | 0, _ => []
  | fuel + 1, s =>
    match s with
    | [] => []
    | _ :: _ =>
      EncodeRune (mapping (DecodeRune s).1) ++ Map.loop mapping fuel (s.drop (DecodeRune s).2)

/-- Go `strings.Map(mapping, s)`. -/
def Map (mapping : Nat → Nat) (s : GoString) : GoString := Map.loop mapping s.length s

/-- Go `strings.ToLower` on every text: `strings.Map(unicode.ToLower, s)`. On
a text without a byte from `0x80` on it is `ToLower`, the branch of the library
function for ASCII text. -/
def strings.ToLower (lib : StdLib) (s : GoString) : GoString := Map lib.ToLowerRune s

/-- Modelled from the spec: the layout constant `RFC822` of package `rest`
(declared in `build.go`), the date format of HTTP headers. -/
def RFC822 : GoString := str "Mon, 2 Jan 2006 15:04:05 GMT"

/-! ## Reflected field values -/

/-- What `reflect.Value.Kind` reports, as far as the binder tells kinds apart. -/
inductive Kind where
  | Invalid | String | Other
  deriving DecidableEq, Repr

/-- The stream a stream-typed field refers to. -/
inductive Stream where
  /-- the body of the response, `r.HTTPResponse.Body` -/
  | responseBody
  /-- the wrapper `aws.ReadSeekCloser(r.HTTPResponse.Body)` -/
  | readSeekCloser
  /-- any other stream -/
  | external (id : Nat)
  deriving DecidableEq, Repr

/-- A Go `map[string]*string`, as the list of its entries (keys distinct). -/
abbrev StringMap := List (GoString × GoString)

/-- Go map assignment `m[k] = v`. -/
def StringMap.insert (m : StringMap) (k v : GoString) : StringMap :=
  if m.any (fun e => e.1 == k) then m.map (fun e => if e.1 == k then (k, v) else e)
  else m ++ [(k, v)]

/-- Go map indexing `m[k]`, `none` for a missing key. -/
def StringMap.get (m : StringMap) (k : GoString) : Option GoString :=
  (m.find? (fun e => e.1 == k)).map (fun e => e.2)

/-- The `reflect.Value` of a struct field: its Go type and its content.
`none` is the nil pointer, slice, map or interface. -/
inductive Value where
  /-- `*string` -/
  | ptrString (p : Option GoString)
  /-- `[]byte` -/
  | bytes (b : Option GoString)
  /-- `*bool` -/
  | ptrBool (p : Option Bool)
  /-- `*int64` -/
  | ptrInt64 (p : Option Int)
  /-- `*float64` -/
  | ptrFloat64 (p : Option Float64)
  /-- `*time.Time` -/
  | ptrTime (p : Option Time)
  /-- `map[string]*string` -/
  | stringMap (m : Option StringMap)
  /-- a field of the interface type whose `Type().String()` is `ty` -/
  | stream (ty : GoString) (s : Option Stream)
  /-- a field of any other type `ty`, which is no interface; `elem` is
  `Elem().Kind()`, `none` when the type is no pointer, so that `Elem` panics -/
  | other (ty : GoString) (elem : Option Kind)
  deriving DecidableEq, Repr

/-- The result of `v.Elem().Kind()`, `none` when `Elem` panics (the kind of `v`
is neither `Ptr` nor `Interface`). `Elem` of a nil pointer is the zero Value,
whose kind is `Invalid`. -/
def Value.elemKind : Value → Option Kind
  | .ptrString none => some .Invalid
  | .ptrString (some _) => some .String
  | .bytes _ => none
  | .ptrBool none => some .Invalid
  | .ptrBool (some _) => some .Other
  | .ptrInt64 none => some .Invalid
  | .ptrInt64 (some _) => some .Other
  | .ptrFloat64 none => some .Invalid
  | .ptrFloat64 (some _) => some .Other
  | .ptrTime none => some .Invalid
  | .ptrTime (some _) => some .Other
  | .stringMap _ => none
  | .stream _ none => some .Invalid
  | .stream _ (some _) => some .Other
  | .other _ elem => elem

/-- The result of `v.Type().String()`. -/
def Value.typeString : Value → GoString
  | .ptrString _ => str "*string"
  | .bytes _ => str "[]uint8"
  | .ptrBool _ => str "*bool"
  | .ptrInt64 _ => str "*int64"
  | .ptrFloat64 _ => str "*float64"
  | .ptrTime _ => str "*time.Time"
  | .stringMap _ => str "map[string]*string"
  | .stream ty _ => ty
  | .other ty _ => ty

/-- A Go struct tag, as its key/value pairs. -/
abbrev StructTag := List (GoString × GoString)

/-- Go `reflect.StructTag.Get`: the value of the key, `""` when it is missing. -/
def StructTag.Get (t : StructTag) (key : GoString) : GoString :=
  match t.find? (fun e => e.1 == key) with
  | some e => e.2
  | none => []

/-- A field of the result structure: `v.Type().Field(i)` (name and tag)
together with `v.Field(i)` (its value). -/
structure Field where
  Name : GoString
  Tag : StructTag
  Value : Value
  deriving DecidableEq, Repr

/-- The struct that `r.Data` points to: its fields in declaration order, and the
fields promoted from its embedded structs (the generated shapes embed a
metadata struct that declares `SDKShapeTraits`). -/
structure Shape where
  fields : List Field
  promoted : List Field
  deriving DecidableEq, Repr

/-- Go `FieldByName`: a field of the struct itself first, a promoted one next. -/
def Shape.FieldByName (v : Shape) (name : GoString) : Option Field :=
  match v.fields.find? (fun f => f.Name == name) with
  | some f => some f
  | none => v.promoted.find? (fun f => f.Name == name)

/-- The effect of `v.FieldByName(name).Set(x)`: the value of that field is `x`. -/
def Shape.setField (v : Shape) (name : GoString) (x : Value) : Shape :=
  if v.fields.any (fun f => f.Name == name) then
    { v with fields := v.fields.map (fun f => if f.Name == name then { f with Value := x } else f) }
  else
    { v with promoted := v.promoted.map (fun f => if f.Name == name then { f with Value := x } else f) }

/-- A field name is exported when it starts with an upper-case letter; here for
a name that starts with an ASCII byte, as the identifiers of the generated
shapes do. -/
def isExported (name : GoString) : Bool :=
  match name with
  | [] => false
  | c :: _ => decide (65 ≤ c ∧ c ≤ 90)

/-! ## Requests and responses -/

/-- The body of a response: the bytes that have not been read yet, the error
that a read meets at the end of them (`none` for `io.EOF`), and the number of
`ReadAll` calls made on it so far. -/
structure Body where
  data : GoString
  err : Option GoString
  reads : Nat
  deriving DecidableEq, Repr

/-- Go `ioutil.ReadAll`: all bytes up to the end of the stream, the error met
there (if any), and the drained stream. -/
def ReadAll (b : Body) : GoString × Option GoError × Body :=
  (b.data, b.err.map GoError.readError, { b with data := [], reads := b.reads + 1 })

/-- Modelled from the spec: what a caller reads from a stream-typed field in
the state `b` of the response body. The body itself and the wrapper made by
`aws.ReadSeekCloser` (declared in `aws/types.go`, whose `Read` forwards to the
reader it wraps) give the bytes of the body; nothing is known of another
stream. -/
def Stream.readAll (s : Stream) (b : Body) : Option (GoString × Option GoError) :=
  match s with
  | .responseBody => some ((ReadAll b).1, (ReadAll b).2.1)
  | .readSeekCloser => some ((ReadAll b).1, (ReadAll b).2.1)
  | .external _ => none

/-- An `http.Response`, as far as the binder uses it. -/
structure Response where
  StatusCode : Int
  Header : Header
  Body : Body
  deriving DecidableEq, Repr

/-- Modelled from the spec: the decode error value of package `apierr`
(`internal/apierr`), made by `apierr.New(code, message, origErr)`. -/
structure APIError where
  Code : GoString
  Message : GoString
  OrigErr : GoError
  deriving DecidableEq, Repr

/-- Modelled from the spec: the constructor `apierr.New` stores its three
arguments. -/
def apierr.New (code message : GoString) (origErr : GoError) : APIError :=
  { Code := code, Message := message, OrigErr := origErr }

/-- Modelled from the spec: an `aws.Request` (declared in `aws/request.go`), as
far as the binder uses it. `Data` is the struct that `r.Data` points to, `none`
when `r.DataFilled()` is false. -/
structure Request where
  Error : Option APIError
  HTTPResponse : Response
  Data : Option Shape
  deriving DecidableEq, Repr

/-- How a call ends: it returns in state `s`, or a run-time panic is raised in
state `s`. -/
inductive Outcome (σ : Type) where
  | done (s : σ)
  | panic (msg : String) (s : σ)
  deriving DecidableEq, Repr

/-- The state in which the call ended. -/
def Outcome.state {σ : Type} : Outcome σ → σ
  | .done s => s
  | .panic _ s => s

/-- The call returned. -/
def Outcome.returned {σ : Type} : Outcome σ → Bool
  | .done _ => true
  | .panic _ _ => false

/-! ## The binder (`unmarshal.go`) -/

/-- Source `unmarshalStatusCode`: an `*int64` field receives the status code,
a field of any other type is left as it is. -/
def unmarshalStatusCode (v : Value) (statusCode : Int) : Value :=
  match v with
  | .ptrInt64 _ => .ptrInt64 (some statusCode)
  | _ => v

/-- The loop of `unmarshalHeaderMap` over the entries of the header collection,
with the map `out` built so far. `k[len(prefix):]` panics when the prefix is
longer than the key, `v[0]` when the entry has no value. -/
def unmarshalHeaderMap.loop (lib : StdLib) (pfx : GoString) :
    Header → StringMap → Outcome StringMap
  | [], out => .done out
  | (k0, v) :: rest, out =>
    let k := CanonicalHeaderKey k0
    if HasPrefix (strings.ToLower lib k) (strings.ToLower lib pfx) then
      if k.length < pfx.length then .panic "slice bounds out of range" out
      else
        match v with
        | [] => .panic "index out of range" out
        | v0 :: _ => unmarshalHeaderMap.loop lib pfx rest (out.insert (k.drop pfx.length) v0)
    else unmarshalHeaderMap.loop lib pfx rest out

/-- Source `unmarshalHeaderMap`: the new value of the field `r`; the error it
returns is always nil. -/
def unmarshalHeaderMap (lib : StdLib) (r : Value) (headers : Header) (pfx : GoString) :
    Outcome Value :=
  match r with
  | .stringMap _ =>
    match unmarshalHeaderMap.loop lib pfx headers [] with
    | .done out => .done (.stringMap (some out))
    | .panic msg _ => .panic msg r
  | _ => .done r

/-- The type switch of `unmarshalHeader`: the new value of the field and the
error returned. -/
def unmarshalHeader.coerce (lib : StdLib) (v : Value) (header : GoString) :
    Outcome (Value × Option GoError) :=
  match v with
  | .ptrString _ => .done (.ptrString (some header), none)
  | .bytes _ =>
    match DecodeString header with
    | .error err => .done (v, some err)
    | .ok _ =>
      .panic "reflect.Set: value of type *[]uint8 is not assignable to type []uint8" (v, none)
  | .ptrBool _ =>
    match ParseBool header with
    | .error err => .done (v, some err)
    | .ok b => .done (.ptrBool (some b), none)
  | .ptrInt64 _ =>
    match ParseInt header with
    | .error err => .done (v, some err)
    | .ok i => .done (.ptrInt64 (some i), none)
  | .ptrFloat64 _ =>
    match lib.ParseFloat header with
    | .error err => .done (v, some err)
    | .ok f => .done (.ptrFloat64 (some f), none)
  | .ptrTime _ =>
    match lib.TimeParse RFC822 header with
    | .error err => .done (v, some err)
    | .ok t => .done (.ptrTime (some t), none)
  | _ => .done (v, some (.unsupportedValue v.typeString))

/-- Source `unmarshalHeader`: the new value of the field and the error
returned. The Value of a struct field is always valid, and the guard evaluates
`v.Elem()` only when the header is empty. -/
def unmarshalHeader (lib : StdLib) (v : Value) (header : GoString) :
    Outcome (Value × Option GoError) :=
  if header = [] then
    match v.elemKind with
    | none => .panic "reflect: call of reflect.Value.Elem on a Value that is no pointer" (v, none)
    | some k => if k ≠ Kind.String then .done (v, none) else unmarshalHeader.coerce lib v header
  else unmarshalHeader.coerce lib v header

/-- The error that the binder puts on the request. -/
def decodeError (err : GoError) : APIError :=
  apierr.New (str "Unmarshal") (str "failed to decode REST response") err

/-- The header name of a field: `name := field.Tag.Get("locationName")`, and
`field.Name` when that is empty. -/
def Field.wireName (f : Field) : GoString :=
  if f.Tag.Get (str "locationName") = [] then f.Name else f.Tag.Get (str "locationName")

/-- The body of one iteration of the loop of `unmarshalLocationElements` for an
exported field: the switch on the `location` tag. It gives the new value of the
field and the new `r.Error`. -/
def unmarshalLocationElements.field (lib : StdLib) (resp : Response) (err : Option APIError)
    (f : Field) : Outcome (Value × Option APIError) :=
  let location := f.Tag.Get (str "location")
  if location = str "statusCode" then
    .done (unmarshalStatusCode f.Value resp.StatusCode, err)
  else if location = str "header" then
    match unmarshalHeader lib f.Value (resp.Header.Get f.wireName) with
    | .done (m, none) => .done (m, err)
    | .done (m, some e) => .done (m, some (decodeError e))
    | .panic msg (m, _) => .panic msg (m, err)
  else if location = str "headers" then
    match unmarshalHeaderMap lib f.Value resp.Header (f.Tag.Get (str "locationName")) with
    | .done m => .done (m, err)
    | .panic msg m => .panic msg (m, err)
  else .done (f.Value, err)

/-- The loop of `unmarshalLocationElements` over the fields not visited yet,
after the visited fields `seen`. The test `n[0:1] == strings.ToLower(n[0:1])`
is embedded for a name that starts with an ASCII byte. -/
def unmarshalLocationElements.loop (lib : StdLib) (r : Request) (v : Shape) (seen : List Field) :
    List Field → Outcome (Request × Shape)
  | [] => .done (r, { v with fields := seen })
  | f :: rest =>
    match f.Name with
    | [] => .panic "slice bounds out of range" (r, { v with fields := seen ++ f :: rest })
    | c :: _ =>
      if [c] = ToLower [c] then unmarshalLocationElements.loop lib r v (seen ++ [f]) rest
      else
        match unmarshalLocationElements.field lib r.HTTPResponse r.Error f with
        | .panic msg (m, e) =>
          .panic msg ({ r with Error := e }, { v with fields := seen ++ { f with Value := m } :: rest })
        | .done (m, e) =>
          if e.isSome then
            .done ({ r with Error := e }, { v with fields := seen ++ { f with Value := m } :: rest })
          else
            unmarshalLocationElements.loop lib { r with Error := e } v
              (seen ++ [{ f with Value := m }]) rest

/-- Source `unmarshalLocationElements`. -/
def unmarshalLocationElements (lib : StdLib) (r : Request) (v : Shape) : Outcome (Request × Shape) :=
  unmarshalLocationElements.loop lib r v [] v.fields

/-- The request with another body. -/
def Request.withBody (r : Request) (b : Body) : Request :=
  { r with HTTPResponse := { r.HTTPResponse with Body := b } }

/-- The assignment to the payload field in `unmarshalBody`, for the field
`payload` found by `v.FieldByName(payloadName)`. -/
def unmarshalBody.payload (r : Request) (v : Shape) (payload : Field) : Outcome (Request × Shape) :=
  if !isExported payload.Name then
    .panic "reflect.Value.Interface: cannot return value obtained from unexported field" (r, v)
  else
    match payload.Value with
    | .bytes _ =>
      match ReadAll r.HTTPResponse.Body with
      | (_, some err, body) => .done ({ r.withBody body with Error := some (decodeError err) }, v)
      | (b, none, body) => .done (r.withBody body, v.setField payload.Name (.bytes (some b)))
    | .ptrString _ =>
      match ReadAll r.HTTPResponse.Body with
      | (_, some err, body) => .done ({ r.withBody body with Error := some (decodeError err) }, v)
      | (b, none, body) => .done (r.withBody body, v.setField payload.Name (.ptrString (some b)))
    | .stream ty _ =>
      if ty = str "io.ReadSeeker" then
        .done (r, v.setField payload.Name (.stream ty (some .readSeekCloser)))
      else if ty = str "aws.ReadSeekCloser" ∨ ty = str "io.ReadCloser" then
        .done (r, v.setField payload.Name (.stream ty (some .responseBody)))
      else
        .done ({ r with Error := some (decodeError (.unknownPayloadType ty)) }, v)
    | x =>
      if x.typeString = str "io.ReadSeeker" ∨ x.typeString = str "aws.ReadSeekCloser"
          ∨ x.typeString = str "io.ReadCloser" then
        .panic "reflect.Set: value is not assignable" (r, v)
      else
        .done ({ r with Error := some (decodeError (.unknownPayloadType x.typeString)) }, v)

/-- Source `unmarshalBody`. -/
def unmarshalBody (r : Request) (v : Shape) : Outcome (Request × Shape) :=
  match v.FieldByName (str "SDKShapeTraits") with
  | none => .done (r, v)
  | some field =>
    let payloadName := field.Tag.Get (str "payload")
    if payloadName = [] then .done (r, v)
    else
      -- `pfield` is the zero StructField, with an empty tag, when the name is unknown
      let ptag := match v.FieldByName payloadName with
        | some pfield => pfield.Tag.Get (str "type")
        | none => []
      if ptag = [] ∨ ptag = str "structure" then .done (r, v)
      else
        match v.FieldByName payloadName with
        | none => .done (r, v)
        | some payload => unmarshalBody.payload r v payload

/-- Source `Unmarshal`: the payload first, the location elements next. -/
def Unmarshal (lib : StdLib) (r : Request) : Outcome Request :=
  match r.Data with
  | none => .done r
  | some v =>
    match unmarshalBody r v with
    | .panic msg (r1, v1) => .panic msg { r1 with Data := some v1 }
    | .done (r1, v1) =>
      match unmarshalLocationElements lib r1 v1 with
      | .panic msg (r2, v2) => .panic msg { r2 with Data := some v2 }
      | .done (r2, v2) => .done { r2 with Data := some v2 }

/-! ## Notions of the specification -/

/-- The same byte, or the same ASCII letter in its two cases. -/
def sameLetter (a b : Nat) : Bool :=
  a == b || (decide (65 ≤ a ∧ a ≤ 90) && b == a + 32) || (decide (65 ≤ b ∧ b ≤ 90) && a == b + 32)

/-- Equality of two texts ignoring letter case. -/
def EqualFold : GoString → GoString → Bool
  | [], [] => true
  | a :: s, b :: t => sameLetter a b && EqualFold s t
  | _, _ => false

/-- The text `s` starts with the ASCII text `p`, ignoring letter case:
character by character, the lower case of the character of `s` is the lower
case of the byte of `p`. The characters of `s` are its runes in UTF-8, a byte
that starts no valid encoding counting as the character `RuneError`. -/
def StartsWithFold (lib : StdLib) : GoString → GoString → Bool
  | _, [] => true
  | s, b :: p =>
    match s with
    | [] => false
    | _ :: _ =>
      (lib.ToLowerRune (DecodeRune s).1 == lowerByte b)
        && StartsWithFold lib (s.drop (DecodeRune s).2) p

/-- The entries that the specification gives a header map with prefix `p`: for
each header whose canonical name starts with `p` ignoring case, the canonical
name without its first `len(p)` bytes, with the first value of the header. -/
def headerMapSpec (lib : StdLib) (p : GoString) (hs : Header) : StringMap :=
  hs.filterMap (fun e =>
    if StartsWithFold lib (CanonicalHeaderKey e.1) p then
      some ((CanonicalHeaderKey e.1).drop p.length, e.2.headD [])
    else none)

/-! ## Data of the protocol tests -/

/-- The `X-` header map field of the protocol test. -/
def prefixedHeadersField : Field :=
  { Name := str "PrefixedHeaders"
    Tag := [(str "location", str "headers"), (str "locationName", str "X-"), (str "type", str "map")]
    Value := .stringMap none }

/-- The header map field of the protocol test that has no prefix. -/
def allHeadersField : Field :=
  { Name := str "AllHeaders"
    Tag := [(str "location", str "headers"), (str "type", str "map")]
    Value := .stringMap none }

/-- The response of the header map protocol test. -/
def headerMapResponse : Response :=
  { StatusCode := 200
    Header := Header.Set (Header.Set (Header.Set [] (str "Content-Length") (str "10"))
      (str "X-bam") (str "boo")) (str "x-Foo") (str "bar")
    Body := { data := str "\x7b\x7d", err := none, reads := 0 } }

/-- A table for `unicode.ToLower` in evaluations: the ASCII letters, and the
Kelvin sign `U+212A`, whose lower case is the letter `k`. -/
def lowerRune (r : Nat) : Nat :=
  if r < 128 then lowerByte r else if r = 8490 then 107 else r

/-- A library whose float and time parsers reject every text. -/
def noLib : StdLib :=
  { ParseFloat := fun s => .error (.numError "ParseFloat" s false)
    TimeParse := fun layout value => .error (.timeParse layout value)
    ToLowerRune := lowerRune
    toLower_ascii := fun r h => by simp [lowerRune, h] }

/-- A request with this response and this result structure, no error yet. -/
def mkRequest (resp : Response) (v : Shape) : Request :=
  { Error := none, HTTPResponse := resp, Data := some v }

/-- A response with status 200, no header and an empty JSON body. -/
def emptyResponse : Response :=
  { StatusCode := 200, Header := [], Body := { data := str "\x7b\x7d", err := none, reads := 0 } }

/-- A result structure with one blob field bound to a header:
`Blob []byte` tagged `location:"header" type:"blob"`. -/
def blobHeaderShape : Shape :=
  { fields := [{ Name := str "Blob"
                 Tag := [(str "location", str "header"), (str "type", str "blob")]
                 Value := .bytes none }]
    promoted := [] }

/-- The header fields of the scalar members protocol test: `ImaHeader` has no
locationName, `ImaHeaderLocation` has locationName `X-Foo`. -/
def imaHeaderField : Field :=
  { Name := str "ImaHeader"
    Tag := [(str "location", str "header"), (str "type", str "string")]
    Value := .ptrString none }

def imaHeaderLocationField : Field :=
  { Name := str "ImaHeaderLocation"
    Tag := [(str "location", str "header"), (str "locationName", str "X-Foo"),
      (str "type", str "string")]
    Value := .ptrString none }

/-- The status code field of the scalar members protocol test. -/
def statusField : Field :=
  { Name := str "Status"
    Tag := [(str "location", str "statusCode"), (str "type", str "integer")]
    Value := .ptrInt64 none }

/-- The response of the scalar members protocol test. -/
def scalarResponse : Response :=
  { StatusCode := 200
    Header := Header.Set (Header.Set [] (str "ImaHeader") (str "test")) (str "X-Foo") (str "abc")
    Body := { data := str "\x7b\x22Str\x22: \x22myname\x22, \x22Num\x22: 123, \x22TrueBool\x22: true\x7d", err := none,
              reads := 0 } }


/-- The result structure of the scalar members protocol test: the members
bound from the body (their tags name no location), the two header members,
the status code member, and the embedded metadata struct. -/
def scalarShape : Shape :=
  { fields :=
      [{ Name := str "Char", Tag := [(str "type", str "character")], Value := .ptrString none },
       imaHeaderField,
       imaHeaderLocationField,
       { Name := str "Num", Tag := [(str "type", str "integer")], Value := .ptrInt64 none },
       statusField,
       { Name := str "Str", Tag := [(str "type", str "string")], Value := .ptrString none },
       { Name := str "TrueBool", Tag := [(str "type", str "boolean")], Value := .ptrBool none },
       { Name := str "metadataOutputService1TestShapeOutputShape"
         Tag := [(str "json", str "-"), (str "xml", str "-")]
         Value := .other (str "restjson_test.metadataOutputService1TestShapeOutputShape") none }]
    promoted :=
      [{ Name := str "SDKShapeTraits", Tag := [(str "type", str "structure")]
         Value := .other (str "bool") none }] }


/-- The result structures of the payload protocol tests: one payload member
`name` of value `x` tagged with `type`, and the embedded metadata struct whose
`SDKShapeTraits` names it as payload. -/
def payloadShape (name ty : GoString) (x : Value) : Shape :=
  { fields :=
      [{ Name := name, Tag := [(str "type", ty)], Value := x },
       { Name := str "metadataOutputShape", Tag := [(str "json", str "-"), (str "xml", str "-")]
         Value := .other (str "restjson_test.metadataOutputShape") none }]
    promoted :=
      [{ Name := str "SDKShapeTraits"
         Tag := [(str "type", str "structure"), (str "payload", name)]
         Value := .other (str "bool") none }] }

/-- A response with status 200, no header and the body `b`. -/
def bodyResponse (b : GoString) : Response :=
  { StatusCode := 200, Header := [], Body := { data := b, err := none, reads := 0 } }


/-- The result structure of the JSON payload protocol test: the payload member
`Data` is a structure, `Header` is bound to the header `X-Foo`. -/
def jsonPayloadShape : Shape :=
  { fields :=
      [{ Name := str "Data", Tag := [(str "type", str "structure")]
         Value := .other (str "*restjson_test.OutputService10TestShapeBodyStructure")
           (some Kind.Invalid) },
       { Name := str "Header"
         Tag := [(str "location", str "header"), (str "locationName", str "X-Foo"),
           (str "type", str "string")]
         Value := .ptrString none },
       { Name := str "metadataOutputService10TestShapeOutputShape"
         Tag := [(str "json", str "-"), (str "xml", str "-")]
         Value := .other (str "restjson_test.metadataOutputService10TestShapeOutputShape") none }]
    promoted :=
      [{ Name := str "SDKShapeTraits"
         Tag := [(str "type", str "structure"), (str "payload", str "Data")]
         Value := .other (str "bool") none }] }

/-- The response of the JSON payload protocol test. -/
def jsonPayloadResponse : Response :=
  { StatusCode := 200
    Header := Header.Set [] (str "X-Foo") (str "baz")
    Body := { data := str "\x7b\x22Foo\x22: \x22abc\x22\x7d", err := none, reads := 0 } }


/-- The field as a bind in which nothing fails leaves it: an exported field has
the value that the switch on its location gives it, an unexported field is
skipped. -/
def boundField (lib : StdLib) (resp : Response) (f : Field) : Field :=
  if isExported f.Name then
    { f with Value := (unmarshalLocationElements.field lib resp none f).state.1 }
  else f

/-- The switch on the location of the field returns without an error. -/
def bindsCleanly (lib : StdLib) (resp : Response) (f : Field) : Bool :=
  match unmarshalLocationElements.field lib resp none f with
  | .done (_, none) => true
  | _ => false

/-- A result structure with a status code member, an integer header member and
a string header member, in this order. -/
def failFastShape : Shape :=
  { fields :=
      [statusField,
       { Name := str "Num", Tag := [(str "location", str "header"), (str "type", str "integer")]
         Value := .ptrInt64 none },
       { Name := str "After", Tag := [(str "location", str "header"), (str "type", str "string")]
         Value := .ptrString none }]
    promoted := [] }

/-- A response whose header `Num` is no number. -/
def failFastResponse : Response :=
  { StatusCode := 200
    Header := Header.Set (Header.Set [] (str "Num") (str "abc")) (str "After") (str "xyz")
    Body := { data := [], err := none, reads := 0 } }


/-- A result structure with an integer header member followed by a blob
payload member: `Num *int64` tagged `location:"header"`, `Stream []byte` named
as payload by `SDKShapeTraits`. -/
def headerThenPayloadShape : Shape :=
  { fields :=
      [{ Name := str "Num", Tag := [(str "location", str "header"), (str "type", str "integer")]
         Value := .ptrInt64 none },
       { Name := str "Stream", Tag := [(str "type", str "blob")], Value := .bytes none },
       { Name := str "metadataOutputShape", Tag := [(str "json", str "-"), (str "xml", str "-")]
         Value := .other (str "restjson_test.metadataOutputShape") none }]
    promoted :=
      [{ Name := str "SDKShapeTraits"
         Tag := [(str "type", str "structure"), (str "payload", str "Stream")]
         Value := .other (str "bool") none }] }

/-- A response whose header `Num` is no number, with the body `abc`. -/
def headerThenPayloadResponse : Response :=
  { StatusCode := 200
    Header := Header.Set [] (str "Num") (str "abc")
    Body := { data := str "abc", err := none, reads := 0 } }


/-- A byte that base64 text cannot hold: no byte of the alphabet, no padding
and no line break. -/
def illegalBase64Byte (c : Nat) : Bool :=
  (decodeMap c).isNone && c != 61 && c != 10 && c != 13

/-- A response whose header `Blob` is `v`. -/
def blobResponse (v : GoString) : Response :=
  { StatusCode := 200
    Header := Header.Set [] (str "Blob") v
    Body := { data := [], err := none, reads := 0 } }


/-! ## Notions of the specification for the scalar coercers -/

/-- The texts that denote `true`. -/
def trueTokens : List GoString :=
  [str "1", str "t", str "T", str "TRUE", str "true", str "True"]

/-- The texts that denote `false`. -/
def falseTokens : List GoString :=
  [str "0", str "f", str "F", str "FALSE", str "false", str "False"]

/-- A text of at least one decimal digit. -/
def isDigits (ds : GoString) : Bool :=
  !ds.isEmpty && ds.all (fun c => decide (48 ≤ c ∧ c ≤ 57))

/-- The number that a text of decimal digits denotes. -/
def digitsValue (ds : GoString) : Nat :=
  ds.foldl (fun n d => n * 10 + (d - 48)) 0

/-- The integer that a text denotes when it is an optional sign followed by
decimal digits, `none` for any other text. -/
def signedDecimal (s : GoString) : Option Int :=
  match s with
  | [] => none
  | c :: cs =>
    if c = 45 then (if isDigits cs then some (-(digitsValue cs : Int)) else none)
    else if c = 43 then (if isDigits cs then some (digitsValue cs : Int) else none)
    else if isDigits (c :: cs) then some (digitsValue (c :: cs) : Int) else none

/-- The decimal digits of `n`, most significant first, before the digits
`acc`; `fuel` bounds the number of digits. -/
def formatDigits : Nat → Nat → GoString → GoString
  | 0, _, acc => acc
  | fuel + 1, n, acc =>
    if n < 10 then (n + 48) :: acc
    else formatDigits fuel (n / 10) ((n % 10 + 48) :: acc)

/-- Go `strconv.FormatInt(n, 10)`: the decimal rendering of `n`. -/
def FormatInt (n : Int) : GoString :=
  if n < 0 then 45 :: formatDigits (n.natAbs + 1) n.natAbs []
  else formatDigits (n.natAbs + 1) n.natAbs []

/-- A library that knows one date of the layout `RFC822`,
`Tue, 29 Apr 2014 18:30:38 GMT`, the second 1398796238 of the epoch, and
rejects every other text, as `time.Parse` does for a text that is no date of
the layout. -/
def dateLib : StdLib :=
  { ParseFloat := fun s => .error (.numError "ParseFloat" s false)
    TimeParse := fun layout value =>
      if layout = RFC822 ∧ value = str "Tue, 29 Apr 2014 18:30:38 GMT" then
        .ok 1398796238000000000
      else .error (.timeParse layout value)
    ToLowerRune := lowerRune
    toLower_ascii := fun r h => by simp [lowerRune, h] }

/-- A header field of name `name` and value `x`, with the tags `more` after
its location. -/
def headerField (name : GoString) (more : StructTag) (x : Value) : Field :=
  { Name := name, Tag := (str "location", str "header") :: more, Value := x }

/-- A response with status 200, an empty body and the headers `hs`. -/
def headerResponse (hs : Header) : Response :=
  { StatusCode := 200, Header := hs, Body := { data := [], err := none, reads := 0 } }


/-- A timestamp header field `Stamp` that declares the timestamp format
`format`. -/
def stampField (format : GoString) : Field :=
  headerField (str "Stamp") [(str "type", str "timestamp"), (str "timestampFormat", format)]
    (.ptrTime none)

/-- A string field `Status` bound to the status code. -/
def stringStatusField : Field :=
  { Name := str "Status"
    Tag := [(str "location", str "statusCode"), (str "type", str "string")]
    Value := .ptrString none }


/-- The response of `headerThenPayloadResponse` with a body whose read fails
with `unexpected EOF` after two bytes. -/
def brokenBodyResponse : Response :=
  { StatusCode := 200
    Header := Header.Set [] (str "Num") (str "abc")
    Body := { data := str "ab", err := some (str "unexpected EOF"), reads := 0 } }


/-! ## Notions of the specification for the order of enumeration -/

/-- The request with another header collection. -/
def Request.withHeader (r : Request) (hs : Header) : Request :=
  { r with HTTPResponse := { r.HTTPResponse with Header := hs } }

/-- Two field values are the same value: they are equal, or they are string
maps with the same entries (the entries of a Go map have no order). -/
def sameValue (a b : Value) : Prop :=
  a = b ∨ ∃ m m' : StringMap, a = .stringMap (some m) ∧ b = .stringMap (some m') ∧ m.Perm m'

/-- Two fields are the same field with the same value. -/
def sameField (f g : Field) : Prop :=
  f.Name = g.Name ∧ f.Tag = g.Tag ∧ sameValue f.Value g.Value

/-- The test of `unmarshalHeaderMap` on an entry of the header collection: the
lower-cased canonical name starts with the lower-cased prefix. -/
def matchesPrefix (lib : StdLib) (p : GoString) (e : GoString × List GoString) : Bool :=
  HasPrefix (strings.ToLower lib (CanonicalHeaderKey e.1)) (strings.ToLower lib p)

/-- The entries of a header map with prefix `p`, in the order of enumeration:
for each header that matches the prefix, the canonical name without its first
`len(p)` bytes, with the first value of the header. -/
def headerMapOf (lib : StdLib) (p : GoString) (hs : Header) : StringMap :=
  hs.filterMap (fun e =>
    if matchesPrefix lib p e then some ((CanonicalHeaderKey e.1).drop p.length, e.2.headD [])
    else none)

/-- The first value of the header that is enumerated last among the headers
that match the prefix `p` and give the stripped key `key`; `none` when there is
no such header. -/
def lastValue (lib : StdLib) (p : GoString) (hs : Header) (key : GoString) : Option GoString :=
  (hs.reverse.find? (fun e =>
    matchesPrefix lib p e && ((CanonicalHeaderKey e.1).drop p.length == key))).map
    (fun e => e.2.headD [])

/-- No two headers that match the prefix `p` give the same stripped key. -/
def noCollision (lib : StdLib) (p : GoString) (hs : Header) : Prop :=
  hs.Pairwise (fun a b =>
    matchesPrefix lib p a = true → matchesPrefix lib p b = true →
    (CanonicalHeaderKey a.1).drop p.length ≠ (CanonicalHeaderKey b.1).drop p.length)

/-- A header collection with two names that differ in case only. -/
def collidingHeaders : Header :=
  [(str "x-foo", [str "a"]), (str "X-Foo", [str "b"])]


/-- Two outcomes of the bind of one field are the same: both return or both
panic, with the same error and the same value. -/
def sameFieldOutcome (o o' : Outcome (Value × Option APIError)) : Prop :=
  o.returned = o'.returned ∧ o.state.2 = o'.state.2 ∧ sameValue o.state.1 o'.state.1

/-- Two outcomes of a bind are the same: both return or both panic, with the
same error, field for field the same values, and the same promoted fields. -/
def sameRun (o o' : Outcome (Request × Shape)) : Prop :=
  o.returned = o'.returned ∧ o.state.1.Error = o'.state.1.Error ∧
    List.Forall₂ sameField o.state.2.fields o'.state.2.fields ∧
    o.state.2.promoted = o'.state.2.promoted


/-- The result structure of the header map protocol test. -/
def headerMapShape : Shape :=
  { fields :=
      [allHeadersField,
       prefixedHeadersField,
       { Name := str "metadataOutputService9TestShapeOutputShape"
         Tag := [(str "json", str "-"), (str "xml", str "-")]
         Value := .other (str "restjson_test.metadataOutputService9TestShapeOutputShape") none }]
    promoted :=
      [{ Name := str "SDKShapeTraits", Tag := [(str "type", str "structure")]
         Value := .other (str "bool") none }] }


/-- The byte of the base64 alphabet for a sextet. -/
def encodeChar (s : Nat) : Nat :=
  if s < 26 then s + 65 else if s < 52 then s + 71 else if s < 62 then s - 4
  else if s = 62 then 43 else 47

/-- Go `base64.StdEncoding.EncodeToString`: four bytes of the alphabet for
every three bytes, the last group padded with `=`. -/
def EncodeToString : GoString → GoString
  | [] => []
  | [a] => [encodeChar (a / 4), encodeChar (a % 4 * 16), 61, 61]
  | [a, b] => [encodeChar (a / 4), encodeChar (a % 4 * 16 + b / 16), encodeChar (b % 16 * 4), 61]
  | a :: b :: c :: rest =>
    encodeChar (a / 4) :: encodeChar (a % 4 * 16 + b / 16) :: encodeChar (b % 16 * 4 + c / 64)
      :: encodeChar (c % 64) :: EncodeToString rest


/-- A result structure with an integer header member followed by a payload
member of a type that the payload step does not know: `Num *int64` tagged
`location:"header"`, `Count *int64` tagged `type:"integer"` and named as
payload by `SDKShapeTraits`. -/
def headerThenUnknownPayloadShape : Shape :=
  { fields :=
      [{ Name := str "Num", Tag := [(str "location", str "header"), (str "type", str "integer")]
         Value := .ptrInt64 none },
       { Name := str "Count", Tag := [(str "type", str "integer")], Value := .ptrInt64 none },
       { Name := str "metadataOutputShape", Tag := [(str "json", str "-"), (str "xml", str "-")]
         Value := .other (str "restjson_test.metadataOutputShape") none }]
    promoted :=
      [{ Name := str "SDKShapeTraits"
         Tag := [(str "type", str "structure"), (str "payload", str "Count")]
         Value := .other (str "bool") none }] }


/-! ## Notions of the specification for the frame of the location dispatcher -/

/-- The name starts with a lower-case letter: the field is unexported. -/
def startsLower (name : GoString) : Bool :=
  match name with
  | [] => false
  | c :: _ => decide (97 ≤ c ∧ c ≤ 122)

/-- The `location` tag of the field is one of `statusCode`, `header`, `headers`. -/
def hasLocation (f : Field) : Bool :=
  f.Tag.Get (str "location") == str "statusCode" || f.Tag.Get (str "location") == str "header"
    || f.Tag.Get (str "location") == str "headers"

/-- The dispatcher is not told to bind the field: it is unexported, or its
location tag is none of the three. -/
def notBound (f : Field) : Bool := startsLower f.Name || !hasLocation f

/-- The coercion of the header value of a header-bound field returns an error. -/
def coercionFails (lib : StdLib) (resp : Response) (f : Field) : Bool :=
  f.Tag.Get (str "location") == str "header" &&
    match unmarshalHeader lib f.Value (resp.Header.Get f.wireName) with
    | .done (_, some _) => true
    | _ => false

/-- The field `g` after the bind is the field `f` before it, with the same
value when the dispatcher is not told to bind it. -/
def framed (f g : Field) : Prop :=
  g.Name = f.Name ∧ g.Tag = f.Tag ∧ (notBound f = true → g.Value = f.Value)

/-- A result structure with a bound member between two members that the
dispatcher is not told to bind: an unexported member tagged as a header and an
exported member without a location. -/
def frameShape : Shape :=
  { fields :=
      [{ Name := str "hidden", Tag := [(str "location", str "header"), (str "locationName", str "x-amz-num")]
         Value := .ptrInt64 (some 7) },
       { Name := str "Num", Tag := [(str "location", str "header"), (str "locationName", str "x-amz-num")]
         Value := .ptrInt64 none },
       { Name := str "Body", Tag := [(str "type", str "string")], Value := .ptrString (some (str "kept")) }]
    promoted := [] }

/-- A response whose header `X-Amz-Num` holds `42`. -/
def frameResponse : Response :=
  { StatusCode := 200, Header := [(str "X-Amz-Num", [str "42"])]
    Body := { data := [], err := none, reads := 0 } }


/-- Two headers, the first with a name that is not ASCII: the Kelvin sign
U+212A (bytes e2 84 aa) followed by `-foo`. -/
def kelvinHeaders : Header :=
  [([226, 132, 170, 45, 102, 111, 111], [str "bar"]), (str "X-Bam", [str "boo"])]

end rest

/-! # Errors of package `apierr` without a cause -/

namespace awserr

open rest (GoString str)

/-- Modelled from the spec: the error value that `apierr.New(code, message, nil)`
makes (package `internal/apierr`): a code and a message, no original error. -/
structure Error where
  Code : GoString
  Message : GoString
  deriving DecidableEq, Repr

/-- Modelled from the spec: `apierr.New(code, message, nil)` stores its
arguments. -/
def New (code message : GoString) : Error :=
  { Code := code, Message := message }

end awserr

/-! # Credential providers (`aws/credentials`) -/

namespace credentials

open rest (GoString str)

/-- Source `ErrNoValidProvidersFoundInChain`. -/
def ErrNoValidProvidersFoundInChain : awserr.Error :=
  awserr.New (str "NoCredentialProviders") (str "no valid providers in chain")

/-- Source `ErrStaticCredentialsEmpty`. -/
def ErrStaticCredentialsEmpty : awserr.Error :=
  awserr.New (str "EmptyStaticCreds") (str "static credentials are empty")

/-- The credentials `Value` (declared in `credentials.go`): the three strings
that `NewStaticCredentials` stores. The zero value `Value{}` has three empty
strings. -/
structure Value where
  AccessKeyID : GoString
  SecretAccessKey : GoString
  SessionToken : GoString
  deriving DecidableEq, Repr

/-- Modelled from the spec: an object behind the `Provider` interface (declared
in `credentials.go`): its state, and its two methods as functions of the state.
`retrieve` gives the value, the error (`none` is nil) and the state after the
call. -/
structure Provider (σ : Type) where
  state : σ
  retrieve : σ → Value × Option awserr.Error × σ
  isExpired : σ → Bool

/-- A call of `p.Retrieve()`: the value, the error, and the provider after the
call. -/
def Provider.Retrieve {σ : Type} (p : Provider σ) : Value × Option awserr.Error × Provider σ :=
  ((p.retrieve p.state).1, (p.retrieve p.state).2.1, { p with state := (p.retrieve p.state).2.2 })

/-- A call of `p.IsExpired()`. -/
def Provider.IsExpired {σ : Type} (p : Provider σ) : Bool := p.isExpired p.state

/-- Source `StaticProvider`: a struct that embeds a `Value`. -/
structure StaticProvider where
  Value : Value
  deriving DecidableEq, Repr

/-- Source `StaticProvider.Retrieve`; the receiver is not modified. -/
def StaticProvider.Retrieve (s : StaticProvider) : credentials.Value × Option awserr.Error :=
  if s.Value.AccessKeyID = [] ∨ s.Value.SecretAccessKey = [] then
    ({ AccessKeyID := [], SecretAccessKey := [], SessionToken := [] }, some ErrStaticCredentialsEmpty)
  else (s.Value, none)

/-- Source `StaticProvider.IsExpired`. -/
def StaticProvider.IsExpired (_s : StaticProvider) : Bool := false

/-- Source `NewStaticCredentials`, as far as the provider it wraps. -/
def NewStaticCredentials (id secret token : GoString) : StaticProvider :=
  { Value := { AccessKeyID := id, SecretAccessKey := secret, SessionToken := token } }

/-- The static provider as an object behind the `Provider` interface. -/
def StaticProvider.asProvider (s : StaticProvider) : Provider StaticProvider :=
  { state := s
    retrieve := fun t => (t.Retrieve.1, t.Retrieve.2, t)
    isExpired := StaticProvider.IsExpired }

/-- Source `stubProvider` of `credentials_test.go`. -/
structure stubProvider where
  creds : Value
  expired : Bool
  err : Option awserr.Error
  deriving DecidableEq, Repr

/-- Source `stubProvider.Retrieve`: it resets `expired`. -/
def stubProvider.Retrieve (s : stubProvider) : Value × Option awserr.Error × stubProvider :=
  (s.creds, s.err, { s with expired := false })

/-- Source `stubProvider.IsExpired`. -/
def stubProvider.IsExpired (s : stubProvider) : Bool := s.expired

/-- The stub as an object behind the `Provider` interface. -/
def stubProvider.asProvider (s : stubProvider) : Provider stubProvider :=
  { state := s, retrieve := stubProvider.Retrieve, isExpired := stubProvider.IsExpired }

/-- Source `ChainProvider`. The providers of the list are distinct objects;
`curr`, a reference to one of them, is its position in the list, `none` for
nil. -/
structure ChainProvider (σ : Type) where
  Providers : List (Provider σ)
  curr : Option Nat

/-- The loop of `ChainProvider.Retrieve` over the providers not called yet,
after the providers `seen` that were called and failed. -/
def ChainProvider.Retrieve.loop {σ : Type} (seen : List (Provider σ)) :
    List (Provider σ) → Value × Option awserr.Error × ChainProvider σ
  | [] =>
    ({ AccessKeyID := [], SecretAccessKey := [], SessionToken := [] },
      some ErrNoValidProvidersFoundInChain, { Providers := seen, curr := none })
  | p :: rest =>
    match p.Retrieve with
    | (creds, none, p1) => (creds, none, { Providers := seen ++ p1 :: rest, curr := some seen.length })
    | (_, some _, p1) => ChainProvider.Retrieve.loop (seen ++ [p1]) rest

/-- Source `ChainProvider.Retrieve`: the value, the error and the chain after
the call. -/
def ChainProvider.Retrieve {σ : Type} (c : ChainProvider σ) :
    Value × Option awserr.Error × ChainProvider σ :=
  ChainProvider.Retrieve.loop [] c.Providers

/-- Source `ChainProvider.IsExpired`. A position outside the list, which no call
of `Retrieve` leaves in `curr`, is read as nil. -/
def ChainProvider.IsExpired {σ : Type} (c : ChainProvider σ) : Bool :=
  match c.curr with
  | some i =>
    match c.Providers.get? i with
    | some p => p.IsExpired
    | none => true
  | none => true

/-- The provider that `NewChainCredentials` wraps: a copy of the list, no
current provider. -/
def NewChainCredentials {σ : Type} (providers : List (Provider σ)) : ChainProvider σ :=
  { Providers := providers, curr := none }

/-- The states of a chain over the providers `ps` that calls of `Retrieve`
reach from the new chain. -/
inductive Reachable {σ : Type} (ps : List (Provider σ)) : ChainProvider σ → Prop where
  | new : Reachable ps (NewChainCredentials ps)
  | retrieve (c : ChainProvider σ) : Reachable ps c → Reachable ps c.Retrieve.2.2

/-- The call of `Retrieve` on the provider returns an error. -/
def Provider.fails {σ : Type} (p : Provider σ) : Bool := p.Retrieve.2.1.isSome

/-- A stub that returns the credentials of the given key without error. -/
def goodStub (id : String) (expired : Bool) : Provider stubProvider :=
  stubProvider.asProvider
    { creds := { AccessKeyID := str id, SecretAccessKey := str "SECRET", SessionToken := [] }
      expired := expired, err := none }

/-- A stub that returns an error. -/
def badStub : Provider stubProvider :=
  stubProvider.asProvider
    { creds := { AccessKeyID := [], SecretAccessKey := [], SessionToken := [] }
      expired := true, err := some (awserr.New (str "provider error") []) }

/-- A provider whose credentials can be retrieved once: the call returns what
the stub holds and leaves an error for the next call. -/
def oneShotStub : Provider stubProvider :=
  { state :=
      { creds := { AccessKeyID := str "AKID", SecretAccessKey := str "SECRET", SessionToken := [] }
        expired := true, err := none }
    retrieve := fun s =>
      (s.creds, s.err, { s with expired := false, err := some (awserr.New (str "used") []) })
    isExpired := stubProvider.IsExpired }

end credentials

/-! # The generator command (`internal/model/cli/gen-api`) -/

namespace genapi

open rest (GoString str Outcome)

/-- The loop of Go `strings.Split` for a separator of one byte: `cur` is the
piece read so far. -/
def Split.loop (sep : Nat) : GoString → GoString → List GoString
  | [], cur => [cur]
  | c :: cs, cur => if c = sep then cur :: Split.loop sep cs [] else Split.loop sep cs (cur ++ [c])

/-- Go `strings.Split(s, sep)` for a separator of one byte: the pieces between
the separators, one piece more than there are separators. -/
def Split (s : GoString) (sep : Nat) : List GoString := Split.loop sep s []

/-- Source `generateInfo`, as far as `newGenerateInfo` fills it: the package
name that the attached model gives, and the package directory as the two
elements that `filepath.Join` joins. -/
structure generateInfo where
  PackageName : GoString
  PackageDir : List GoString
  deriving DecidableEq, Repr

/-- The loop of `newGenerateInfo` over the names of `SERVICES`: `true` when it
returns nil. -/
def newGenerateInfo.skips (packageName : GoString) : List GoString → Bool
  | [] => false
  | s :: svcs => if s ≠ packageName then true else newGenerateInfo.skips packageName svcs

/-- Source `newGenerateInfo`. `services` is the value of the environment
variable `SERVICES`, `packageName` the result of `g.API.PackageName()` for the
attached model file; `none` is nil. -/
def newGenerateInfo (services packageName svcPath : GoString) : Option generateInfo :=
  if services ≠ [] ∧ newGenerateInfo.skips packageName (Split services 44) = true then none
  else some { PackageName := packageName, PackageDir := [svcPath, packageName] }

/-- The loop of `main` that removes old API versions, with `k` indices left to
visit: the next index is `idx = k - 1`, and `m` holds the keys of the map that
are set to true. `parts[len(parts)-2]` panics on a path of one component. -/
def removeOldVersions.loop (sep : Nat) : Nat → List GoString → List GoString →
    Outcome (List GoString)
  | 0, files, _ => .done files
  | k + 1, files, m =>
    let parts := Split (files.getD k []) sep
    if parts.length < 2 then .panic "index out of range" files
    else
      let svc := parts.getD (parts.length - 2) []
      removeOldVersions.loop sep k (if m.contains svc then files.set k [] else files) (svc :: m)

/-- The old-version removal pass of `main` over the sorted list `files`, for the
path separator `sep`. -/
def removeOldVersions (sep : Nat) (files : List GoString) : Outcome (List GoString) :=
  removeOldVersions.loop sep files.length files []

/-- The service name of a model file path: its second-to-last component. -/
def serviceOf (sep : Nat) (file : GoString) : GoString :=
  (Split file sep).getD ((Split file sep).length - 2) []

/-- Three model files of two services, sorted. -/
def modelFiles : List GoString :=
  [str "apis/ec2/2014-10-01.normal.json", str "apis/ec2/2015-03-01.normal.json",
   str "apis/s3/2006-03-01.normal.json"]

end genapi

/-! # Server-side encryption keys of S3 (`service/s3/sse.go`) -/

namespace s3

open rest (GoString str Header EncodeToString)

/-- Source `errSSERequiresSSL`. -/
def errSSERequiresSSL : awserr.Error :=
  awserr.New (str "ConfigError") (str "cannot send SSE keys over HTTP.")

/-- Modelled from the spec: the `*http.Request` of an `aws.Request`, as far as
`sse.go` reads it: the scheme of its URL and its header collection. -/
structure HTTPRequest where
  Scheme : GoString
  Header : Header
  deriving DecidableEq, Repr

/-- Modelled from the spec: the input parameters of the operation, as far as
the path `SSECustomerKey||CopySourceSSECustomerKey` reads them; `none` is a
member that is not set. -/
structure Params where
  SSECustomerKey : Option GoString
  CopySourceSSECustomerKey : Option GoString
  deriving DecidableEq, Repr

/-- Modelled from the spec: `awsutil.ValuesAtPath(params,
"SSECustomerKey||CopySourceSSECustomerKey")`, the values at the first of the
two alternatives that has any. -/
def ValuesAtPath (p : Params) : List GoString :=
  match p.SSECustomerKey with
  | some k => [k]
  | none =>
    match p.CopySourceSSECustomerKey with
    | some k => [k]
    | none => []

/-- Modelled from the spec: an `aws.Request` (declared in `aws/request.go`), as
far as `sse.go` uses it. -/
structure Request where
  Error : Option awserr.Error
  HTTPRequest : HTTPRequest
  Params : Params
  deriving DecidableEq, Repr

/-- Source `validateSSERequiresSSL`. The test of the scheme is commented out in
the source, the condition of the `if` is the constant `false`. -/
def validateSSERequiresSSL (r : Request) : Request :=
  if false then
    if (ValuesAtPath r.Params).length > 0 then { r with Error := some errSSERequiresSSL } else r
  else r

/-- Go `md5.Sum`, a parameter of the embedding: a digest of sixteen bytes. -/
structure MD5 where
  Sum : GoString → GoString
  size : ∀ data : GoString, (Sum data).length = 16

/-- The body of the loop of `computeSSEKeys` for the header name `h`. -/
def computeSSEKeys.header (md5 : MD5) (hdr : Header) (h : GoString) : Header :=
  let md5h := h ++ str "-md5"
  let key := hdr.Get h
  if key ≠ [] then
    let b64v := EncodeToString key
    let hdr1 := hdr.Set h b64v
    if hdr1.Get md5h = [] then hdr1.Set md5h (EncodeToString (md5.Sum key)) else hdr1
  else hdr

/-- The two header names of `computeSSEKeys`. -/
def sseKeyHeaders : List GoString :=
  [str "x-amz-server-side-encryption-customer-key",
   str "x-amz-copy-source-server-side-encryption-customer-key"]

/-- Source `computeSSEKeys`. -/
def computeSSEKeys (md5 : MD5) (r : Request) : Request :=
  { r with HTTPRequest :=
      { r.HTTPRequest with
        Header := sseKeyHeaders.foldl (computeSSEKeys.header md5) r.HTTPRequest.Header } }

/-- A stand-in for `md5.Sum` in evaluations: the first sixteen bytes of the
data followed by zeros. -/
def testMD5 : MD5 :=
  { Sum := fun data => (data ++ List.replicate 16 0).take 16
    size := fun data => by simp }

/-- A request over plain HTTP that carries a customer key. -/
def plainKeyRequest : Request :=
  { Error := none
    HTTPRequest :=
      { Scheme := str "http"
        Header := [(str "X-Amz-Server-Side-Encryption-Customer-Key", [str "key"])] }
    Params := { SSECustomerKey := some (str "key"), CopySourceSSECustomerKey := none } }

/-- A request whose caller has set the `-md5` header of the customer key
itself. -/
def presetMD5Request : Request :=
  { Error := none
    HTTPRequest :=
      { Scheme := str "https"
        Header := [(str "X-Amz-Server-Side-Encryption-Customer-Key", [str "key"]),
                   (str "X-Amz-Server-Side-Encryption-Customer-Key-Md5", [str "mine"])] }
    Params := { SSECustomerKey := some (str "key"), CopySourceSSECustomerKey := none } }

end s3

namespace rest


/-! ## Checks of the embedding on the protocol tests -/

theorem str_bytes : str "X-" = [88, 45] := by decide

theorem canonicalHeaderKey_checks :
    CanonicalHeaderKey (str "x-foo") = str "X-Foo" ∧
    CanonicalHeaderKey (str "content-LENGTH") = str "Content-Length" ∧
    CanonicalHeaderKey (str "X-bam") = str "X-Bam" ∧
    CanonicalHeaderKey (str "x foo") = str "x foo" ∧
    Header.Get (Header.Set [] (str "ImaHeader") (str "test")) (str "imaheader") = str "test" := by
  decide

theorem decodeString_checks :
    DecodeString (str "aGkh") = .ok (str "hi!") ∧
    DecodeString (str "dGhlcmUh") = .ok (str "there!") ∧
    DecodeString (str "YQ==") = .ok (str "a") ∧
    DecodeString (str "YWI=") = .ok (str "ab") ∧
    DecodeString (str "") = .ok [] ∧
    DecodeString (str "abc") = .error .corruptInput ∧
    DecodeString (str "YQ=") = .error .corruptInput ∧
    DecodeString (str "YQ==YQ==") = .error .corruptInput :=
  ⟨rfl, rfl, rfl, rfl, rfl, rfl, rfl, rfl⟩

theorem parseInt_checks :
    ParseInt (str "123") = .ok 123 ∧
    ParseInt (str "-42") = .ok (-42) ∧
    ParseInt (str "+7") = .ok 7 ∧
    ParseInt (str "9223372036854775807") = .ok 9223372036854775807 ∧
    ParseInt (str "-9223372036854775808") = .ok (-9223372036854775808) ∧
    ParseInt (str "9223372036854775808") = .error (.numError "ParseInt" (str "9223372036854775808") true) ∧
    ParseInt (str "abc") = .error (.numError "ParseInt" (str "abc") false) ∧
    ParseInt (str "-") = .error (.numError "ParseInt" (str "-") false) ∧
    ParseInt (str "") = .error (.numError "ParseInt" (str "") false) ∧
    ParseInt (str "12x") = .error (.numError "ParseInt" (str "12x") false) ∧
    ParseInt (str "99999999999999999999x")
      = .error (.numError "ParseInt" (str "99999999999999999999x") true) ∧
    ParseInt (str "-18446744073709551616")
      = .error (.numError "ParseInt" (str "-18446744073709551616") true) :=
  ⟨rfl, rfl, rfl, rfl, rfl, rfl, rfl, rfl, rfl, rfl, rfl, rfl⟩

theorem parseBool_checks :
    ParseBool (str "true") = .ok true ∧
    ParseBool (str "F") = .ok false ∧
    ParseBool (str "yes") = .error (.numError "ParseBool" (str "yes") false) :=
  ⟨rfl, rfl, rfl⟩

/-! ## Header maps -/

theorem lowerByte_eq_iff (a b : Nat) : lowerByte a = lowerByte b ↔ sameLetter a b = true := by
  unfold lowerByte sameLetter
  simp only [Bool.or_eq_true, Bool.and_eq_true, beq_iff_eq, decide_eq_true_eq]
  constructor
  · intro h
    split at h <;> split at h <;> omega
  · intro h
    split <;> split <;> omega

theorem toLower_eq_iff : ∀ (s t : GoString), ToLower s = ToLower t ↔ EqualFold s t = true
  | [], [] => by simp [ToLower, EqualFold]
  | [], _ :: _ => by simp [ToLower, EqualFold]
  | _ :: _, [] => by simp [ToLower, EqualFold]
  | a :: s, b :: t => by
    have ih := toLower_eq_iff s t
    simp only [ToLower] at ih
    simp [ToLower, EqualFold, lowerByte_eq_iff, ih]

theorem equalFold_length : ∀ (s t : GoString), EqualFold s t = true → s.length = t.length
  | [], [], _ => rfl
  | [], _ :: _, h => by simp [EqualFold] at h
  | _ :: _, [], h => by simp [EqualFold] at h
  | _ :: s, _ :: t, h => by
    simp only [EqualFold, Bool.and_eq_true] at h
    simp [equalFold_length s t h.2]

theorem ite_width (c : Prop) [Decidable c] (x w n : Nat) (hw : 1 ≤ w ∧ w ≤ n) :
    1 ≤ (if c then (x, w) else (RuneError, 1)).2 ∧ (if c then (x, w) else (RuneError, 1)).2 ≤ n := by
  by_cases h : c
  · rw [if_pos h]; exact hw
  · rw [if_neg h]; exact ⟨Nat.le_refl 1, by omega⟩

theorem decodeRune_width (b : Nat) (s : GoString) :
    1 ≤ (DecodeRune (b :: s)).2 ∧ (DecodeRune (b :: s)).2 ≤ (b :: s).length := by
  simp only [DecodeRune]
  by_cases h1 : b < 128
  · simp [h1]
  · rw [if_neg h1]
    by_cases h2 : 194 ≤ b ∧ b ≤ 223
    · rw [if_pos h2]
      cases s with
      | nil => simp
      | cons b1 t => exact ite_width _ _ _ _ ⟨by omega, by simp⟩
    · rw [if_neg h2]
      by_cases h3 : 224 ≤ b ∧ b ≤ 239
      · rw [if_pos h3]
        rcases s with _ | ⟨b1, _ | ⟨b2, t⟩⟩
        · simp
        · simp
        · exact ite_width _ _ _ _ ⟨by omega, by simp⟩
      · rw [if_neg h3]
        by_cases h4 : 240 ≤ b ∧ b ≤ 244
        · rw [if_pos h4]
          rcases s with _ | ⟨b1, _ | ⟨b2, _ | ⟨b3, t⟩⟩⟩
          · simp
          · simp
          · simp
          · exact ite_width _ _ _ _ ⟨by omega, by simp⟩
        · rw [if_neg h4]
          simp

theorem decodeRune_ascii (b : Nat) (s : GoString) (h : b < 128) : DecodeRune (b :: s) = (b, 1) := by
  simp [DecodeRune, h]

theorem encodeRune_ascii (r : Nat) (h : r < 128) : EncodeRune r = [r] := by
  simp [EncodeRune, h]

theorem encodeRune_head (r b : Nat) (rest : GoString) (hb : b < 128)
    (h : EncodeRune r = b :: rest) : r = b ∧ rest = [] := by
  unfold EncodeRune at h
  split_ifs at h <;> simp only [List.cons.injEq] at h
  · exact ⟨h.1, h.2.symm⟩
  all_goals omega

theorem encodeRune_ne_nil (r : Nat) : EncodeRune r ≠ [] := by
  unfold EncodeRune
  split_ifs <;> simp

theorem map_loop_fuel (f : Nat → Nat) : ∀ (fuel : Nat) (s : GoString), s.length ≤ fuel →
    Map.loop f fuel s = Map.loop f s.length s
  | 0, s, h => by
    have : s = [] := List.length_eq_zero.1 (by omega)
    subst this
    rfl
  | fuel + 1, [], _ => rfl
  | fuel + 1, b :: s, h => by
    have hw := decodeRune_width b s
    have hlen : ((b :: s).drop (DecodeRune (b :: s)).2).length ≤ s.length := by
      simp only [List.length_drop, List.length_cons]; omega
    simp only [Map.loop, List.length_cons]
    rw [map_loop_fuel f fuel _ (by simp only [List.length_cons] at h; omega),
      map_loop_fuel f s.length _ hlen]

theorem map_cons (f : Nat → Nat) (b : Nat) (s : GoString) :
    Map f (b :: s) = EncodeRune (f (DecodeRune (b :: s)).1)
      ++ Map f ((b :: s).drop (DecodeRune (b :: s)).2) := by
  have hw := decodeRune_width b s
  have hlen : ((b :: s).drop (DecodeRune (b :: s)).2).length ≤ s.length := by
    simp only [List.length_drop, List.length_cons]; omega
  unfold Map
  simp only [List.length_cons, Map.loop]
  rw [map_loop_fuel f s.length _ hlen]

theorem toLower_ascii_eq (lib : StdLib) : ∀ (p : GoString), isASCII p = true →
    strings.ToLower lib p = ToLower p
  | [], _ => rfl
  | b :: p, h => by
    simp only [isASCII, List.all_cons, Bool.and_eq_true, decide_eq_true_eq] at h
    have ih := toLower_ascii_eq lib p (by simpa [isASCII] using h.2)
    have hl : lowerByte b < 128 := by unfold lowerByte; split <;> omega
    unfold strings.ToLower at ih ⊢
    rw [map_cons, decodeRune_ascii b p h.1]
    simp only [List.drop_succ_cons, List.drop_zero, ih, lib.toLower_ascii b h.1,
      encodeRune_ascii _ hl]
    rfl

theorem hasPrefix_cons (a b : Nat) (s p : GoString) :
    HasPrefix (a :: s) (b :: p) = ((a == b) && HasPrefix s p) := by
  unfold HasPrefix
  rw [Bool.eq_iff_iff]
  simp only [List.length_cons, Bool.and_eq_true, decide_eq_true_eq, beq_iff_eq, List.take_succ_cons,
    List.cons.injEq]
  constructor
  · rintro ⟨h1, h2, h3⟩
    exact ⟨h2, by omega, h3⟩
  · rintro ⟨h1, h2, h3⟩
    exact ⟨by omega, h1, h3⟩

theorem hasPrefix_map_fold (lib : StdLib) : ∀ (p k : GoString), isASCII p = true →
    HasPrefix (Map lib.ToLowerRune k) (ToLower p) = StartsWithFold lib k p
  | [], k, _ => by simp [HasPrefix, ToLower, StartsWithFold]
  | b :: p, [], _ => by simp [HasPrefix, ToLower, StartsWithFold, Map, Map.loop]
  | b :: p, c :: k, h => by
    simp only [isASCII, List.all_cons, Bool.and_eq_true, decide_eq_true_eq] at h
    have hp : isASCII p = true := by simpa [isASCII] using h.2
    have hl : lowerByte b < 128 := by unfold lowerByte; split <;> omega
    have ih := hasPrefix_map_fold lib p ((c :: k).drop (DecodeRune (c :: k)).2) hp
    rw [map_cons]
    simp only [StartsWithFold, ToLower, List.map_cons]
    simp only [ToLower] at ih
    cases he : EncodeRune (lib.ToLowerRune (DecodeRune (c :: k)).1) with
    | nil => exact absurd he (encodeRune_ne_nil _)
    | cons e0 es =>
      rw [List.cons_append, hasPrefix_cons]
      by_cases h0 : e0 = lowerByte b
      · subst h0
        obtain ⟨hr, hes⟩ := encodeRune_head _ _ _ hl he
        subst hes
        simp only [beq_self_eq_true, Bool.true_and, List.nil_append, ih, hr]
      · have hne : ¬ lib.ToLowerRune (DecodeRune (c :: k)).1 = lowerByte b := by
          intro hc
          rw [hc, encodeRune_ascii _ hl] at he
          simp only [List.cons.injEq] at he
          exact h0 he.1.symm
        have e1 : (e0 == lowerByte b) = false := by simpa using h0
        have e2 : (lib.ToLowerRune (DecodeRune (c :: k)).1 == lowerByte b) = false := by
          simpa using hne
        rw [e1, e2]
        rfl

theorem hasPrefix_toLower (lib : StdLib) (k p : GoString) (hp : isASCII p = true) :
    HasPrefix (strings.ToLower lib k) (strings.ToLower lib p) = StartsWithFold lib k p := by
  rw [toLower_ascii_eq lib p hp]
  exact hasPrefix_map_fold lib p k hp

theorem startsWithFold_length (lib : StdLib) : ∀ (p k : GoString),
    StartsWithFold lib k p = true → p.length ≤ k.length
  | [], _, _ => by simp
  | b :: p, [], h => by simp [StartsWithFold] at h
  | b :: p, c :: k, h => by
    simp only [StartsWithFold, Bool.and_eq_true] at h
    have ih := startsWithFold_length lib p _ h.2
    have hw := decodeRune_width c k
    simp only [List.length_drop, List.length_cons] at ih ⊢
    omega

theorem startsWithFold_ascii (lib : StdLib) : ∀ (p k : GoString), isASCII k = true →
    StartsWithFold lib k p = EqualFold (k.take p.length) p
  | [], k, _ => by simp [StartsWithFold, EqualFold]
  | b :: p, [], _ => by simp [StartsWithFold, EqualFold]
  | b :: p, c :: k, h => by
    simp only [isASCII, List.all_cons, Bool.and_eq_true, decide_eq_true_eq] at h
    have hk : isASCII k = true := by simpa [isASCII] using h.2
    have ih := startsWithFold_ascii lib p k hk
    simp only [StartsWithFold, decodeRune_ascii c k h.1, List.drop_succ_cons, List.drop_zero, ih,
      lib.toLower_ascii c h.1, List.length_cons, List.take_succ_cons, EqualFold]
    congr 1
    rw [Bool.eq_iff_iff, beq_iff_eq, lowerByte_eq_iff]


theorem insert_fresh (m : StringMap) (k v : GoString) (h : k ∉ m.map Prod.fst) :
    m.insert k v = m ++ [(k, v)] := by
  unfold StringMap.insert
  have : m.any (fun e => e.1 == k) = false := by
    rw [Bool.eq_false_iff]
    intro hc
    simp only [List.any_eq_true, beq_iff_eq] at hc
    obtain ⟨e, he, rfl⟩ := hc
    exact h (List.mem_map_of_mem _ he)
  simp [this]

theorem headerMap_loop_eq (lib : StdLib) (p : GoString) (hP : isASCII p = true) : ∀ (hs : Header) (out : StringMap),
    (∀ e ∈ hs, e.2 ≠ []) → ((out ++ headerMapSpec lib p hs).map Prod.fst).Nodup →
    unmarshalHeaderMap.loop lib p hs out = .done (out ++ headerMapSpec lib p hs)
  | [], out, _, _ => by simp [unmarshalHeaderMap.loop, headerMapSpec]
  | (k0, v) :: rest, out, hv, hnd => by
    have hrest : ∀ e ∈ rest, e.2 ≠ [] := fun e he => hv e (List.mem_cons_of_mem _ he)
    unfold unmarshalHeaderMap.loop
    simp only [hasPrefix_toLower lib _ p hP]
    by_cases hm : StartsWithFold lib (CanonicalHeaderKey k0) p = true
    · have hlen := startsWithFold_length lib _ _ hm
      have hspec : headerMapSpec lib p ((k0, v) :: rest)
          = ((CanonicalHeaderKey k0).drop p.length, v.headD []) :: headerMapSpec lib p rest := by
        simp [headerMapSpec, hm]
      rw [hspec] at hnd
      rw [hspec, if_pos hm, if_neg (by omega)]
      cases v with
      | nil => exact absurd rfl (hv (k0, []) (List.mem_cons_self _ _))
      | cons v0 vs =>
        simp only [List.headD_cons] at hnd ⊢
        have hfresh : (CanonicalHeaderKey k0).drop p.length ∉ out.map Prod.fst := by
          intro hc
          rw [List.map_append, List.nodup_append] at hnd
          exact hnd.2.2 hc (by simp)
        rw [insert_fresh _ _ _ hfresh]
        have := headerMap_loop_eq lib p hP rest (out ++ [((CanonicalHeaderKey k0).drop p.length, v0)]) hrest
          (by simpa using hnd)
        simpa using this
    · have hspec : headerMapSpec lib p ((k0, v) :: rest) = headerMapSpec lib p rest := by
        simp [headerMapSpec, hm]
      rw [hspec] at hnd
      rw [hspec, if_neg hm]
      exact headerMap_loop_eq lib p hP rest out hrest hnd


theorem headerMapSpec_mem (lib : StdLib) (p : GoString) (hs : Header) (key val : GoString) :
    (key, val) ∈ headerMapSpec lib p hs ↔
      ∃ e ∈ hs, StartsWithFold lib (CanonicalHeaderKey e.1) p = true ∧
        key = (CanonicalHeaderKey e.1).drop p.length ∧ val = e.2.headD [] := by
  unfold headerMapSpec
  simp only [List.mem_filterMap]
  constructor
  · rintro ⟨e, he, h⟩
    split at h
    · rename_i hm
      simp only [Option.some.injEq, Prod.mk.injEq] at h
      exact ⟨e, he, hm, h.1.symm, h.2.symm⟩
    · exact absurd h (by simp)
  · rintro ⟨e, he, hm, hk, hv⟩
    exact ⟨e, he, by simp [hm, hk, hv]⟩

theorem headerMapSpec_nodup (lib : StdLib) (p : GoString) : ∀ (hs : Header),
    hs.Pairwise (fun a b =>
      StartsWithFold lib (CanonicalHeaderKey a.1) p = true →
      StartsWithFold lib (CanonicalHeaderKey b.1) p = true →
      (CanonicalHeaderKey a.1).drop p.length ≠ (CanonicalHeaderKey b.1).drop p.length) →
    ((headerMapSpec lib p hs).map Prod.fst).Nodup
  | [], _ => by simp [headerMapSpec]
  | e :: rest, h => by
    rw [List.pairwise_cons] at h
    have ih := headerMapSpec_nodup lib p rest h.2
    by_cases hm : StartsWithFold lib (CanonicalHeaderKey e.1) p = true
    · have hspec : headerMapSpec lib p (e :: rest)
          = ((CanonicalHeaderKey e.1).drop p.length, e.2.headD []) :: headerMapSpec lib p rest := by
        simp [headerMapSpec, hm]
      rw [hspec, List.map_cons, List.nodup_cons]
      refine ⟨?_, ih⟩
      intro hc
      rw [List.mem_map] at hc
      obtain ⟨⟨k, v⟩, hkv, hk⟩ := hc
      obtain ⟨e2, he2, hm2, hk2, _⟩ := (headerMapSpec_mem lib p rest k v).1 hkv
      exact h.1 e2 he2 hm hm2 (by rw [← hk2]; exact hk.symm)
    · have hspec : headerMapSpec lib p (e :: rest) = headerMapSpec lib p rest := by
        simp [headerMapSpec, hm]
      rw [hspec]
      exact ih

theorem headerMapSpec_length (lib : StdLib) (p : GoString) : ∀ (hs : Header),
    (headerMapSpec lib p hs).length
      = (hs.filter (fun e => StartsWithFold lib (CanonicalHeaderKey e.1) p)).length
  | [] => by simp [headerMapSpec]
  | e :: rest => by
    have ih := headerMapSpec_length lib p rest
    by_cases hm : StartsWithFold lib (CanonicalHeaderKey e.1) p = true
    · have hspec : headerMapSpec lib p (e :: rest)
          = ((CanonicalHeaderKey e.1).drop p.length, e.2.headD []) :: headerMapSpec lib p rest := by
        simp [headerMapSpec, hm]
      rw [hspec, List.filter_cons_of_pos (by simpa using hm)]
      simp [ih]
    · have hspec : headerMapSpec lib p (e :: rest) = headerMapSpec lib p rest := by
        simp [headerMapSpec, hm]
      rw [hspec, List.filter_cons_of_neg (by simpa using hm)]
      exact ih

/-- C1. Binding a `headers`-location field of string-map type, for every
header collection, whatever bytes its names hold, and every ASCII prefix `P`
(the field's locationName, empty when it has none): when every header has at
least one value and no two matching headers give the same stripped key, the
field is set to exactly the map that has, for each header whose canonical name
starts with `P` ignoring case, the canonical name without its first `len(P)`
bytes as key and the first value of the header as value; the keys are
distinct, nothing else is in the map, and no error is reported. -/
theorem headers_field_binds_exact_map (lib : StdLib) (resp : Response) (err : Option APIError)
    (f : Field) (old : Option StringMap)
    (hloc : f.Tag.Get (str "location") = str "headers")
    (hty : f.Value = .stringMap old)
    (hP : isASCII (f.Tag.Get (str "locationName")) = true)
    (hvals : ∀ e ∈ resp.Header, e.2 ≠ [])
    (hdistinct : resp.Header.Pairwise (fun a b =>
      StartsWithFold lib (CanonicalHeaderKey a.1) (f.Tag.Get (str "locationName")) = true →
      StartsWithFold lib (CanonicalHeaderKey b.1) (f.Tag.Get (str "locationName")) = true →
      (CanonicalHeaderKey a.1).drop (f.Tag.Get (str "locationName")).length
        ≠ (CanonicalHeaderKey b.1).drop (f.Tag.Get (str "locationName")).length)) :
    ∃ out : StringMap,
      unmarshalLocationElements.field lib resp err f = .done (.stringMap (some out), err) ∧
      (out.map Prod.fst).Nodup ∧
      out.length = (resp.Header.filter (fun e =>
        StartsWithFold lib (CanonicalHeaderKey e.1) (f.Tag.Get (str "locationName")))).length ∧
      ∀ key val : GoString, (key, val) ∈ out ↔
        ∃ e ∈ resp.Header,
          StartsWithFold lib (CanonicalHeaderKey e.1) (f.Tag.Get (str "locationName")) = true ∧
          key = (CanonicalHeaderKey e.1).drop (f.Tag.Get (str "locationName")).length ∧
          e.2.head? = some val := by
  have hnd := headerMapSpec_nodup lib _ _ hdistinct
  refine ⟨headerMapSpec lib (f.Tag.Get (str "locationName")) resp.Header, ?_, hnd, ?_, ?_⟩
  · have hloop := headerMap_loop_eq lib (f.Tag.Get (str "locationName")) hP resp.Header [] hvals
      (by simpa using hnd)
    have h1 : str "headers" ≠ str "statusCode" := by decide
    have h2 : str "headers" ≠ str "header" := by decide
    simp only [unmarshalLocationElements.field, hloc, h1, h2, if_false, if_true, hty,
      unmarshalHeaderMap, hloop, List.nil_append]
  · exact headerMapSpec_length lib _ _
  · intro key val
    rw [headerMapSpec_mem]
    constructor
    · rintro ⟨e, he, hm, hk, hv⟩
      refine ⟨e, he, hm, hk, ?_⟩
      have := hvals e he
      cases h : e.2 with
      | nil => exact absurd h this
      | cons a l => simp [hv, h]
    · rintro ⟨e, he, hm, hk, hv⟩
      refine ⟨e, he, hm, hk, ?_⟩
      cases h : e.2 with
      | nil => simp [h] at hv
      | cons a l =>
        rw [h] at hv
        simp only [List.head?_cons, Option.some.injEq] at hv
        simp [hv]

/-- C1, at the protocol test: with prefix `X-` the headers `x-Foo: bar`,
`X-bam: boo`, `Content-Length: 10` give exactly `Bam: boo` and `Foo: bar`; with
no prefix they give all three under their canonical names. -/
theorem headers_field_binds_exact_map_witness :
    unmarshalLocationElements.field noLib headerMapResponse none prefixedHeadersField
      = .done (.stringMap (some [(str "Bam", str "boo"), (str "Foo", str "bar")]), none) ∧
    unmarshalLocationElements.field noLib headerMapResponse none allHeadersField
      = .done (.stringMap (some [(str "Content-Length", str "10"), (str "X-Bam", str "boo"),
          (str "X-Foo", str "bar")]), none) ∧
    ∃ out : StringMap,
      unmarshalLocationElements.field noLib headerMapResponse none prefixedHeadersField
        = .done (.stringMap (some out), none) ∧
      (out.map Prod.fst).Nodup ∧
      out.length = (headerMapResponse.Header.filter (fun e =>
        StartsWithFold noLib (CanonicalHeaderKey e.1)
          (prefixedHeadersField.Tag.Get (str "locationName")))).length ∧
      ∀ key val : GoString, (key, val) ∈ out ↔
        ∃ e ∈ headerMapResponse.Header,
          StartsWithFold noLib (CanonicalHeaderKey e.1)
            (prefixedHeadersField.Tag.Get (str "locationName")) = true ∧
          key = (CanonicalHeaderKey e.1).drop
            (prefixedHeadersField.Tag.Get (str "locationName")).length ∧
          e.2.head? = some val :=
  ⟨by decide, by decide,
    headers_field_binds_exact_map noLib headerMapResponse none prefixedHeadersField none
      (by decide) rfl (by decide) (by decide) (by decide)⟩

/-! ## Single headers and the status code -/

theorem header_ne_statusCode : str "header" ≠ str "statusCode" := by decide

theorem field_header_eq (lib : StdLib) (resp : Response) (err : Option APIError) (f : Field)
    (hloc : f.Tag.Get (str "location") = str "header") :
    unmarshalLocationElements.field lib resp err f =
      match unmarshalHeader lib f.Value (resp.Header.Get f.wireName) with
      | .done (m, none) => .done (m, err)
      | .done (m, some e) => .done (m, some (decodeError e))
      | .panic msg (m, _) => .panic msg (m, err) := by
  simp only [unmarshalLocationElements.field, hloc, header_ne_statusCode, if_false, if_true]

theorem header_get_absent (h : Header) (name : GoString)
    (habs : ∀ e ∈ h, e.1 ≠ CanonicalHeaderKey name) : h.Get name = [] := by
  have : h.find? (fun e => e.1 == CanonicalHeaderKey name) = none := by
    rw [List.find?_eq_none]
    intro e he
    simpa using habs e he
  simp [Header.Get, Header.index, this]

/-- C2. A header field of a fresh result value and an absent or empty header.
For the pointer types (`*string`, `*bool`, `*int64`, `*float64`, `*time.Time`)
the field stays nil, no parser of the library is consulted and the error of
the request is unchanged. For a blob field (`[]byte`) the guard of
`unmarshalHeader` calls `Elem` on a slice and the bind panics; so it does in
`Unmarshal` on a structure with one blob header field and a response that has
no header. -/
theorem header_field_absent_or_empty :
    (∀ (lib : StdLib) (resp : Response) (err : Option APIError) (f : Field),
      f.Tag.Get (str "location") = str "header" →
      resp.Header.Get f.wireName = [] →
      f.Value ∈ [Value.ptrString none, .ptrBool none, .ptrInt64 none, .ptrFloat64 none,
        .ptrTime none] →
      unmarshalLocationElements.field lib resp err f = .done (f.Value, err)) ∧
    (∀ (lib : StdLib) (resp : Response) (err : Option APIError) (f : Field),
      f.Tag.Get (str "location") = str "header" →
      resp.Header.Get f.wireName = [] →
      f.Value = Value.bytes none →
      (unmarshalLocationElements.field lib resp err f).returned = false) ∧
    (∀ (h : Header) (name : GoString),
      (∀ e ∈ h, e.1 ≠ CanonicalHeaderKey name) → h.Get name = []) ∧
    (Unmarshal noLib (mkRequest emptyResponse blobHeaderShape)).returned = false := by
  refine ⟨?_, ?_, header_get_absent, by decide⟩
  · intro lib resp err f hloc hget hv
    rw [field_header_eq lib resp err f hloc, hget]
    simp only [List.mem_cons, List.mem_singleton, List.not_mem_nil, or_false] at hv
    rcases hv with h | h | h | h | h <;> rw [h] <;> simp [unmarshalHeader, Value.elemKind]
  · intro lib resp err f hloc hget hv
    rw [field_header_eq lib resp err f hloc, hget, hv]
    simp [unmarshalHeader, Value.elemKind, Outcome.returned]


theorem sameLetter_canon_step (upper : Bool) (a b : Nat) (h : sameLetter a b = true) :
    (if upper && decide (97 ≤ a ∧ a ≤ 122) then a - 32
      else if !upper && decide (65 ≤ a ∧ a ≤ 90) then a + 32 else a)
    = (if upper && decide (97 ≤ b ∧ b ≤ 122) then b - 32
      else if !upper && decide (65 ≤ b ∧ b ≤ 90) then b + 32 else b) := by
  unfold sameLetter at h
  simp only [Bool.or_eq_true, Bool.and_eq_true, beq_iff_eq, decide_eq_true_eq] at h
  cases upper <;> simp only [Bool.true_and, Bool.false_and, Bool.not_true, Bool.not_false,
    decide_eq_true_eq, if_false, Bool.false_eq_true] <;> split <;> split <;> omega

theorem canonLoop_equalFold : ∀ (upper : Bool) (s t : GoString), EqualFold s t = true →
    canonLoop upper s = canonLoop upper t
  | _, [], [], _ => rfl
  | _, [], _ :: _, h => by simp [EqualFold] at h
  | _, _ :: _, [], h => by simp [EqualFold] at h
  | upper, a :: s, b :: t, h => by
    simp only [EqualFold, Bool.and_eq_true] at h
    simp only [canonLoop]
    rw [sameLetter_canon_step upper a b h.1, canonLoop_equalFold _ s t h.2]

theorem sameLetter_valid (a b : Nat) (h : sameLetter a b = true) :
    validHeaderFieldByte a = validHeaderFieldByte b := by
  unfold sameLetter at h
  simp only [Bool.or_eq_true, Bool.and_eq_true, beq_iff_eq, decide_eq_true_eq] at h
  rcases h with (h | h) | h
  · rw [h]
  · obtain ⟨h1, rfl⟩ := h
    have e1 : validHeaderFieldByte a = true := by
      simp only [validHeaderFieldByte, Bool.or_eq_true, decide_eq_true_eq]
      left; left; right; exact h1
    have e2 : validHeaderFieldByte (a + 32) = true := by
      simp only [validHeaderFieldByte, Bool.or_eq_true, decide_eq_true_eq]
      left; right; omega
    rw [e1, e2]
  · obtain ⟨h1, rfl⟩ := h
    have e1 : validHeaderFieldByte b = true := by
      simp only [validHeaderFieldByte, Bool.or_eq_true, decide_eq_true_eq]
      left; left; right; exact h1
    have e2 : validHeaderFieldByte (b + 32) = true := by
      simp only [validHeaderFieldByte, Bool.or_eq_true, decide_eq_true_eq]
      left; right; omega
    rw [e1, e2]

theorem all_valid_equalFold : ∀ (s t : GoString), EqualFold s t = true →
    s.all validHeaderFieldByte = t.all validHeaderFieldByte
  | [], [], _ => rfl
  | [], _ :: _, h => by simp [EqualFold] at h
  | _ :: _, [], h => by simp [EqualFold] at h
  | a :: s, b :: t, h => by
    simp only [EqualFold, Bool.and_eq_true] at h
    simp only [List.all_cons]
    rw [sameLetter_valid a b h.1, all_valid_equalFold s t h.2]

theorem canonical_equalFold (s t : GoString) (hs : s.all validHeaderFieldByte = true)
    (h : EqualFold s t = true) : CanonicalHeaderKey s = CanonicalHeaderKey t := by
  have ht : t.all validHeaderFieldByte = true := by rw [← all_valid_equalFold s t h]; exact hs
  simp only [CanonicalHeaderKey, hs, ht, if_true]
  exact canonLoop_equalFold true s t h

theorem header_index_set (x : GoString) (k : GoString) : ∀ (h : Header),
    Header.index (if h.any (fun e => e.1 == k) then
        h.map (fun e => if e.1 == k then (k, [x]) else e)
      else h ++ [(k, [x])]) k = [x]
  | [] => by simp [Header.index]
  | e :: rest => by
    have ih := header_index_set x k rest
    by_cases hk : e.1 = k
    · simp [Header.index, hk]
    · have hk2 : (e.1 == k) = false := by simpa using hk
      simp only [List.any_cons, hk2, Bool.false_or, List.map_cons, if_false, Bool.false_eq_true]
      cases hany : rest.any (fun e => e.1 == k)
      · rw [hany] at ih
        simp only [if_false, Bool.false_eq_true] at ih ⊢
        simp only [Header.index, List.cons_append, List.find?_cons, hk2] at ih ⊢
        exact ih
      · rw [hany] at ih
        simp only [if_true] at ih ⊢
        simp only [Header.index, List.find?_cons, hk2] at ih ⊢
        exact ih

theorem header_get_set (h : Header) (w n x : GoString)
    (hc : CanonicalHeaderKey w = CanonicalHeaderKey n) : (Header.Set h w x).Get n = x := by
  unfold Header.Get Header.Set
  rw [← hc]
  simp only
  rw [header_index_set x (CanonicalHeaderKey w) h]


theorem header_index_mem : ∀ (h : Header) (k : GoString) (vs : List GoString),
    (h.map Prod.fst).Nodup → (k, vs) ∈ h → Header.index h k = vs
  | [], _, _, _, hm => by simp at hm
  | e :: rest, k, vs, hnd, hm => by
    rw [List.map_cons, List.nodup_cons] at hnd
    rcases List.mem_cons.1 hm with h | h
    · subst h
      simp [Header.index]
    · have hne : e.1 ≠ k := by
        intro hc
        apply hnd.1
        rw [hc]
        exact List.mem_map_of_mem Prod.fst h
      have hb : (e.1 == k) = false := by simpa using hne
      have ih := header_index_mem rest k vs hnd.2 h
      simp only [Header.index, List.find?_cons, hb] at ih ⊢
      exact ih

/-- C3, amended. The header of a header-location field is found ignoring
letter case when the name is made of header token characters and the header
collection holds its keys in canonical form. For two fields of the same value
whose header names (locationName, or the field name when there is none) differ
only in case, and two spellings `w1`, `w2` of that name: both fields are bound
alike on every response; setting the header under either spelling gives the
same header collection; the lookup for either field in it gives the value `x`
that was set; a string field receives exactly `x`; and in every header
collection whose keys are canonical and distinct, the lookup for the field
gives the first value of the header whose name equals the name of the field
ignoring case. -/
theorem header_field_name_ignores_case (lib : StdLib) (h : Header) (err : Option APIError)
    (f1 f2 : Field) (w1 w2 x : GoString)
    (hloc1 : f1.Tag.Get (str "location") = str "header")
    (hloc2 : f2.Tag.Get (str "location") = str "header")
    (hval : f1.Value = f2.Value)
    (htok : w1.all validHeaderFieldByte = true)
    (hf : EqualFold w1 f1.wireName = true)
    (hf2 : EqualFold w1 f2.wireName = true)
    (hw : EqualFold w1 w2 = true) :
    (∀ resp : Response,
      unmarshalLocationElements.field lib resp err f1
        = unmarshalLocationElements.field lib resp err f2) ∧
    Header.Set h w1 x = Header.Set h w2 x ∧
    (Header.Set h w1 x).Get f1.wireName = x ∧
    (Header.Set h w2 x).Get f2.wireName = x ∧
    (∀ (resp : Response) (p : Option GoString), f1.Value = .ptrString p → x ≠ [] →
      unmarshalLocationElements.field lib { resp with Header := Header.Set h w2 x } err f1
        = .done (.ptrString (some x), err)) ∧
    (∀ (g : Header) (k y : GoString) (ys : List GoString),
      (∀ e ∈ g, CanonicalHeaderKey e.1 = e.1) → (g.map Prod.fst).Nodup →
      (k, y :: ys) ∈ g → EqualFold w1 k = true →
      g.Get f1.wireName = y ∧ g.Get f2.wireName = y) := by
  have c1 : CanonicalHeaderKey w1 = CanonicalHeaderKey f1.wireName := canonical_equalFold _ _ htok hf
  have c2 : CanonicalHeaderKey w1 = CanonicalHeaderKey f2.wireName :=
    canonical_equalFold _ _ htok hf2
  have c3 : CanonicalHeaderKey w1 = CanonicalHeaderKey w2 := canonical_equalFold _ _ htok hw
  have hset : Header.Set h w1 x = Header.Set h w2 x := by simp only [Header.Set, c3]
  refine ⟨?_, hset, header_get_set h w1 _ x c1, ?_, ?_, ?_⟩
  · intro resp
    rw [field_header_eq lib resp err f1 hloc1, field_header_eq lib resp err f2 hloc2, hval]
    simp only [Header.Get, ← c1, ← c2]
  · rw [← hset]
    exact header_get_set h w1 _ x c2
  · intro resp p hp hx
    rw [field_header_eq lib _ err f1 hloc1, ← hset]
    simp only [header_get_set h w1 _ x c1, hp, unmarshalHeader, hx, if_false,
      unmarshalHeader.coerce]
  · intro g k y ys hcanon hnd hmem hk
    have ck : CanonicalHeaderKey w1 = k := by
      rw [canonical_equalFold _ _ htok hk]
      exact hcanon (k, y :: ys) hmem
    have hidx := header_index_mem g k (y :: ys) hnd hmem
    constructor
    · simp only [Header.Get, ← c1, ck, hidx]
    · simp only [Header.Get, ← c2, ck, hidx]

/-- C3, at the protocol test: the field `ImaHeader`, which has no locationName,
receives the header `ImaHeader: test` also when the response spells it
`imaheader` and the field is spelled `IMAheader`; the field with locationName
`X-Foo` receives `X-Foo: abc`. -/
theorem header_field_name_ignores_case_witness :
    EqualFold (str "ImaHeader") (str "imaheader") = true ∧
    unmarshalLocationElements.field noLib scalarResponse none imaHeaderField
      = .done (.ptrString (some (str "test")), none) ∧
    unmarshalLocationElements.field noLib scalarResponse none imaHeaderLocationField
      = .done (.ptrString (some (str "abc")), none) ∧
    unmarshalLocationElements.field noLib
      { scalarResponse with Header := Header.Set [] (str "imaheader") (str "test") } none
      imaHeaderField = .done (.ptrString (some (str "test")), none) ∧
    ∀ resp : Response,
      unmarshalLocationElements.field noLib resp none imaHeaderField
        = unmarshalLocationElements.field noLib resp none
            { imaHeaderField with Name := str "IMAheader" } :=
  have h := header_field_name_ignores_case noLib [] none imaHeaderField
    { imaHeaderField with Name := str "IMAheader" } (str "ImaHeader") (str "imaheader") (str "test")
    (by decide) (by decide) rfl (by decide) (by decide) (by decide) (by decide)
  ⟨by decide, by decide, by decide, h.2.2.2.2.1 scalarResponse none rfl (by decide), h.1⟩

/-- C3 as stated fails for a response that holds a header under a key that is
not in canonical form: the same header `test` is received by the field
`ImaHeader` when the collection spells its key `Imaheader`, the canonical form,
and is not found when the collection spells it `imaheader`, and the field
stays nil. A name with a byte that is no token character is not canonicalised
either: the header set as `x foo` is not found under the name `X foo`. -/
theorem raw_header_key_is_not_found :
    EqualFold (str "imaheader") (str "Imaheader") = true ∧
    unmarshalLocationElements.field noLib
        { scalarResponse with Header := [(str "Imaheader", [str "test"])] } none imaHeaderField
      = .done (.ptrString (some (str "test")), none) ∧
    unmarshalLocationElements.field noLib
        { scalarResponse with Header := [(str "imaheader", [str "test"])] } none imaHeaderField
      = .done (.ptrString none, none) ∧
    EqualFold (str "x foo") (str "X foo") = true ∧
    unmarshalLocationElements.field noLib
        { scalarResponse with Header := Header.Set [] (str "x foo") (str "test") } none
        (headerField (str "Spaced") [(str "locationName", str "x foo")] (.ptrString none))
      = .done (.ptrString (some (str "test")), none) ∧
    unmarshalLocationElements.field noLib
        { scalarResponse with Header := Header.Set [] (str "x foo") (str "test") } none
        (headerField (str "Spaced") [(str "locationName", str "X foo")] (.ptrString none))
      = .done (.ptrString none, none) := by
  decide

/-- C4. A status code field of type `*int64` is set to the status code of the
response, whatever its headers and body are, and the error of the request is
left as it was. -/
theorem statusCode_field_binds (lib : StdLib) (resp : Response) (err : Option APIError)
    (f : Field) (p : Option Int)
    (hloc : f.Tag.Get (str "location") = str "statusCode")
    (hty : f.Value = .ptrInt64 p) :
    unmarshalLocationElements.field lib resp err f
      = .done (.ptrInt64 (some resp.StatusCode), err) := by
  simp only [unmarshalLocationElements.field, hloc, if_true, hty, unmarshalStatusCode]

/-- C4, at the protocol test: status 200 gives `Status = 200`, in the field
alone and in the whole bind of the scalar members structure. -/
theorem statusCode_field_binds_witness :
    unmarshalLocationElements.field noLib scalarResponse none statusField
      = .done (.ptrInt64 (some 200), none) ∧
    (Unmarshal noLib (mkRequest scalarResponse scalarShape)).returned = true ∧
    (Unmarshal noLib (mkRequest scalarResponse scalarShape)).state.Error = none ∧
    ((Unmarshal noLib (mkRequest scalarResponse scalarShape)).state.Data.bind
        (fun v => v.FieldByName (str "Status"))).map (fun f => f.Value)
      = some (.ptrInt64 (some 200)) :=
  ⟨statusCode_field_binds noLib scalarResponse none statusField none (by decide) rfl,
    by decide, by decide, by decide⟩


/-! ## The payload -/

theorem find_map_setValue (n : GoString) (x : Value) : ∀ (l : List Field) (f : Field),
    l.find? (fun g => g.Name == n) = some f →
    (l.map (fun g => if g.Name == n then { g with Value := x } else g)).find?
      (fun g => g.Name == n) = some { f with Value := x }
  | [], _, h => by simp at h
  | g :: rest, f, h => by
    by_cases hg : g.Name = n
    · have hb : (g.Name == n) = true := by simpa using hg
      simp only [List.find?_cons, hb, Option.some.injEq] at h
      subst h
      simp only [List.map_cons, hb, if_true, List.find?_cons]
    · have hb : (g.Name == n) = false := by simpa using hg
      simp only [List.find?_cons, hb] at h
      simp only [List.map_cons, hb, List.find?_cons, if_false, Bool.false_eq_true]
      exact find_map_setValue n x rest f h

theorem find_some_any (n : GoString) (l : List Field) (f : Field)
    (h : l.find? (fun g => g.Name == n) = some f) : l.any (fun g => g.Name == n) = true := by
  rw [List.any_eq_true]
  exact ⟨f, List.mem_of_find?_eq_some h, @List.find?_some _ (fun g => g.Name == n) f l h⟩

theorem find_none_any (n : GoString) (l : List Field)
    (h : l.find? (fun g => g.Name == n) = none) : l.any (fun g => g.Name == n) = false := by
  rw [Bool.eq_false_iff]
  intro hc
  rw [List.any_eq_true] at hc
  obtain ⟨g, hg, hn⟩ := hc
  rw [List.find?_eq_none] at h
  exact h g hg hn

theorem fieldByName_setField (v : Shape) (n : GoString) (x : Value) (f : Field)
    (h : v.FieldByName n = some f) :
    (v.setField n x).FieldByName n = some { f with Value := x } := by
  unfold Shape.FieldByName at h
  unfold Shape.setField Shape.FieldByName
  cases hf : v.fields.find? (fun g => g.Name == n) with
  | some g =>
    rw [hf] at h
    simp only [Option.some.injEq] at h
    subst h
    simp only [find_some_any n _ g hf, if_true, find_map_setValue n x _ g hf]
  | none =>
    rw [hf] at h
    simp only at h
    simp only [find_none_any n _ hf, if_false, Bool.false_eq_true, hf]
    exact find_map_setValue n x _ f h

theorem fieldByName_name (v : Shape) (n : GoString) (f : Field) (h : v.FieldByName n = some f) :
    f.Name = n := by
  unfold Shape.FieldByName at h
  cases hf : v.fields.find? (fun g => g.Name == n) with
  | some g =>
    rw [hf] at h
    simp only [Option.some.injEq] at h
    subst h
    simpa using @List.find?_some _ (fun g => g.Name == n) g _ hf
  | none =>
    rw [hf] at h
    simpa using @List.find?_some _ (fun g => g.Name == n) f _ h

theorem unmarshalBody_eq_payload (r : Request) (v : Shape) (traits payload : Field)
    (htraits : v.FieldByName (str "SDKShapeTraits") = some traits)
    (hname : traits.Tag.Get (str "payload") ≠ [])
    (hpay : v.FieldByName (traits.Tag.Get (str "payload")) = some payload)
    (hty1 : payload.Tag.Get (str "type") ≠ [])
    (hty2 : payload.Tag.Get (str "type") ≠ str "structure") :
    unmarshalBody r v = unmarshalBody.payload r v payload := by
  simp only [unmarshalBody, htraits, hname, hpay, hty1, hty2, if_false, or_self]


/-- C5. A payload field that is a byte blob or a string receives the whole
body. With a body of content `b` that reads without failure, `unmarshalBody`
returns, the payload field holds exactly `b` (as bytes for `[]byte`, as text
for `*string`), the error of the request is unchanged, and the body has been
read once, to its end. -/
theorem payload_blob_or_string_receives_body (r : Request) (v : Shape) (traits payload : Field)
    (b : GoString) (k : Nat)
    (htraits : v.FieldByName (str "SDKShapeTraits") = some traits)
    (hname : traits.Tag.Get (str "payload") ≠ [])
    (hpay : v.FieldByName (traits.Tag.Get (str "payload")) = some payload)
    (hty1 : payload.Tag.Get (str "type") ≠ [])
    (hty2 : payload.Tag.Get (str "type") ≠ str "structure")
    (hexp : isExported payload.Name = true)
    (hbody : r.HTTPResponse.Body = { data := b, err := none, reads := k }) :
    (∀ old : Option GoString, payload.Value = .bytes old →
      unmarshalBody r v = .done (r.withBody { data := [], err := none, reads := k + 1 },
        v.setField payload.Name (.bytes (some b))) ∧
      (v.setField payload.Name (.bytes (some b))).FieldByName payload.Name
        = some { payload with Value := .bytes (some b) } ∧
      (unmarshalBody r v).state.1.Error = r.Error) ∧
    (∀ old : Option GoString, payload.Value = .ptrString old →
      unmarshalBody r v = .done (r.withBody { data := [], err := none, reads := k + 1 },
        v.setField payload.Name (.ptrString (some b))) ∧
      (v.setField payload.Name (.ptrString (some b))).FieldByName payload.Name
        = some { payload with Value := .ptrString (some b) } ∧
      (unmarshalBody r v).state.1.Error = r.Error) := by
  have hn : payload.Name = traits.Tag.Get (str "payload") := fieldByName_name v _ payload hpay
  have hrun := unmarshalBody_eq_payload r v traits payload htraits hname hpay hty1 hty2
  have hfind : ∀ x : Value, (v.setField payload.Name x).FieldByName payload.Name
      = some { payload with Value := x } := fun x =>
    fieldByName_setField v payload.Name x payload (by rw [hn]; exact hpay)
  constructor
  · intro old hold
    have : unmarshalBody r v = .done (r.withBody { data := [], err := none, reads := k + 1 },
        v.setField payload.Name (.bytes (some b))) := by
      rw [hrun]
      simp [unmarshalBody.payload, hexp, hold, ReadAll, hbody]
    exact ⟨this, hfind _, by rw [this]; rfl⟩
  · intro old hold
    have : unmarshalBody r v = .done (r.withBody { data := [], err := none, reads := k + 1 },
        v.setField payload.Name (.ptrString (some b))) := by
      rw [hrun]
      simp [unmarshalBody.payload, hexp, hold, ReadAll, hbody]
    exact ⟨this, hfind _, by rw [this]; rfl⟩

/-- C5, at the protocol tests: the body `abc` gives the blob `abc`, and the
body `operation result string` gives that string. -/
theorem payload_blob_or_string_receives_body_witness :
    ((Unmarshal noLib (mkRequest (bodyResponse (str "abc"))
        (payloadShape (str "Stream") (str "blob") (.bytes none)))).state.Data.bind
      (fun v => v.FieldByName (str "Stream"))).map (fun f => f.Value)
      = some (.bytes (some (str "abc"))) ∧
    ((Unmarshal noLib (mkRequest (bodyResponse (str "operation result string"))
        (payloadShape (str "String") (str "string") (.ptrString none)))).state.Data.bind
      (fun v => v.FieldByName (str "String"))).map (fun f => f.Value)
      = some (.ptrString (some (str "operation result string"))) ∧
    unmarshalBody (mkRequest (bodyResponse (str "abc"))
        (payloadShape (str "Stream") (str "blob") (.bytes none)))
      (payloadShape (str "Stream") (str "blob") (.bytes none))
      = .done ((mkRequest (bodyResponse (str "abc"))
          (payloadShape (str "Stream") (str "blob") (.bytes none))).withBody
            { data := [], err := none, reads := 0 + 1 },
          (payloadShape (str "Stream") (str "blob") (.bytes none)).setField (str "Stream")
            (.bytes (some (str "abc")))) :=
  ⟨by decide, by decide,
    ((payload_blob_or_string_receives_body
      (mkRequest (bodyResponse (str "abc")) (payloadShape (str "Stream") (str "blob") (.bytes none)))
      (payloadShape (str "Stream") (str "blob") (.bytes none))
      { Name := str "SDKShapeTraits"
        Tag := [(str "type", str "structure"), (str "payload", str "Stream")]
        Value := .other (str "bool") none }
      { Name := str "Stream", Tag := [(str "type", str "blob")], Value := .bytes none }
      (str "abc") 0 (by decide) (by decide) (by decide) (by decide) (by decide) (by decide)
      rfl).1 none rfl).1⟩

/-- C6. A payload field that is a stream handle (`io.ReadCloser`,
`io.ReadSeeker` or `aws.ReadSeekCloser`) is assigned the body of the response:
`unmarshalBody` returns with the request as it was, so no byte of the body has
been read, and reading the stream now in the field gives the bytes of the
body. -/
theorem payload_stream_receives_open_body (r : Request) (v : Shape) (traits payload : Field)
    (ty : GoString) (old : Option Stream)
    (htraits : v.FieldByName (str "SDKShapeTraits") = some traits)
    (hname : traits.Tag.Get (str "payload") ≠ [])
    (hpay : v.FieldByName (traits.Tag.Get (str "payload")) = some payload)
    (hty1 : payload.Tag.Get (str "type") ≠ [])
    (hty2 : payload.Tag.Get (str "type") ≠ str "structure")
    (hexp : isExported payload.Name = true)
    (hval : payload.Value = .stream ty old)
    (hty : ty = str "io.ReadCloser" ∨ ty = str "io.ReadSeeker" ∨ ty = str "aws.ReadSeekCloser") :
    ∃ s : Stream,
      unmarshalBody r v = .done (r, v.setField payload.Name (.stream ty (some s))) ∧
      (v.setField payload.Name (.stream ty (some s))).FieldByName payload.Name
        = some { payload with Value := .stream ty (some s) } ∧
      s.readAll r.HTTPResponse.Body
        = some (r.HTTPResponse.Body.data, r.HTTPResponse.Body.err.map GoError.readError) := by
  have hn : payload.Name = traits.Tag.Get (str "payload") := fieldByName_name v _ payload hpay
  have hrun := unmarshalBody_eq_payload r v traits payload htraits hname hpay hty1 hty2
  have hfind : ∀ x : Value, (v.setField payload.Name x).FieldByName payload.Name
      = some { payload with Value := x } := fun x =>
    fieldByName_setField v payload.Name x payload (by rw [hn]; exact hpay)
  have e1 : str "io.ReadCloser" ≠ str "io.ReadSeeker" := by decide
  have e2 : str "aws.ReadSeekCloser" ≠ str "io.ReadSeeker" := by decide
  rcases hty with h | h | h
  · refine ⟨.responseBody, ?_, hfind _, rfl⟩
    rw [hrun]
    simp [unmarshalBody.payload, hexp, hval, h, e1]
  · refine ⟨.readSeekCloser, ?_, hfind _, rfl⟩
    rw [hrun]
    simp [unmarshalBody.payload, hexp, hval, h]
  · refine ⟨.responseBody, ?_, hfind _, rfl⟩
    rw [hrun]
    simp [unmarshalBody.payload, hexp, hval, h, e2]

/-- C6, at a structure whose payload member `Body` is an `io.ReadCloser`: after
the whole bind of a response with body `abc` the field holds the body of the
response, which is still unread and gives `abc`. -/
theorem payload_stream_receives_open_body_witness :
    Unmarshal noLib (mkRequest (bodyResponse (str "abc"))
        (payloadShape (str "Body") (str "blob") (.stream (str "io.ReadCloser") none)))
      = .done (mkRequest (bodyResponse (str "abc"))
          (payloadShape (str "Body") (str "blob") (.stream (str "io.ReadCloser")
            (some .responseBody)))) ∧
    Stream.readAll .responseBody (bodyResponse (str "abc")).Body = some (str "abc", none) ∧
    ∃ s : Stream,
      unmarshalBody (mkRequest (bodyResponse (str "abc"))
          (payloadShape (str "Body") (str "blob") (.stream (str "io.ReadCloser") none)))
        (payloadShape (str "Body") (str "blob") (.stream (str "io.ReadCloser") none))
        = .done (mkRequest (bodyResponse (str "abc"))
            (payloadShape (str "Body") (str "blob") (.stream (str "io.ReadCloser") none)),
          (payloadShape (str "Body") (str "blob") (.stream (str "io.ReadCloser") none)).setField
            (str "Body") (.stream (str "io.ReadCloser") (some s))) :=
  ⟨by decide, by decide,
    (payload_stream_receives_open_body
      (mkRequest (bodyResponse (str "abc"))
        (payloadShape (str "Body") (str "blob") (.stream (str "io.ReadCloser") none)))
      (payloadShape (str "Body") (str "blob") (.stream (str "io.ReadCloser") none))
      { Name := str "SDKShapeTraits"
        Tag := [(str "type", str "structure"), (str "payload", str "Body")]
        Value := .other (str "bool") none }
      { Name := str "Body", Tag := [(str "type", str "blob")]
        Value := .stream (str "io.ReadCloser") none }
      (str "io.ReadCloser") none (by decide) (by decide) (by decide) (by decide) (by decide)
      (by decide) rfl (Or.inl rfl)).imp (fun _ h => h.1)⟩


/-! ## Who reads the body -/

theorem location_loop_response (lib : StdLib) (v : Shape) : ∀ (todo seen : List Field)
    (r : Request),
    (unmarshalLocationElements.loop lib r v seen todo).state.1.HTTPResponse = r.HTTPResponse
  | [], _, _ => rfl
  | f :: rest, seen, r => by
    unfold unmarshalLocationElements.loop
    cases hn : f.Name with
    | nil => rfl
    | cons c cs =>
      simp only
      split
      · exact location_loop_response lib v rest _ r
      · split
        · rfl
        · split
          · rfl
          · exact location_loop_response lib v rest _ _

theorem unmarshalBody_payload_body (r : Request) (v : Shape) (payload : Field) :
    (unmarshalBody.payload r v payload).state.1.HTTPResponse.Body = r.HTTPResponse.Body ∨
    ((∃ old, payload.Value = .bytes old) ∨ (∃ old, payload.Value = .ptrString old)) ∧
      (unmarshalBody.payload r v payload).state.1.HTTPResponse.Body
        = { data := [], err := r.HTTPResponse.Body.err, reads := r.HTTPResponse.Body.reads + 1 } := by
  unfold unmarshalBody.payload
  split
  · left; rfl
  · split
    · right
      refine ⟨Or.inl ⟨_, by assumption⟩, ?_⟩
      cases he : r.HTTPResponse.Body.err <;> simp [ReadAll, he, Outcome.state, Request.withBody]
    · right
      refine ⟨Or.inr ⟨_, by assumption⟩, ?_⟩
      cases he : r.HTTPResponse.Body.err <;> simp [ReadAll, he, Outcome.state, Request.withBody]
    · left
      split
      · rfl
      · split <;> rfl
    · left
      split <;> rfl


/-- C7. The body is read only for a blob or string payload, and then once.
When the structure has no `SDKShapeTraits`, or names no payload, or the payload
field has no type or the type `structure`, `unmarshalBody` returns with request
and structure as they were. In every case the body after `unmarshalBody` is
the body before, unless the payload field is a `[]byte` or a `*string`, and
then one read has been made. `unmarshalLocationElements` leaves the response,
its body included, as it was in every outcome; so the body after `Unmarshal`
is the body after `unmarshalBody`. -/
theorem body_read_only_for_blob_or_string_payload (lib : StdLib) (r : Request) (v : Shape) :
    (v.FieldByName (str "SDKShapeTraits") = none → unmarshalBody r v = .done (r, v)) ∧
    (∀ t : Field, v.FieldByName (str "SDKShapeTraits") = some t →
      t.Tag.Get (str "payload") = [] → unmarshalBody r v = .done (r, v)) ∧
    (∀ t p : Field, v.FieldByName (str "SDKShapeTraits") = some t →
      v.FieldByName (t.Tag.Get (str "payload")) = some p →
      (p.Tag.Get (str "type") = [] ∨ p.Tag.Get (str "type") = str "structure") →
      unmarshalBody r v = .done (r, v)) ∧
    ((unmarshalBody r v).state.1.HTTPResponse.Body = r.HTTPResponse.Body ∨
      ∃ t p : Field, v.FieldByName (str "SDKShapeTraits") = some t ∧
        v.FieldByName (t.Tag.Get (str "payload")) = some p ∧
        ((∃ old, p.Value = .bytes old) ∨ (∃ old, p.Value = .ptrString old)) ∧
        (unmarshalBody r v).state.1.HTTPResponse.Body
          = { data := [], err := r.HTTPResponse.Body.err,
              reads := r.HTTPResponse.Body.reads + 1 }) ∧
    (unmarshalLocationElements lib r v).state.1.HTTPResponse = r.HTTPResponse ∧
    (r.Data = some v →
      (Unmarshal lib r).state.HTTPResponse.Body = (unmarshalBody r v).state.1.HTTPResponse.Body) := by
  refine ⟨?_, ?_, ?_, ?_, location_loop_response lib v v.fields [] r, ?_⟩
  · intro h
    simp only [unmarshalBody, h]
  · intro t ht hp
    simp only [unmarshalBody, ht, hp, if_true]
  · intro t p ht hp hty
    simp only [unmarshalBody, ht, hp]
    split
    · rfl
    · simp only [hty, if_true]
  · unfold unmarshalBody
    cases ht : v.FieldByName (str "SDKShapeTraits") with
    | none => left; rfl
    | some t =>
      simp only
      split
      · left; rfl
      · cases hp : v.FieldByName (t.Tag.Get (str "payload")) with
        | none => left; simp [Outcome.state]
        | some p =>
          simp only
          split
          · left; rfl
          · rcases unmarshalBody_payload_body r v p with h | ⟨h1, h2⟩
            · left; exact h
            · right; exact ⟨t, p, rfl, hp, h1, h2⟩
  · intro hd
    unfold Unmarshal
    rw [hd]
    simp only
    cases hb : unmarshalBody r v with
    | panic msg s => rfl
    | done s =>
      obtain ⟨r1, v1⟩ := s
      have := location_loop_response lib v1 v1.fields [] r1
      simp only [Outcome.state]
      unfold unmarshalLocationElements
      cases hl : unmarshalLocationElements.loop lib r1 v1 [] v1.fields with
      | panic msg s2 =>
        rw [hl] at this
        obtain ⟨r2, v2⟩ := s2
        simp only [Outcome.state] at this ⊢
        rw [this]
      | done s2 =>
        rw [hl] at this
        obtain ⟨r2, v2⟩ := s2
        simp only [Outcome.state] at this ⊢
        rw [this]

/-- C7, at the JSON payload protocol test: the payload member `Data` is a
structure, so the bind leaves the body unread for the body codec, while the
header member is bound. -/
theorem body_read_only_for_blob_or_string_payload_witness :
    unmarshalBody (mkRequest jsonPayloadResponse jsonPayloadShape) jsonPayloadShape
      = .done (mkRequest jsonPayloadResponse jsonPayloadShape, jsonPayloadShape) ∧
    (Unmarshal noLib (mkRequest jsonPayloadResponse jsonPayloadShape)).state.HTTPResponse.Body
      = jsonPayloadResponse.Body ∧
    ((Unmarshal noLib (mkRequest jsonPayloadResponse jsonPayloadShape)).state.Data.bind
      (fun v => v.FieldByName (str "Header"))).map (fun f => f.Value)
      = some (.ptrString (some (str "baz"))) :=
  ⟨(body_read_only_for_blob_or_string_payload noLib (mkRequest jsonPayloadResponse jsonPayloadShape)
      jsonPayloadShape).2.2.1
      { Name := str "SDKShapeTraits"
        Tag := [(str "type", str "structure"), (str "payload", str "Data")]
        Value := .other (str "bool") none }
      { Name := str "Data", Tag := [(str "type", str "structure")]
        Value := .other (str "*restjson_test.OutputService10TestShapeBodyStructure")
          (some Kind.Invalid) }
      (by decide) (by decide) (Or.inr (by decide)),
    by decide, by decide⟩


/-! ## Fail-fast order of the location dispatcher -/

theorem exported_test (c : Nat) (cs : GoString) :
    ([c] = ToLower [c]) ↔ isExported (c :: cs) = false := by
  simp only [ToLower, List.map_cons, List.map_nil, List.cons.injEq, and_true, isExported,
    decide_eq_false_iff_not, lowerByte]
  constructor
  · intro h
    split at h <;> omega
  · intro h
    split <;> omega

theorem request_error_self (r : Request) (h : r.Error = none) : { r with Error := none } = r := by
  cases r
  simp only at h
  simp [h]

theorem location_loop_skip (lib : StdLib) (r : Request) (v : Shape) (seen rest : List Field)
    (f : Field) (hne : f.Name ≠ []) (hexp : isExported f.Name = false) :
    unmarshalLocationElements.loop lib r v seen (f :: rest)
      = unmarshalLocationElements.loop lib r v (seen ++ [f]) rest := by
  rw [unmarshalLocationElements.loop]
  cases hn : f.Name with
  | nil => exact absurd hn hne
  | cons c cs =>
    rw [hn] at hexp
    simp only [if_pos ((exported_test c cs).2 hexp)]

theorem location_loop_bind (lib : StdLib) (r : Request) (v : Shape) (seen rest : List Field)
    (f : Field) (hexp : isExported f.Name = true) :
    unmarshalLocationElements.loop lib r v seen (f :: rest)
      = match unmarshalLocationElements.field lib r.HTTPResponse r.Error f with
        | .panic msg (m, e) =>
          .panic msg ({ r with Error := e }, { v with fields := seen ++ { f with Value := m } :: rest })
        | .done (m, e) =>
          if e.isSome then
            .done ({ r with Error := e }, { v with fields := seen ++ { f with Value := m } :: rest })
          else
            unmarshalLocationElements.loop lib { r with Error := e } v
              (seen ++ [{ f with Value := m }]) rest := by
  rw [unmarshalLocationElements.loop]
  cases hn : f.Name with
  | nil => rw [hn] at hexp; simp [isExported] at hexp
  | cons c cs =>
    rw [hn] at hexp
    have hne : ¬ ([c] = ToLower [c]) := by
      rw [exported_test c cs, hexp]; simp
    simp only [if_neg hne]

theorem location_loop_prefix (lib : StdLib) (r : Request) (v : Shape) (rest : List Field) :
    ∀ (pre seen : List Field),
    (∀ f ∈ pre, f.Name ≠ [] ∧ (isExported f.Name = true →
      r.Error = none ∧ bindsCleanly lib r.HTTPResponse f = true)) →
    unmarshalLocationElements.loop lib r v seen (pre ++ rest)
      = unmarshalLocationElements.loop lib r v (seen ++ pre.map (boundField lib r.HTTPResponse)) rest
  | [], seen, _ => by simp
  | f :: pre, seen, h => by
    have hf := h f (List.mem_cons_self _ _)
    have hrest : ∀ g ∈ pre, g.Name ≠ [] ∧ (isExported g.Name = true →
        r.Error = none ∧ bindsCleanly lib r.HTTPResponse g = true) :=
      fun g hg => h g (List.mem_cons_of_mem _ hg)
    have ih := location_loop_prefix lib r v rest pre
    rw [List.cons_append]
    by_cases hexp : isExported f.Name = true
    · obtain ⟨herr, hclean⟩ := hf.2 hexp
      rw [location_loop_bind lib r v seen (pre ++ rest) f hexp, herr]
      have hb : boundField lib r.HTTPResponse f
          = { f with Value := (unmarshalLocationElements.field lib r.HTTPResponse none f).state.1 } := by
        simp [boundField, hexp]
      unfold bindsCleanly at hclean
      cases hfield : unmarshalLocationElements.field lib r.HTTPResponse none f with
      | panic msg s => rw [hfield] at hclean; simp at hclean
      | done s =>
        obtain ⟨m, e⟩ := s
        rw [hfield] at hclean hb
        cases e with
        | some e0 => simp at hclean
        | none =>
          simp only [Option.isSome_none, if_false, Bool.false_eq_true]
          rw [request_error_self r herr, ih _ hrest]
          simp [hb, Outcome.state]
    · have hexp2 : isExported f.Name = false := by simpa using hexp
      have hb : boundField lib r.HTTPResponse f = f := by
        simp [boundField, hexp2]
      rw [location_loop_skip lib r v seen (pre ++ rest) f hf.1 hexp2, ih (seen ++ [f]) hrest]
      simp [hb]

theorem unmarshalHeader_coerce_error_unchanged (lib : StdLib) (v m : Value) (header : GoString)
    (e : GoError) (h : unmarshalHeader.coerce lib v header = .done (m, some e)) : m = v := by
  unfold unmarshalHeader.coerce at h
  split at h
  · simp at h
  · split at h
    · simp only [Outcome.done.injEq, Prod.mk.injEq] at h; exact h.1.symm
    · simp at h
  · split at h
    · simp only [Outcome.done.injEq, Prod.mk.injEq] at h; exact h.1.symm
    · simp at h
  · split at h
    · simp only [Outcome.done.injEq, Prod.mk.injEq] at h; exact h.1.symm
    · simp at h
  · split at h
    · simp only [Outcome.done.injEq, Prod.mk.injEq] at h; exact h.1.symm
    · simp at h
  · split at h
    · simp only [Outcome.done.injEq, Prod.mk.injEq] at h; exact h.1.symm
    · simp at h
  · simp only [Outcome.done.injEq, Prod.mk.injEq] at h; exact h.1.symm

theorem unmarshalHeader_error_unchanged (lib : StdLib) (v m : Value) (header : GoString)
    (e : GoError) (h : unmarshalHeader lib v header = .done (m, some e)) : m = v := by
  unfold unmarshalHeader at h
  split at h
  · split at h
    · simp at h
    · split at h
      · simp at h
      · exact unmarshalHeader_coerce_error_unchanged lib v m header e h
  · exact unmarshalHeader_coerce_error_unchanged lib v m header e h

theorem location_loop_fail (lib : StdLib) (r : Request) (v : Shape) (seen post : List Field)
    (fN : Field) (m : Value) (e : GoError)
    (hexp : isExported fN.Name = true)
    (hloc : fN.Tag.Get (str "location") = str "header")
    (hfail : unmarshalHeader lib fN.Value (r.HTTPResponse.Header.Get fN.wireName)
      = .done (m, some e)) :
    unmarshalLocationElements.loop lib r v seen (fN :: post)
      = .done ({ r with Error := some (decodeError e) }, { v with fields := seen ++ fN :: post }) := by
  have hm := unmarshalHeader_error_unchanged lib _ _ _ _ hfail
  subst hm
  rw [location_loop_bind lib r v seen post fN hexp]
  simp only [field_header_eq lib _ _ fN hloc, hfail, Option.isSome_some, if_true]

theorem location_run_fail (lib : StdLib) (r : Request) (v : Shape)
    (pre post : List Field) (fN : Field) (m : Value) (e : GoError)
    (hfields : v.fields = pre ++ fN :: post)
    (hnames : ∀ f ∈ pre, f.Name ≠ [])
    (hreach : r.Error = none ∨ ∀ f ∈ pre, isExported f.Name = false)
    (hpre : ∀ f ∈ pre, isExported f.Name = true → bindsCleanly lib r.HTTPResponse f = true)
    (hexp : isExported fN.Name = true)
    (hloc : fN.Tag.Get (str "location") = str "header")
    (hfail : unmarshalHeader lib fN.Value (r.HTTPResponse.Header.Get fN.wireName)
      = .done (m, some e)) :
    unmarshalLocationElements lib r v
      = .done ({ r with Error := some (decodeError e) },
          { v with fields := pre.map (boundField lib r.HTTPResponse) ++ fN :: post }) := by
  have hp : ∀ f ∈ pre, f.Name ≠ [] ∧ (isExported f.Name = true →
      r.Error = none ∧ bindsCleanly lib r.HTTPResponse f = true) := by
    intro f hf
    refine ⟨hnames f hf, fun hx => ?_⟩
    rcases hreach with h | h
    · exact ⟨h, hpre f hf hx⟩
    · rw [h f hf] at hx; exact absurd hx (by simp)
  unfold unmarshalLocationElements
  rw [hfields, location_loop_prefix lib r v (fN :: post) pre [] hp,
    location_loop_fail lib r v _ post fN m e hexp hloc hfail]
  simp

theorem location_run_clean (lib : StdLib) (r : Request) (w : Shape) (herr : r.Error = none)
    (hw : ∀ f ∈ w.fields, f.Name ≠ [] ∧
      (isExported f.Name = true → bindsCleanly lib r.HTTPResponse f = true)) :
    unmarshalLocationElements lib r w
      = .done (r, { w with fields := w.fields.map (boundField lib r.HTTPResponse) }) := by
  have hp : ∀ f ∈ w.fields, f.Name ≠ [] ∧ (isExported f.Name = true →
      r.Error = none ∧ bindsCleanly lib r.HTTPResponse f = true) :=
    fun f hf => ⟨(hw f hf).1, fun hx => ⟨herr, (hw f hf).2 hx⟩⟩
  have := location_loop_prefix lib r w [] w.fields [] hp
  unfold unmarshalLocationElements
  rw [List.append_nil] at this
  rw [this]
  simp [unmarshalLocationElements.loop]

/-- C8. Fail-fast order of `unmarshalLocationElements`. Let the fields of the
structure be `pre`, then the header field `N`, then `post`, and let `N` be
reached (the request has no error on entry, or no field before `N` is
exported; every exported field before `N` is bound without failure) and its
header coercion fail with `e`. Then the call returns with the decode error of
`e` on the request; every field before `N` is as a bind without failure leaves
it (`boundField`); `N` and every field after it are as they were. A bind in
which no field fails gives every field its `boundField`. -/
theorem location_failure_is_fail_fast (lib : StdLib) (r : Request) (v : Shape)
    (pre post : List Field) (fN : Field) (m : Value) (e : GoError)
    (hfields : v.fields = pre ++ fN :: post)
    (_hascii : ∀ f ∈ v.fields, isASCII f.Name = true)
    (hnames : ∀ f ∈ pre, f.Name ≠ [])
    (hreach : r.Error = none ∨ ∀ f ∈ pre, isExported f.Name = false)
    (hpre : ∀ f ∈ pre, isExported f.Name = true → bindsCleanly lib r.HTTPResponse f = true)
    (hexp : isExported fN.Name = true)
    (hloc : fN.Tag.Get (str "location") = str "header")
    (hfail : unmarshalHeader lib fN.Value (r.HTTPResponse.Header.Get fN.wireName)
      = .done (m, some e)) :
    unmarshalLocationElements lib r v
      = .done ({ r with Error := some (decodeError e) },
          { v with fields := pre.map (boundField lib r.HTTPResponse) ++ fN :: post }) ∧
    (∀ w : Shape, r.Error = none →
      (∀ f ∈ w.fields, f.Name ≠ [] ∧
        (isExported f.Name = true → bindsCleanly lib r.HTTPResponse f = true)) →
      unmarshalLocationElements lib r w
        = .done (r, { w with fields := w.fields.map (boundField lib r.HTTPResponse) })) := by
  exact ⟨location_run_fail lib r v pre post fN m e hfields hnames hreach hpre hexp hloc hfail,
    fun w herr hw => location_run_clean lib r w herr hw⟩

/-- C8, at the header value `abc` for an integer field: the status code field
before it holds 200, the integer field and the string header field after it
are still nil, and the request carries the decode error of `ParseInt`. -/
theorem location_failure_is_fail_fast_witness :
    unmarshalHeader noLib (.ptrInt64 none) (str "abc")
      = .done (.ptrInt64 none, some (.numError "ParseInt" (str "abc") false)) ∧
    unmarshalLocationElements noLib (mkRequest failFastResponse failFastShape) failFastShape
      = .done ({ mkRequest failFastResponse failFastShape with
            Error := some (decodeError (.numError "ParseInt" (str "abc") false)) },
          { failFastShape with
            fields :=
              [{ statusField with Value := .ptrInt64 (some 200) },
               { Name := str "Num"
                 Tag := [(str "location", str "header"), (str "type", str "integer")]
                 Value := .ptrInt64 none },
               { Name := str "After"
                 Tag := [(str "location", str "header"), (str "type", str "string")]
                 Value := .ptrString none }] }) :=
  ⟨by decide,
    (location_failure_is_fail_fast noLib (mkRequest failFastResponse failFastShape) failFastShape
      [statusField]
      [{ Name := str "After", Tag := [(str "location", str "header"), (str "type", str "string")]
         Value := .ptrString none }]
      { Name := str "Num", Tag := [(str "location", str "header"), (str "type", str "integer")]
        Value := .ptrInt64 none }
      (.ptrInt64 none) (.numError "ParseInt" (str "abc") false)
      rfl (by decide) (by decide) (Or.inl rfl) (by decide) (by decide) (by decide)
      (by decide)).1.trans (by decide)⟩


/-! ## Fail-fast order of the whole bind -/

theorem setField_fields (v : Shape) (n : GoString) (x : Value) :
    List.Forall₂ (fun f f1 => f1 = f ∨ f.Name = n) v.fields (v.setField n x).fields := by
  unfold Shape.setField
  split
  · simp only
    rw [List.forall₂_map_right_iff, List.forall₂_same]
    intro f _
    by_cases h : f.Name = n
    · right; exact h
    · left; simp [h]
  · simp only
    rw [List.forall₂_same]
    intro f _
    left; rfl

theorem unmarshalBody_payload_fields (r : Request) (v : Shape) (payload : Field) :
    List.Forall₂ (fun f f1 => f1 = f ∨ f.Name = payload.Name) v.fields
      (unmarshalBody.payload r v payload).state.2.fields := by
  have hsame : List.Forall₂ (fun f f1 => f1 = f ∨ f.Name = payload.Name) v.fields v.fields := by
    rw [List.forall₂_same]
    intro f _
    left; rfl
  unfold unmarshalBody.payload
  split
  · exact hsame
  · split
    · cases he : r.HTTPResponse.Body.err
      · simp only [ReadAll, he, Option.map_none', Outcome.state]
        exact setField_fields v _ _
      · simp only [ReadAll, he, Option.map_some', Outcome.state]
        exact hsame
    · cases he : r.HTTPResponse.Body.err
      · simp only [ReadAll, he, Option.map_none', Outcome.state]
        exact setField_fields v _ _
      · simp only [ReadAll, he, Option.map_some', Outcome.state]
        exact hsame
    · split
      · exact setField_fields v _ _
      · split
        · exact setField_fields v _ _
        · exact hsame
    · split
      · exact hsame
      · exact hsame

theorem forall2_same_or (P : Field → Prop) (l : List Field) :
    List.Forall₂ (fun f f1 => f1 = f ∨ P f) l l := by
  rw [List.forall₂_same]
  intro f _
  left; rfl

theorem unmarshalBody_fields (r : Request) (v : Shape) :
    List.Forall₂ (fun f f1 => f1 = f ∨
        ∃ t : Field, v.FieldByName (str "SDKShapeTraits") = some t ∧
          f.Name = t.Tag.Get (str "payload"))
      v.fields (unmarshalBody r v).state.2.fields := by
  unfold unmarshalBody
  cases ht : v.FieldByName (str "SDKShapeTraits") with
  | none => exact forall2_same_or _ _
  | some t =>
    simp only
    split
    · exact forall2_same_or _ _
    · cases hp : v.FieldByName (t.Tag.Get (str "payload")) with
      | none => simp only [true_or, if_true]; exact forall2_same_or _ _
      | some p =>
        simp only
        split
        · exact forall2_same_or _ _
        · have hn := fieldByName_name v _ p hp
          refine List.Forall₂.imp ?_ (unmarshalBody_payload_fields r v p)
          intro f f1 h
          rcases h with h | h
          · left; exact h
          · right; exact ⟨t, rfl, by rw [h, hn]⟩

/-- C9 as stated fails: a bind that reports the coercion error of the header
field `Num` has assigned the payload field `Stream`, which is declared after
`Num`, from the body. -/
theorem payload_after_failed_header_is_mutated :
    (Unmarshal noLib (mkRequest headerThenPayloadResponse headerThenPayloadShape)).returned = true ∧
    (Unmarshal noLib (mkRequest headerThenPayloadResponse headerThenPayloadShape)).state.Error
      = some (decodeError (.numError "ParseInt" (str "abc") false)) ∧
    headerThenPayloadShape.fields.map (fun f => f.Name)
      = [str "Num", str "Stream", str "metadataOutputShape"] ∧
    (headerThenPayloadShape.FieldByName (str "Stream")).map (fun f => f.Value)
      = some (.bytes none) ∧
    ((Unmarshal noLib (mkRequest headerThenPayloadResponse headerThenPayloadShape)).state.Data.bind
      (fun v => v.FieldByName (str "Stream"))).map (fun f => f.Value)
      = some (.bytes (some (str "abc"))) := by
  decide

/-- C9, amended. Let the payload step of `Unmarshal` return with request `r1`
and structure `v1`, let the fields of `v1` be `pre`, the header field `N` and
`post`, and let `N` be reached and its header coercion fail with `e`. Then
`Unmarshal` returns with the decode error of `e`, and `N` and every field
after it are as the payload step left them: the location dispatcher has
mutated none of them. The payload step changes no field but the one that
`SDKShapeTraits` names as payload. -/
theorem failed_header_leaves_later_location_fields (lib : StdLib) (r r1 : Request) (v v1 : Shape)
    (pre post : List Field) (fN : Field) (m : Value) (e : GoError)
    (hdata : r.Data = some v)
    (hbody : unmarshalBody r v = .done (r1, v1))
    (hfields : v1.fields = pre ++ fN :: post)
    (_hascii : ∀ f ∈ v1.fields, isASCII f.Name = true)
    (hnames : ∀ f ∈ pre, f.Name ≠ [])
    (hreach : r1.Error = none ∨ ∀ f ∈ pre, isExported f.Name = false)
    (hpre : ∀ f ∈ pre, isExported f.Name = true → bindsCleanly lib r1.HTTPResponse f = true)
    (hexp : isExported fN.Name = true)
    (hloc : fN.Tag.Get (str "location") = str "header")
    (hfail : unmarshalHeader lib fN.Value (r1.HTTPResponse.Header.Get fN.wireName)
      = .done (m, some e)) :
    Unmarshal lib r
      = .done { r1 with
          Error := some (decodeError e)
          Data := some { v1 with fields := pre.map (boundField lib r1.HTTPResponse) ++ fN :: post } } ∧
    List.Forall₂ (fun f f1 => f1 = f ∨
        ∃ t : Field, v.FieldByName (str "SDKShapeTraits") = some t ∧
          f.Name = t.Tag.Get (str "payload"))
      v.fields v1.fields := by
  constructor
  · have h := location_run_fail lib r1 v1 pre post fN m e hfields hnames hreach hpre hexp hloc hfail
    simp only [Unmarshal, hdata, hbody, h]
  · have h := unmarshalBody_fields r v
    rw [hbody] at h
    exact h

/-- C9 amended, at the header field `Num` followed by the payload field
`Stream`: the bind reports the error of `Num` and leaves `Stream` as the
payload step set it, to the body `abc`. -/
theorem failed_header_leaves_later_location_fields_witness :
    Unmarshal noLib (mkRequest headerThenPayloadResponse headerThenPayloadShape)
      = .done
          { Error := some (decodeError (.numError "ParseInt" (str "abc") false))
            HTTPResponse :=
              { headerThenPayloadResponse with Body := { data := [], err := none, reads := 1 } }
            Data := some (headerThenPayloadShape.setField (str "Stream")
              (.bytes (some (str "abc")))) } :=
  (failed_header_leaves_later_location_fields noLib
    (mkRequest headerThenPayloadResponse headerThenPayloadShape)
    ((mkRequest headerThenPayloadResponse headerThenPayloadShape).withBody
      { data := [], err := none, reads := 1 })
    headerThenPayloadShape
    (headerThenPayloadShape.setField (str "Stream") (.bytes (some (str "abc"))))
    []
    [{ Name := str "Stream", Tag := [(str "type", str "blob")], Value := .bytes (some (str "abc")) },
     { Name := str "metadataOutputShape", Tag := [(str "json", str "-"), (str "xml", str "-")]
       Value := .other (str "restjson_test.metadataOutputShape") none }]
    { Name := str "Num", Tag := [(str "location", str "header"), (str "type", str "integer")]
      Value := .ptrInt64 none }
    (.ptrInt64 none) (.numError "ParseInt" (str "abc") false)
    rfl (by decide) (by decide) (by decide) (by decide) (Or.inl rfl) (by decide) (by decide)
    (by decide) (by decide)).1.trans (by decide)


/-! ## Blob headers -/

theorem skipNewlines_illegal : ∀ (s : GoString), (∃ c ∈ s, illegalBase64Byte c = true) →
    ∃ c ∈ skipNewlines s, illegalBase64Byte c = true
  | [], h => by simp at h
  | a :: s, h => by
    unfold skipNewlines
    split
    · rename_i hnl
      obtain ⟨c, hc, hill⟩ := h
      rcases List.mem_cons.1 hc with rfl | hc
      · simp only [illegalBase64Byte, Bool.and_eq_true, bne_iff_ne] at hill
        omega
      · exact skipNewlines_illegal s ⟨c, hc, hill⟩
    · exact h

theorem decodeLoop_illegal : ∀ (s : GoString) (q : List Nat) (out : GoString),
    (∃ c ∈ s, illegalBase64Byte c = true) → decodeLoop s q out = none
  | [], _, _, h => by simp at h
  | a :: s, q, out, h => by
    have hrest : ∀ v : Nat, decodeMap a = some v → ∃ c ∈ s, illegalBase64Byte c = true := by
      intro v hv
      obtain ⟨c, hc, hill⟩ := h
      rcases List.mem_cons.1 hc with rfl | hc
      · simp [illegalBase64Byte, hv] at hill
      · exact ⟨c, hc, hill⟩
    have hrest2 : (a = 10 ∨ a = 13 ∨ a = 61) → ∃ c ∈ s, illegalBase64Byte c = true := by
      intro ha
      obtain ⟨c, hc, hill⟩ := h
      rcases List.mem_cons.1 hc with rfl | hc
      · simp only [illegalBase64Byte, Bool.and_eq_true, bne_iff_ne] at hill
        omega
      · exact ⟨c, hc, hill⟩
    unfold decodeLoop
    cases hm : decodeMap a with
    | some v =>
      simp only
      split
      · exact decodeLoop_illegal s _ _ (hrest v hm)
      · exact decodeLoop_illegal s _ _ (hrest v hm)
    | none =>
      simp only
      split
      · rename_i hnl
        exact decodeLoop_illegal s _ _ (hrest2 (by omega))
      · split
        · rfl
        · rename_i hpad
          have hs := hrest2 (by omega)
          split
          · rfl
          · split
            · obtain ⟨c, hc, hill⟩ := skipNewlines_illegal s hs
              cases hk : skipNewlines s with
              | nil => rfl
              | cons d ds =>
                simp only
                split
                · rfl
                · rename_i hd
                  rw [hk] at hc
                  rcases List.mem_cons.1 hc with rfl | hc
                  · simp only [illegalBase64Byte, Bool.and_eq_true, bne_iff_ne] at hill
                    omega
                  · obtain ⟨c2, hc2, hill2⟩ := skipNewlines_illegal ds ⟨c, hc, hill⟩
                    have : skipNewlines ds ≠ [] := List.ne_nil_of_mem hc2
                    simp [this]
            · obtain ⟨c, hc, _⟩ := skipNewlines_illegal s hs
              have : skipNewlines s ≠ [] := List.ne_nil_of_mem hc
              simp [this]

/-- C10. A blob header field and a header value that is not empty and that
`base64.StdEncoding` rejects: the bind of the field returns, the field keeps
the value it had (no empty or partial byte value is put in), and the request
carries the decode error. Every value with a byte that is neither of the
base64 alphabet, nor padding, nor a line break is rejected so. -/
theorem blob_header_decode_error (lib : StdLib) (resp : Response) (err : Option APIError)
    (f : Field) (prev : Option GoString) (e : GoError)
    (hloc : f.Tag.Get (str "location") = str "header")
    (hval : f.Value = .bytes prev)
    (hne : resp.Header.Get f.wireName ≠ [])
    (hbad : DecodeString (resp.Header.Get f.wireName) = .error e) :
    unmarshalLocationElements.field lib resp err f = .done (.bytes prev, some (decodeError e)) ∧
    unmarshalHeader lib (.bytes prev) (resp.Header.Get f.wireName) = .done (.bytes prev, some e) ∧
    (∀ s : GoString, (∃ c ∈ s, illegalBase64Byte c = true) →
      DecodeString s = .error .corruptInput) := by
  have h : unmarshalHeader lib (.bytes prev) (resp.Header.Get f.wireName)
      = .done (.bytes prev, some e) := by
    simp only [unmarshalHeader, hne, if_false, unmarshalHeader.coerce, hbad]
  refine ⟨?_, h, ?_⟩
  · rw [field_header_eq lib resp err f hloc, hval, h]
  · intro s hs
    simp only [DecodeString, decodeLoop_illegal s [] [] hs]

/-- C10, at the header value `%%%`, which is no base64 text: a blob field that
holds `xy` still holds `xy`, and the decode error is reported. -/
theorem blob_header_decode_error_witness :
    DecodeString (str "%%%") = .error .corruptInput ∧
    unmarshalLocationElements.field noLib (blobResponse (str "%%%")) none
        { Name := str "Blob", Tag := [(str "location", str "header"), (str "type", str "blob")]
          Value := .bytes (some (str "xy")) }
      = .done (.bytes (some (str "xy")), some (decodeError .corruptInput)) :=
  ⟨rfl,
    (blob_header_decode_error noLib (blobResponse (str "%%%")) none
      { Name := str "Blob", Tag := [(str "location", str "header"), (str "type", str "blob")]
        Value := .bytes (some (str "xy")) }
      (some (str "xy")) .corruptInput (by decide) rfl (by decide) rfl).1⟩


/-! ## Base64 round trip -/

theorem decodeMap_encodeChar (s : Nat) (h : s < 64) : decodeMap (encodeChar s) = some s := by
  unfold encodeChar decodeMap
  split
  · rw [if_pos (by omega)]
    simp
  · split
    · rw [if_neg (by omega), if_pos (by omega)]
      simp
    · split
      · rw [if_neg (by omega), if_neg (by omega), if_pos (by omega)]
        congr 1
        omega
      · split
        · rename_i h62
          simp [h62]
        · have : s = 63 := by omega
          subst this
          simp

theorem decodeLoop_sextet (c : Nat) (cs : GoString) (q : List Nat) (out : GoString) (v : Nat)
    (h : decodeMap c = some v) :
    decodeLoop (c :: cs) q out =
      if q.length = 3 then decodeLoop cs [] (out ++ quantumBytes (q ++ [v]))
      else decodeLoop cs (q ++ [v]) out := by
  rw [decodeLoop]
  simp only [h]

theorem quantumBytes_three (a b c : Nat) (ha : a < 256) (hb : b < 256) (hc : c < 256) :
    quantumBytes [a / 4, a % 4 * 16 + b / 16, b % 16 * 4 + c / 64, c % 64] = [a, b, c] := by
  simp only [quantumBytes, List.getD_cons_zero, List.getD_cons_succ, List.length_cons,
    List.length_nil, List.take]
  congr 1
  · omega
  · congr 1
    · omega
    · congr 1
      omega

theorem quantumBytes_two (a b : Nat) (ha : a < 256) (hb : b < 256) :
    quantumBytes [a / 4, a % 4 * 16 + b / 16, b % 16 * 4] = [a, b] := by
  simp only [quantumBytes, List.getD_cons_zero, List.getD_cons_succ, List.length_cons,
    List.length_nil, List.take, List.getD_nil]
  congr 1
  · omega
  · congr 1
    omega

theorem quantumBytes_one (a : Nat) (ha : a < 256) :
    quantumBytes [a / 4, a % 4 * 16] = [a] := by
  simp only [quantumBytes, List.getD_cons_zero, List.getD_cons_succ, List.length_cons,
    List.length_nil, List.take, List.getD_nil]
  congr 1
  omega

theorem decodeLoop_encode : ∀ (bs out : GoString), (∀ b ∈ bs, b < 256) →
    decodeLoop (EncodeToString bs) [] out = some (out ++ bs)
  | [], out, _ => by simp [EncodeToString, decodeLoop]
  | [a], out, h => by
    have ha : a < 256 := h a (by simp)
    rw [EncodeToString,
      decodeLoop_sextet _ _ _ _ _ (decodeMap_encodeChar (a / 4) (by omega)),
      if_neg (by simp),
      decodeLoop_sextet _ _ _ _ _ (decodeMap_encodeChar (a % 4 * 16) (by omega)),
      if_neg (by simp)]
    simp only [List.nil_append, List.cons_append]
    rw [decodeLoop]
    simp [decodeMap, skipNewlines, quantumBytes_one a ha]
  | [a, b], out, h => by
    have ha : a < 256 := h a (by simp)
    have hb : b < 256 := h b (by simp)
    rw [EncodeToString,
      decodeLoop_sextet _ _ _ _ _ (decodeMap_encodeChar (a / 4) (by omega)),
      if_neg (by simp),
      decodeLoop_sextet _ _ _ _ _ (decodeMap_encodeChar (a % 4 * 16 + b / 16) (by omega)),
      if_neg (by simp),
      decodeLoop_sextet _ _ _ _ _ (decodeMap_encodeChar (b % 16 * 4) (by omega)),
      if_neg (by simp)]
    simp only [List.nil_append, List.cons_append]
    rw [decodeLoop]
    simp [decodeMap, skipNewlines, quantumBytes_two a b ha hb]
  | a :: b :: c :: rest, out, h => by
    have ha : a < 256 := h a (by simp)
    have hb : b < 256 := h b (by simp)
    have hc : c < 256 := h c (by simp)
    have hrest : ∀ x ∈ rest, x < 256 := fun x hx => h x (by simp [hx])
    rw [EncodeToString,
      decodeLoop_sextet _ _ _ _ _ (decodeMap_encodeChar (a / 4) (by omega)),
      if_neg (by simp),
      decodeLoop_sextet _ _ _ _ _ (decodeMap_encodeChar (a % 4 * 16 + b / 16) (by omega)),
      if_neg (by simp),
      decodeLoop_sextet _ _ _ _ _ (decodeMap_encodeChar (b % 16 * 4 + c / 64) (by omega)),
      if_neg (by simp),
      decodeLoop_sextet _ _ _ _ _ (decodeMap_encodeChar (c % 64) (by omega)),
      if_pos (by simp)]
    simp only [List.nil_append, List.cons_append]
    rw [quantumBytes_three a b c ha hb hc, decodeLoop_encode rest _ hrest]
    simp

theorem decodeString_encodeToString (bs : GoString) (h : ∀ b ∈ bs, b < 256) :
    DecodeString (EncodeToString bs) = .ok bs := by
  simp only [DecodeString, decodeLoop_encode bs [] h, List.nil_append]

theorem encodeToString_ne_nil (bs : GoString) (h : bs ≠ []) : EncodeToString bs ≠ [] := by
  match bs, h with
  | [_], _ => simp [EncodeToString]
  | [_, _], _ => simp [EncodeToString]
  | _ :: _ :: _ :: _, _ => simp [EncodeToString]


/-! ## Scalar coercion of header values -/

theorem field_header_coerce (lib : StdLib) (resp : Response) (err : Option APIError) (f : Field)
    (hloc : f.Tag.Get (str "location") = str "header")
    (hne : resp.Header.Get f.wireName ≠ []) :
    unmarshalLocationElements.field lib resp err f =
      match unmarshalHeader.coerce lib f.Value (resp.Header.Get f.wireName) with
      | .done (m, none) => .done (m, err)
      | .done (m, some e) => .done (m, some (decodeError e))
      | .panic msg (m, _) => .panic msg (m, err) := by
  rw [field_header_eq lib resp err f hloc]
  simp only [unmarshalHeader, hne, if_false]

/-- C11. A blob header field and a header value that is valid base64: for
every non-empty value that `base64.StdEncoding` decodes, and so for the
encoding of every non-empty byte sequence `b`, the bind of the field does not
return, because `unmarshalHeader` assigns a `*[]byte` to the `[]byte` field and
`reflect.Value.Set` panics; the field still holds what it held. At the header
`aGkh`, the encoding of `hi!`, the whole `Unmarshal` panics and the field is
still nil. -/
theorem blob_header_valid_base64_panics :
    (∀ (lib : StdLib) (resp : Response) (err : Option APIError) (f : Field)
        (prev : Option GoString) (b : GoString),
      f.Tag.Get (str "location") = str "header" →
      f.Value = .bytes prev →
      resp.Header.Get f.wireName ≠ [] →
      DecodeString (resp.Header.Get f.wireName) = .ok b →
      (unmarshalLocationElements.field lib resp err f).returned = false ∧
      (unmarshalLocationElements.field lib resp err f).state.1 = .bytes prev) ∧
    (∀ (lib : StdLib) (resp : Response) (err : Option APIError) (f : Field)
        (prev : Option GoString) (b : GoString),
      f.Tag.Get (str "location") = str "header" →
      f.Value = .bytes prev →
      b ≠ [] → (∀ x ∈ b, x < 256) →
      resp.Header.Get f.wireName = EncodeToString b →
      DecodeString (resp.Header.Get f.wireName) = .ok b ∧
      (unmarshalLocationElements.field lib resp err f).returned = false ∧
      (unmarshalLocationElements.field lib resp err f).state.1 = .bytes prev) ∧
    EncodeToString (str "hi!") = str "aGkh" ∧
    DecodeString (str "aGkh") = .ok (str "hi!") ∧
    (Unmarshal noLib (mkRequest (blobResponse (str "aGkh")) blobHeaderShape)).returned = false ∧
    ((Unmarshal noLib (mkRequest (blobResponse (str "aGkh")) blobHeaderShape)).state.Data.bind
      (fun v => v.FieldByName (str "Blob"))).map (fun f => f.Value) = some (.bytes none) := by
  have key : ∀ (lib : StdLib) (resp : Response) (err : Option APIError) (f : Field)
      (prev : Option GoString) (b : GoString),
      f.Tag.Get (str "location") = str "header" →
      f.Value = .bytes prev →
      resp.Header.Get f.wireName ≠ [] →
      DecodeString (resp.Header.Get f.wireName) = .ok b →
      (unmarshalLocationElements.field lib resp err f).returned = false ∧
      (unmarshalLocationElements.field lib resp err f).state.1 = .bytes prev := by
    intro lib resp err f prev b hloc hval hne hok
    rw [field_header_coerce lib resp err f hloc hne, hval]
    simp only [unmarshalHeader.coerce, hok]
    exact ⟨rfl, rfl⟩
  refine ⟨key, ?_, by decide, rfl, by decide, by decide⟩
  intro lib resp err f prev b hloc hval hb hbytes hget
  have hdec : DecodeString (resp.Header.Get f.wireName) = .ok b := by
    rw [hget]
    exact decodeString_encodeToString b hbytes
  have hne : resp.Header.Get f.wireName ≠ [] := by
    rw [hget]
    exact encodeToString_ne_nil b hb
  exact ⟨hdec, key lib resp err f prev b hloc hval hne hdec⟩

theorem parseBool_true (s : GoString) (h : s ∈ trueTokens) : ParseBool s = .ok true := by
  simp only [trueTokens, List.mem_cons, List.mem_singleton, List.not_mem_nil, or_false] at h
  rcases h with h | h | h | h | h | h <;> rw [h] <;> rfl

theorem parseBool_false (s : GoString) (h : s ∈ falseTokens) : ParseBool s = .ok false := by
  simp only [falseTokens, List.mem_cons, List.mem_singleton, List.not_mem_nil, or_false] at h
  rcases h with h | h | h | h | h | h <;> rw [h] <;> rfl

theorem parseBool_other (s : GoString) (h1 : s ∉ trueTokens) (h2 : s ∉ falseTokens) :
    ParseBool s = .error (.numError "ParseBool" s false) := by
  simp only [trueTokens, List.mem_cons, List.mem_singleton, List.not_mem_nil, or_false] at h1
  simp only [falseTokens, List.mem_cons, List.mem_singleton, List.not_mem_nil, or_false] at h2
  unfold ParseBool
  rw [if_neg (by tauto), if_neg (by tauto)]

/-- C13. Boolean header coercion. For a boolean header field and a non-empty
header value `s`: when `s` is one of `1, t, T, TRUE, true, True` the field is
set to true, when it is one of `0, f, F, FALSE, false, False` the field is set
to false, both without error; for every other `s` the field keeps its value
and the request carries the decode error of `ParseBool`. -/
theorem bool_header_accepts_exactly_tokens (lib : StdLib) (resp : Response)
    (err : Option APIError) (f : Field) (prev : Option Bool)
    (hloc : f.Tag.Get (str "location") = str "header")
    (hval : f.Value = .ptrBool prev)
    (hne : resp.Header.Get f.wireName ≠ []) :
    (resp.Header.Get f.wireName ∈ trueTokens →
      unmarshalLocationElements.field lib resp err f = .done (.ptrBool (some true), err)) ∧
    (resp.Header.Get f.wireName ∈ falseTokens →
      unmarshalLocationElements.field lib resp err f = .done (.ptrBool (some false), err)) ∧
    (resp.Header.Get f.wireName ∉ trueTokens → resp.Header.Get f.wireName ∉ falseTokens →
      unmarshalLocationElements.field lib resp err f
        = .done (.ptrBool prev,
            some (decodeError (.numError "ParseBool" (resp.Header.Get f.wireName) false)))) := by
  rw [field_header_coerce lib resp err f hloc hne, hval]
  simp only [unmarshalHeader.coerce]
  refine ⟨?_, ?_, ?_⟩
  · intro h
    rw [parseBool_true _ h]
  · intro h
    rw [parseBool_false _ h]
  · intro h1 h2
    rw [parseBool_other _ h1 h2]

/-- C13, at the header values `True`, `0` and `yes` for a boolean field that
holds `true`. -/
theorem bool_header_accepts_exactly_tokens_witness :
    unmarshalLocationElements.field noLib (headerResponse [(str "Flag", [str "True"])]) none
        (headerField (str "Flag") [] (.ptrBool none)) = .done (.ptrBool (some true), none) ∧
    unmarshalLocationElements.field noLib (headerResponse [(str "Flag", [str "0"])]) none
        (headerField (str "Flag") [] (.ptrBool (some true))) = .done (.ptrBool (some false), none) ∧
    unmarshalLocationElements.field noLib (headerResponse [(str "Flag", [str "yes"])]) none
        (headerField (str "Flag") [] (.ptrBool (some true)))
      = .done (.ptrBool (some true),
          some (decodeError (.numError "ParseBool" (str "yes") false))) :=
  ⟨(bool_header_accepts_exactly_tokens noLib (headerResponse [(str "Flag", [str "True"])]) none
      (headerField (str "Flag") [] (.ptrBool none)) none (by decide) rfl (by decide)).1
      (by decide),
    (bool_header_accepts_exactly_tokens noLib (headerResponse [(str "Flag", [str "0"])]) none
      (headerField (str "Flag") [] (.ptrBool (some true))) (some true) (by decide) rfl
      (by decide)).2.1 (by decide),
    (bool_header_accepts_exactly_tokens noLib (headerResponse [(str "Flag", [str "yes"])]) none
      (headerField (str "Flag") [] (.ptrBool (some true))) (some true) (by decide) rfl
      (by decide)).2.2 (by decide) (by decide)⟩

/-- C14 as stated fails: a string header field that is nil, bound to a header
that is present with the empty value, is still nil after the bind; it has not
been set to the empty string. -/
theorem unset_string_header_stays_unset :
    (headerResponse (Header.Set [] (str "ImaHeader") [])).Header
      = [(str "Imaheader", [[]])] ∧
    unmarshalLocationElements.field noLib (headerResponse (Header.Set [] (str "ImaHeader") []))
      none imaHeaderField = .done (.ptrString none, none) ∧
    Value.ptrString none ≠ Value.ptrString (some []) ∧
    ((Unmarshal noLib (mkRequest (headerResponse (Header.Set [] (str "ImaHeader") []))
        scalarShape)).state.Data.bind
      (fun v => v.FieldByName (str "ImaHeader"))).map (fun f => f.Value)
      = some (.ptrString none) := by
  decide

/-- C14, amended. A string header field bound to an empty header value: a
field that holds a string is set to the empty string; a field that is nil
stays nil, as for an absent header. In both cases no error is reported. -/
theorem empty_string_header (lib : StdLib) (resp : Response) (err : Option APIError) (f : Field)
    (hloc : f.Tag.Get (str "location") = str "header")
    (hempty : resp.Header.Get f.wireName = []) :
    (∀ s : GoString, f.Value = .ptrString (some s) →
      unmarshalLocationElements.field lib resp err f = .done (.ptrString (some []), err)) ∧
    (f.Value = .ptrString none →
      unmarshalLocationElements.field lib resp err f = .done (.ptrString none, err)) := by
  rw [field_header_eq lib resp err f hloc, hempty]
  constructor
  · intro s hs
    rw [hs]
    simp [unmarshalHeader, Value.elemKind, unmarshalHeader.coerce]
  · intro hs
    rw [hs]
    simp [unmarshalHeader, Value.elemKind]

/-- C14 amended, at the header `ImaHeader` with the empty value: a field that
holds `old` becomes the empty string, a nil field stays nil. -/
theorem empty_string_header_witness :
    unmarshalLocationElements.field noLib (headerResponse (Header.Set [] (str "ImaHeader") []))
        none { imaHeaderField with Value := .ptrString (some (str "old")) }
      = .done (.ptrString (some []), none) ∧
    unmarshalLocationElements.field noLib (headerResponse (Header.Set [] (str "ImaHeader") []))
        none imaHeaderField = .done (.ptrString none, none) :=
  ⟨(empty_string_header noLib (headerResponse (Header.Set [] (str "ImaHeader") [])) none
      { imaHeaderField with Value := .ptrString (some (str "old")) } (by decide) (by decide)).1
      (str "old") rfl,
    (empty_string_header noLib (headerResponse (Header.Set [] (str "ImaHeader") [])) none
      imaHeaderField (by decide) (by decide)).2 rfl⟩


/-! ## Integer headers -/

theorem parseDigits_eq : ∀ (ds : GoString) (a : Nat),
    parseDigits ds a =
      if ds.all (fun c => decide (48 ≤ c ∧ c ≤ 57)) then
        some (ds.foldl (fun n d => n * 10 + (d - 48)) a)
      else none
  | [], a => by simp [parseDigits]
  | c :: cs, a => by
    unfold parseDigits
    by_cases hc : 48 ≤ c ∧ c ≤ 57
    · rw [if_pos hc, parseDigits_eq cs]
      simp [hc]
    · rw [if_neg hc]
      simp [hc]

theorem isDigits_cons (c : Nat) (cs : GoString) :
    isDigits (c :: cs) = (c :: cs).all (fun c => decide (48 ≤ c ∧ c ≤ 57)) := by
  simp [isDigits]

theorem digits_foldl_ge : ∀ (ds : GoString) (a : Nat),
    a ≤ ds.foldl (fun n d => n * 10 + (d - 48)) a
  | [], _ => Nat.le_refl _
  | d :: ds, a => by
    have := digits_foldl_ge ds (a * 10 + (d - 48))
    simp only [List.foldl_cons]
    omega

theorem parseUint_loop_digits : ∀ (ds : GoString) (n : Nat), n < 2 ^ 64 →
    ds.all (fun c => decide (48 ≤ c ∧ c ≤ 57)) = true →
    ParseUint.loop ds n =
      if ds.foldl (fun n d => n * 10 + (d - 48)) n < 2 ^ 64 then
        (ds.foldl (fun n d => n * 10 + (d - 48)) n, none)
      else (2 ^ 64 - 1, some true)
  | [], n, hn, _ => by
    simp only [ParseUint.loop, List.foldl_nil]
    rw [if_pos hn]
  | c :: cs, n, _, h => by
    simp only [List.all_cons, Bool.and_eq_true, decide_eq_true_eq] at h
    have hge := digits_foldl_ge cs (n * 10 + (c - 48))
    unfold ParseUint.loop
    rw [if_neg (by simp [h.1])]
    simp only [List.foldl_cons]
    by_cases h1 : n ≥ (2 ^ 64 - 1) / 10 + 1
    · rw [if_pos h1, if_neg (by omega)]
    · rw [if_neg h1]
      by_cases h2 : n * 10 + (c - 48) ≥ 2 ^ 64
      · rw [if_pos h2, if_neg (by omega)]
      · rw [if_neg h2, parseUint_loop_digits cs _ (by omega) h.2]

theorem parseUint_loop_other : ∀ (ds : GoString) (n : Nat),
    ds.all (fun c => decide (48 ≤ c ∧ c ≤ 57)) = false →
    ∃ (un : Nat) (rng : Bool), ParseUint.loop ds n = (un, some rng) ∧ (rng = true → un = 2 ^ 64 - 1)
  | [], _, h => by simp at h
  | c :: cs, n, h => by
    unfold ParseUint.loop
    by_cases hc : 48 ≤ c ∧ c ≤ 57
    · rw [if_neg (by simp [hc])]
      by_cases h1 : n ≥ (2 ^ 64 - 1) / 10 + 1
      · rw [if_pos h1]
        exact ⟨_, true, rfl, fun _ => rfl⟩
      · rw [if_neg h1]
        by_cases h2 : n * 10 + (c - 48) ≥ 2 ^ 64
        · rw [if_pos h2]
          exact ⟨_, true, rfl, fun _ => rfl⟩
        · rw [if_neg h2]
          apply parseUint_loop_other cs
          simpa [hc] using h
    · rw [if_pos hc]
      exact ⟨_, false, rfl, fun h => by cases h⟩

theorem parseUint_digits (ds : GoString) (h : isDigits ds = true) :
    ParseUint ds =
      if digitsValue ds < 2 ^ 64 then (digitsValue ds, none) else (2 ^ 64 - 1, some true) := by
  cases ds with
  | nil => simp [isDigits] at h
  | cons c cs =>
    rw [isDigits_cons] at h
    unfold ParseUint
    rw [if_neg (by simp), parseUint_loop_digits (c :: cs) 0 (by decide) h]
    rfl

theorem parseUint_other (ds : GoString) (h : isDigits ds = false) :
    ∃ (un : Nat) (rng : Bool), ParseUint ds = (un, some rng) ∧ (rng = true → un = 2 ^ 64 - 1) := by
  cases ds with
  | nil => exact ⟨_, false, rfl, fun h => by cases h⟩
  | cons c cs =>
    rw [isDigits_cons] at h
    unfold ParseUint
    rw [if_neg (by simp)]
    exact parseUint_loop_other (c :: cs) 0 h

theorem parseInt_of_digits (s digits : GoString) (c : Nat) (cs : GoString) (hs : s = c :: cs)
    (hd : digits = if c = 43 ∨ c = 45 then cs else s) :
    (isDigits digits = true →
      ParseInt s =
        if c = 45 then
          (if digitsValue digits > 2 ^ 63 then .error (.numError "ParseInt" s true)
            else .ok (-(digitsValue digits : Int)))
        else
          (if digitsValue digits ≥ 2 ^ 63 then .error (.numError "ParseInt" s true)
            else .ok (digitsValue digits : Int))) ∧
    (isDigits digits = false → ∃ rng : Bool, ParseInt s = .error (.numError "ParseInt" s rng)) := by
  subst hs
  constructor
  · intro h
    simp only [ParseInt, ← hd, parseUint_digits digits h]
    by_cases hv : digitsValue digits < 2 ^ 64
    · rw [if_pos hv]
      by_cases h45 : c = 45
      · simp [h45]
      · simp [h45]
    · rw [if_neg hv]
      by_cases h45 : c = 45
      · simp only [h45, decide_True, Bool.not_true, Bool.false_and, Bool.true_and, if_true]
        rw [if_neg (by simp), if_pos (by simp), if_pos (by omega)]
      · simp only [h45, decide_False, Bool.not_false, Bool.true_and, if_false]
        rw [if_pos (by simp), if_pos (by omega)]
  · intro h
    obtain ⟨un, rng, hu, hr⟩ := parseUint_other digits h
    simp only [ParseInt, ← hd, hu]
    cases rng with
    | false => exact ⟨false, rfl⟩
    | true =>
      have hun := hr rfl
      subst hun
      refine ⟨true, ?_⟩
      by_cases h45 : c = 45
      · simp [h45]
      · simp [h45]

theorem parseInt_spec (s : GoString) :
    (∀ n : Int, signedDecimal s = some n →
      ParseInt s =
        if -2 ^ 63 ≤ n ∧ n ≤ 2 ^ 63 - 1 then .ok n else .error (.numError "ParseInt" s true)) ∧
    (signedDecimal s = none → ∃ rng : Bool, ParseInt s = .error (.numError "ParseInt" s rng)) := by
  cases s with
  | nil => exact ⟨fun n h => by simp [signedDecimal] at h, fun _ => ⟨false, rfl⟩⟩
  | cons c cs =>
    obtain ⟨hyes, hno⟩ := parseInt_of_digits (c :: cs) _ c cs rfl rfl
    by_cases h45 : c = 45
    · subst h45
      simp only [or_true, if_true] at hyes hno
      simp only [signedDecimal, if_true]
      cases hd : isDigits cs with
      | false => exact ⟨fun n h => by simp at h, fun _ => hno hd⟩
      | true =>
        refine ⟨fun n h => ?_, fun h => by simp at h⟩
        simp only [if_true, Option.some.injEq] at h
        subst h
        rw [hyes hd]
        by_cases hr : digitsValue cs > 2 ^ 63
        · rw [if_pos hr, if_neg (by omega)]
        · rw [if_neg hr, if_pos (by omega)]
    · by_cases h43 : c = 43
      · subst h43
        simp only [true_or, if_true] at hyes hno
        simp only [signedDecimal, if_neg h45, if_true]
        cases hd : isDigits cs with
        | false => exact ⟨fun n h => by simp at h, fun _ => hno hd⟩
        | true =>
          refine ⟨fun n h => ?_, fun h => by simp at h⟩
          simp only [if_true, Option.some.injEq] at h
          subst h
          rw [hyes hd, if_neg h45]
          by_cases hr : digitsValue cs ≥ 2 ^ 63
          · rw [if_pos hr, if_neg (by omega)]
          · rw [if_neg hr, if_pos (by omega)]
      · have hsign : ¬ (c = 43 ∨ c = 45) := by omega
        simp only [if_neg hsign] at hyes hno
        simp only [signedDecimal, if_neg h45, if_neg h43]
        cases hd : isDigits (c :: cs) with
        | false => exact ⟨fun n h => by simp at h, fun _ => hno hd⟩
        | true =>
          refine ⟨fun n h => ?_, fun h => by simp at h⟩
          simp only [if_true, Option.some.injEq] at h
          subst h
          rw [hyes hd, if_neg h45]
          by_cases hr : digitsValue (c :: cs) ≥ 2 ^ 63
          · rw [if_pos hr, if_neg (by omega)]
          · rw [if_neg hr, if_pos (by omega)]

theorem parseDigits_formatDigits : ∀ (fuel n : Nat) (acc : GoString), n < fuel →
    parseDigits (formatDigits fuel n acc) 0 = parseDigits acc n
  | 0, _, _, h => by omega
  | fuel + 1, n, acc, h => by
    unfold formatDigits
    by_cases h10 : n < 10
    · rw [if_pos h10, parseDigits, if_pos (by omega)]
      have e : 0 * 10 + (n + 48 - 48) = n := by omega
      rw [e]
    · rw [if_neg h10, parseDigits_formatDigits fuel (n / 10) _ (by omega)]
      rw [parseDigits, if_pos (by omega)]
      have e : n / 10 * 10 + (n % 10 + 48 - 48) = n := by omega
      rw [e]

theorem formatDigits_ne_nil : ∀ (fuel n : Nat) (acc : GoString), (0 < fuel ∨ acc ≠ []) →
    formatDigits fuel n acc ≠ []
  | 0, _, acc, h => by
    unfold formatDigits
    rcases h with h | h
    · omega
    · exact h
  | fuel + 1, n, acc, _ => by
    unfold formatDigits
    split
    · simp
    · exact formatDigits_ne_nil fuel _ _ (Or.inr (by simp))

theorem formatDigits_isDigits (n : Nat) :
    isDigits (formatDigits (n + 1) n []) = true ∧ digitsValue (formatDigits (n + 1) n []) = n := by
  have hp := parseDigits_formatDigits (n + 1) n [] (by omega)
  have hne := formatDigits_ne_nil (n + 1) n [] (Or.inl (by omega))
  rw [parseDigits_eq] at hp
  simp only [parseDigits] at hp
  cases hl : formatDigits (n + 1) n [] with
  | nil => exact absurd hl hne
  | cons c cs =>
    rw [hl] at hp
    rw [isDigits_cons]
    split at hp
    · rename_i hall
      simp only [Option.some.injEq] at hp
      exact ⟨hall, hp⟩
    · exact absurd hp (by simp)

theorem signedDecimal_formatInt (n : Int) : signedDecimal (FormatInt n) = some n := by
  obtain ⟨hd, hv⟩ := formatDigits_isDigits n.natAbs
  unfold FormatInt
  by_cases hn : n < 0
  · rw [if_pos hn]
    simp only [signedDecimal, if_true, hd, hv, Option.some.injEq]
    omega
  · rw [if_neg hn]
    cases hl : formatDigits (n.natAbs + 1) n.natAbs [] with
    | nil => rw [hl] at hd; simp [isDigits] at hd
    | cons c cs =>
      rw [hl] at hd hv
      have hc : 48 ≤ c ∧ c ≤ 57 := by
        rw [isDigits_cons] at hd
        simp only [List.all_cons, Bool.and_eq_true, decide_eq_true_eq] at hd
        exact hd.1
      simp only [signedDecimal, if_neg (show c ≠ 45 by omega), if_neg (show c ≠ 43 by omega), hd,
        if_true, hv, Option.some.injEq]
      omega

theorem formatInt_ne_nil (n : Int) : FormatInt n ≠ [] := by
  intro h
  have := signedDecimal_formatInt n
  rw [h] at this
  simp [signedDecimal] at this

/-- C12. Integer header coercion is a signed base-10 parse into 64 bits. For
an integer header field and a non-empty header value `s`: when `s` is an
optional sign followed by decimal digits that denote `n` with
`-2^63 ≤ n ≤ 2^63 - 1`, the field is set to `n` and no error is reported; when
the number is outside that range the field keeps its value and the request
carries the decode error of the range error of `ParseInt`; when `s` is no such
text the field keeps its value and the request carries the decode error of an
error of `ParseInt` (the syntax error, or the range error when the digits
before the first other byte already pass the range). The decimal rendering of
every 64-bit integer `n` is such a text for `n`, and binds back to `n`. -/
theorem int_header_is_signed_decimal_parse (lib : StdLib) (resp : Response)
    (err : Option APIError) (f : Field) (prev : Option Int)
    (hloc : f.Tag.Get (str "location") = str "header")
    (hval : f.Value = .ptrInt64 prev)
    (hne : resp.Header.Get f.wireName ≠ []) :
    (∀ n : Int, signedDecimal (resp.Header.Get f.wireName) = some n →
      -2 ^ 63 ≤ n → n ≤ 2 ^ 63 - 1 →
      unmarshalLocationElements.field lib resp err f = .done (.ptrInt64 (some n), err)) ∧
    (∀ n : Int, signedDecimal (resp.Header.Get f.wireName) = some n →
      (n < -2 ^ 63 ∨ 2 ^ 63 - 1 < n) →
      unmarshalLocationElements.field lib resp err f
        = .done (.ptrInt64 prev,
            some (decodeError (.numError "ParseInt" (resp.Header.Get f.wireName) true)))) ∧
    (signedDecimal (resp.Header.Get f.wireName) = none →
      ∃ range : Bool,
        unmarshalLocationElements.field lib resp err f
          = .done (.ptrInt64 prev,
              some (decodeError (.numError "ParseInt" (resp.Header.Get f.wireName) range)))) ∧
    (∀ n : Int, -2 ^ 63 ≤ n → n ≤ 2 ^ 63 - 1 →
      FormatInt n ≠ [] ∧ signedDecimal (FormatInt n) = some n ∧
      unmarshalHeader lib (.ptrInt64 prev) (FormatInt n) = .done (.ptrInt64 (some n), none)) := by
  rw [field_header_coerce lib resp err f hloc hne, hval]
  simp only [unmarshalHeader.coerce]
  obtain ⟨hyes, hno⟩ := parseInt_spec (resp.Header.Get f.wireName)
  refine ⟨?_, ?_, ?_, ?_⟩
  · intro n hs h1 h2
    rw [hyes n hs]
    simp only [if_pos (And.intro h1 h2)]
  · intro n hs hr
    rw [hyes n hs]
    simp only [if_neg (show ¬ (-2 ^ 63 ≤ n ∧ n ≤ 2 ^ 63 - 1) by omega)]
  · intro hs
    obtain ⟨range, h⟩ := hno hs
    exact ⟨range, by rw [h]⟩
  · intro n h1 h2
    refine ⟨formatInt_ne_nil n, signedDecimal_formatInt n, ?_⟩
    simp only [unmarshalHeader, formatInt_ne_nil n, if_false, unmarshalHeader.coerce,
      (parseInt_spec (FormatInt n)).1 n (signedDecimal_formatInt n), if_pos (And.intro h1 h2)]

/-- C12, at the header values `-42`, `9223372036854775808`, `abc` and
`99999999999999999999x` for an integer field that holds 7, and at the rendering
of the least 64-bit integer. -/
theorem int_header_is_signed_decimal_parse_witness :
    unmarshalLocationElements.field noLib (headerResponse [(str "Num", [str "-42"])]) none
        (headerField (str "Num") [] (.ptrInt64 (some 7))) = .done (.ptrInt64 (some (-42)), none) ∧
    unmarshalLocationElements.field noLib
        (headerResponse [(str "Num", [str "9223372036854775808"])]) none
        (headerField (str "Num") [] (.ptrInt64 (some 7)))
      = .done (.ptrInt64 (some 7),
          some (decodeError (.numError "ParseInt" (str "9223372036854775808") true))) ∧
    (∃ range : Bool,
      unmarshalLocationElements.field noLib (headerResponse [(str "Num", [str "abc"])]) none
          (headerField (str "Num") [] (.ptrInt64 (some 7)))
        = .done (.ptrInt64 (some 7),
            some (decodeError (.numError "ParseInt" (str "abc") range)))) ∧
    unmarshalLocationElements.field noLib (headerResponse [(str "Num", [str "abc"])]) none
        (headerField (str "Num") [] (.ptrInt64 (some 7)))
      = .done (.ptrInt64 (some 7), some (decodeError (.numError "ParseInt" (str "abc") false))) ∧
    unmarshalLocationElements.field noLib
        (headerResponse [(str "Num", [str "99999999999999999999x"])]) none
        (headerField (str "Num") [] (.ptrInt64 (some 7)))
      = .done (.ptrInt64 (some 7),
          some (decodeError (.numError "ParseInt" (str "99999999999999999999x") true))) ∧
    FormatInt (-9223372036854775808) = str "-9223372036854775808" ∧
    unmarshalHeader noLib (.ptrInt64 (some 7)) (FormatInt (-9223372036854775808))
      = .done (.ptrInt64 (some (-9223372036854775808)), none) :=
  ⟨(int_header_is_signed_decimal_parse noLib (headerResponse [(str "Num", [str "-42"])]) none
      (headerField (str "Num") [] (.ptrInt64 (some 7))) (some 7) (by decide) rfl (by decide)).1
      (-42) (by decide) (by decide) (by decide),
    (int_header_is_signed_decimal_parse noLib
      (headerResponse [(str "Num", [str "9223372036854775808"])]) none
      (headerField (str "Num") [] (.ptrInt64 (some 7))) (some 7) (by decide) rfl (by decide)).2.1
      9223372036854775808 (by decide) (Or.inr (by decide)),
    (int_header_is_signed_decimal_parse noLib (headerResponse [(str "Num", [str "abc"])]) none
      (headerField (str "Num") [] (.ptrInt64 (some 7))) (some 7) (by decide) rfl (by decide)).2.2.1
      (by decide),
    by decide,
    by decide,
    by decide,
    ((int_header_is_signed_decimal_parse noLib (headerResponse [(str "Num", [str "abc"])]) none
      (headerField (str "Num") [] (.ptrInt64 (some 7))) (some 7) (by decide) rfl (by decide)).2.2.2
      (-9223372036854775808) (by decide) (by decide)).2.2⟩


/-- C15 as stated fails: a timestamp header field that declares the format
`unix` rejects the epoch text `1398796238` with the parse error of the layout
`RFC822`, and accepts the date `Tue, 29 Apr 2014 18:30:38 GMT` of that layout;
a field that declares `rfc822` is bound alike on both texts. -/
theorem timestamp_format_tag_is_not_read :
    (stampField (str "unix")).Tag.Get (str "timestampFormat") = str "unix" ∧
    (stampField (str "rfc822")).Tag.Get (str "timestampFormat") = str "rfc822" ∧
    unmarshalLocationElements.field dateLib (headerResponse [(str "Stamp", [str "1398796238"])])
        none (stampField (str "unix"))
      = .done (.ptrTime none, some (decodeError (.timeParse RFC822 (str "1398796238")))) ∧
    unmarshalLocationElements.field dateLib
        (headerResponse [(str "Stamp", [str "Tue, 29 Apr 2014 18:30:38 GMT"])])
        none (stampField (str "unix"))
      = .done (.ptrTime (some 1398796238000000000), none) ∧
    unmarshalLocationElements.field dateLib (headerResponse [(str "Stamp", [str "1398796238"])])
        none (stampField (str "rfc822"))
      = unmarshalLocationElements.field dateLib
          (headerResponse [(str "Stamp", [str "1398796238"])]) none (stampField (str "unix")) ∧
    unmarshalLocationElements.field dateLib
        (headerResponse [(str "Stamp", [str "Tue, 29 Apr 2014 18:30:38 GMT"])])
        none (stampField (str "rfc822"))
      = unmarshalLocationElements.field dateLib
          (headerResponse [(str "Stamp", [str "Tue, 29 Apr 2014 18:30:38 GMT"])]) none
          (stampField (str "unix")) := by
  decide

/-- C15, amended. A timestamp header field is parsed with the fixed layout
`RFC822` of the package: for a non-empty header value the field receives what
`time.Parse(RFC822, value)` gives, or keeps its value and the request carries
the decode error. No other tag of the field is read: every header field of
the same header name and value, whatever format it declares, is bound
alike. -/
theorem timestamp_header_uses_fixed_layout (lib : StdLib) (resp : Response)
    (err : Option APIError) (f : Field) (prev : Option Time)
    (hloc : f.Tag.Get (str "location") = str "header")
    (hval : f.Value = .ptrTime prev)
    (hne : resp.Header.Get f.wireName ≠ []) :
    (∀ t : Time, lib.TimeParse RFC822 (resp.Header.Get f.wireName) = .ok t →
      unmarshalLocationElements.field lib resp err f = .done (.ptrTime (some t), err)) ∧
    (∀ e : GoError, lib.TimeParse RFC822 (resp.Header.Get f.wireName) = .error e →
      unmarshalLocationElements.field lib resp err f
        = .done (.ptrTime prev, some (decodeError e))) ∧
    (∀ g : Field, g.Tag.Get (str "location") = str "header" → g.wireName = f.wireName →
      g.Value = f.Value →
      unmarshalLocationElements.field lib resp err g
        = unmarshalLocationElements.field lib resp err f) := by
  refine ⟨?_, ?_, ?_⟩
  · intro t ht
    rw [field_header_coerce lib resp err f hloc hne, hval]
    simp only [unmarshalHeader.coerce, ht]
  · intro e he
    rw [field_header_coerce lib resp err f hloc hne, hval]
    simp only [unmarshalHeader.coerce, he]
  · intro g hg hw hv
    rw [field_header_eq lib resp err g hg, field_header_eq lib resp err f hloc, hw, hv]

/-- C15 amended, at the field that declares `unix`: the date of the layout
`RFC822` is accepted, and the field that declares `iso8601` is bound as the
one that declares `unix`. -/
theorem timestamp_header_uses_fixed_layout_witness :
    unmarshalLocationElements.field dateLib
        (headerResponse [(str "Stamp", [str "Tue, 29 Apr 2014 18:30:38 GMT"])])
        none (stampField (str "unix"))
      = .done (.ptrTime (some 1398796238000000000), none) ∧
    unmarshalLocationElements.field dateLib
        (headerResponse [(str "Stamp", [str "Tue, 29 Apr 2014 18:30:38 GMT"])])
        none (stampField (str "iso8601"))
      = unmarshalLocationElements.field dateLib
          (headerResponse [(str "Stamp", [str "Tue, 29 Apr 2014 18:30:38 GMT"])]) none
          (stampField (str "unix")) :=
  have h := timestamp_header_uses_fixed_layout dateLib
    (headerResponse [(str "Stamp", [str "Tue, 29 Apr 2014 18:30:38 GMT"])]) none
    (stampField (str "unix")) none (by decide) rfl (by decide)
  ⟨h.1 1398796238000000000 rfl, h.2.2 (stampField (str "iso8601")) (by decide) (by decide) rfl⟩

/-- C16 as stated fails: the text `abc` bound to the integer header fields
`First` and `Second` gives one and the same decode error, made of the code
`Unmarshal`, the fixed message and the error of `ParseInt` on `abc`; nothing
in it names the field. -/
theorem decode_error_does_not_name_field :
    (headerField (str "First") [] (.ptrInt64 none)).Name
      ≠ (headerField (str "Second") [] (.ptrInt64 none)).Name ∧
    unmarshalLocationElements.field noLib
        (headerResponse [(str "First", [str "abc"]), (str "Second", [str "abc"])]) none
        (headerField (str "First") [] (.ptrInt64 none))
      = .done (.ptrInt64 none,
          some { Code := str "Unmarshal", Message := str "failed to decode REST response"
                 OrigErr := .numError "ParseInt" (str "abc") false }) ∧
    unmarshalLocationElements.field noLib
        (headerResponse [(str "First", [str "abc"]), (str "Second", [str "abc"])]) none
        (headerField (str "Second") [] (.ptrInt64 none))
      = .done (.ptrInt64 none,
          some { Code := str "Unmarshal", Message := str "failed to decode REST response"
                 OrigErr := .numError "ParseInt" (str "abc") false }) := by
  decide

/-- C16, amended. When the coercion of a header value fails with `e`, the
field keeps its value and the request carries the error with code `Unmarshal`,
the message `failed to decode REST response` and the cause `e`, which the
coercer made from the type of the field and the text alone: two header fields
of the same type and value that are bound to the same text, whatever their
names, report the same error. -/
theorem decode_error_is_code_message_cause (lib : StdLib) (resp : Response)
    (err : Option APIError) (f1 f2 : Field) (m : Value) (e : GoError)
    (hloc1 : f1.Tag.Get (str "location") = str "header")
    (hloc2 : f2.Tag.Get (str "location") = str "header")
    (hval : f1.Value = f2.Value)
    (htext : resp.Header.Get f1.wireName = resp.Header.Get f2.wireName)
    (_hcause : ∀ ty : GoString, e ≠ .unsupportedValue ty)
    (hfail : unmarshalHeader lib f1.Value (resp.Header.Get f1.wireName) = .done (m, some e)) :
    unmarshalLocationElements.field lib resp err f1
      = .done (f1.Value, some { Code := str "Unmarshal"
                                Message := str "failed to decode REST response", OrigErr := e }) ∧
    unmarshalLocationElements.field lib resp err f2
      = unmarshalLocationElements.field lib resp err f1 := by
  have hm := unmarshalHeader_error_unchanged lib _ _ _ _ hfail
  subst hm
  constructor
  · rw [field_header_eq lib resp err f1 hloc1, hfail]
    rfl
  · rw [field_header_eq lib resp err f1 hloc1, field_header_eq lib resp err f2 hloc2, ← hval,
      ← htext]

/-- C16 amended, at the text `abc` for the integer fields `First` and
`Second`. -/
theorem decode_error_is_code_message_cause_witness :
    unmarshalLocationElements.field noLib
        (headerResponse [(str "First", [str "abc"]), (str "Second", [str "abc"])]) none
        (headerField (str "Second") [] (.ptrInt64 none))
      = unmarshalLocationElements.field noLib
          (headerResponse [(str "First", [str "abc"]), (str "Second", [str "abc"])]) none
          (headerField (str "First") [] (.ptrInt64 none)) :=
  (decode_error_is_code_message_cause noLib
    (headerResponse [(str "First", [str "abc"]), (str "Second", [str "abc"])]) none
    (headerField (str "First") [] (.ptrInt64 none))
    (headerField (str "Second") [] (.ptrInt64 none))
    (.ptrInt64 none) (.numError "ParseInt" (str "abc") false)
    (by decide) (by decide) rfl (by decide) (by intro ty h; cases h) (by decide)).2

/-- C17 as stated fails: a string field bound to the status code is left nil
and no error is put on the request, in the field alone and in the whole
bind. -/
theorem statusCode_of_string_field_is_skipped :
    unmarshalLocationElements.field noLib emptyResponse none stringStatusField
      = .done (.ptrString none, none) ∧
    Unmarshal noLib (mkRequest emptyResponse { fields := [stringStatusField], promoted := [] })
      = .done (mkRequest emptyResponse { fields := [stringStatusField], promoted := [] }) := by
  decide

/-- C17, amended. A status code field whose type is not `*int64` is skipped:
it keeps its value and the error of the request is unchanged. -/
theorem statusCode_of_other_type_is_skipped (lib : StdLib) (resp : Response)
    (err : Option APIError) (f : Field)
    (hloc : f.Tag.Get (str "location") = str "statusCode")
    (hty : ∀ p : Option Int, f.Value ≠ .ptrInt64 p) :
    unmarshalLocationElements.field lib resp err f = .done (f.Value, err) := by
  simp only [unmarshalLocationElements.field, hloc, if_true]
  cases hv : f.Value with
  | ptrInt64 p => exact absurd hv (hty p)
  | _ => rfl

/-- C17 amended, at the string field `Status` and the status code 200. -/
theorem statusCode_of_other_type_is_skipped_witness :
    unmarshalLocationElements.field noLib emptyResponse none stringStatusField
      = .done (.ptrString none, none) :=
  statusCode_of_other_type_is_skipped noLib emptyResponse none stringStatusField (by decide)
    (by intro p h; cases h)


/-! ## Failures of the payload step -/

theorem field_error_some (lib : StdLib) (resp : Response) (err : Option APIError) (f : Field)
    (h : err.isSome = true) :
    (unmarshalLocationElements.field lib resp err f).state.2.isSome = true := by
  unfold unmarshalLocationElements.field
  simp only
  split
  · exact h
  · split
    · split
      · exact h
      · rfl
      · exact h
    · split
      · split
        · exact h
        · exact h
      · exact h

theorem location_loop_error_some (lib : StdLib) (v : Shape) : ∀ (todo seen : List Field)
    (r : Request), r.Error.isSome = true →
    (unmarshalLocationElements.loop lib r v seen todo).state.1.Error.isSome = true
  | [], _, _, h => h
  | f :: rest, seen, r, h => by
    have hf := field_error_some lib r.HTTPResponse r.Error f h
    unfold unmarshalLocationElements.loop
    cases hn : f.Name with
    | nil => exact h
    | cons c cs =>
      simp only
      split
      · exact location_loop_error_some lib v rest _ r h
      · cases hfield : unmarshalLocationElements.field lib r.HTTPResponse r.Error f with
        | panic msg s =>
          obtain ⟨m, e⟩ := s
          rw [hfield] at hf
          exact hf
        | done s =>
          obtain ⟨m, e⟩ := s
          rw [hfield] at hf
          simp only [Outcome.state] at hf
          simp only [hf, if_true]
          exact hf

theorem unmarshal_after_body (lib : StdLib) (r r1 : Request) (v v1 : Shape)
    (hdata : r.Data = some v) (hbody : unmarshalBody r v = .done (r1, v1)) :
    (Unmarshal lib r).state.HTTPResponse = r1.HTTPResponse ∧
    (Unmarshal lib r).state.Error = (unmarshalLocationElements lib r1 v1).state.1.Error := by
  have hresp := location_loop_response lib v1 v1.fields [] r1
  unfold Unmarshal
  rw [hdata]
  simp only [hbody]
  unfold unmarshalLocationElements
  cases hl : unmarshalLocationElements.loop lib r1 v1 [] v1.fields with
  | panic msg s =>
    obtain ⟨r2, v2⟩ := s
    rw [hl] at hresp
    exact ⟨hresp, rfl⟩
  | done s =>
    obtain ⟨r2, v2⟩ := s
    rw [hl] at hresp
    exact ⟨hresp, rfl⟩

/-- C18. A payload field with a type tag other than empty and `structure`
whose Go type is neither `[]byte`, nor `*string`, nor one of the three stream
types: `unmarshalBody` returns with the decode error `unknown payload type` on
the request, the response (its body included) and the structure as they were.
After the whole `Unmarshal` the body is still unread and the request carries
an error. -/
theorem unknown_payload_type_is_error (lib : StdLib) (r : Request) (v : Shape)
    (traits payload : Field)
    (hdata : r.Data = some v)
    (htraits : v.FieldByName (str "SDKShapeTraits") = some traits)
    (hname : traits.Tag.Get (str "payload") ≠ [])
    (hpay : v.FieldByName (traits.Tag.Get (str "payload")) = some payload)
    (hty1 : payload.Tag.Get (str "type") ≠ [])
    (hty2 : payload.Tag.Get (str "type") ≠ str "structure")
    (hexp : isExported payload.Name = true)
    (hblob : ∀ old : Option GoString, payload.Value ≠ .bytes old)
    (hstring : ∀ old : Option GoString, payload.Value ≠ .ptrString old)
    (hstream : payload.Value.typeString ≠ str "io.ReadSeeker" ∧
      payload.Value.typeString ≠ str "aws.ReadSeekCloser" ∧
      payload.Value.typeString ≠ str "io.ReadCloser") :
    unmarshalBody r v
      = .done ({ r with
          Error := some (decodeError (.unknownPayloadType payload.Value.typeString)) }, v) ∧
    (Unmarshal lib r).state.HTTPResponse.Body = r.HTTPResponse.Body ∧
    (Unmarshal lib r).state.Error.isSome = true := by
  have hb : unmarshalBody r v
      = .done ({ r with
          Error := some (decodeError (.unknownPayloadType payload.Value.typeString)) }, v) := by
    rw [unmarshalBody_eq_payload r v traits payload htraits hname hpay hty1 hty2]
    unfold unmarshalBody.payload
    simp only [hexp, Bool.not_true, Bool.false_eq_true, if_false]
    cases hv : payload.Value with
    | bytes old => exact absurd hv (hblob old)
    | ptrString old => exact absurd hv (hstring old)
    | stream ty s =>
      rw [hv] at hstream
      simp only [Value.typeString] at hstream
      simp [Value.typeString, hstream.1, hstream.2.1, hstream.2.2]
    | ptrBool p => simp [Value.typeString]; decide
    | ptrInt64 p => simp [Value.typeString]; decide
    | ptrFloat64 p => simp [Value.typeString]; decide
    | ptrTime p => simp [Value.typeString]; decide
    | stringMap p => simp [Value.typeString]; decide
    | other ty elem =>
      rw [hv] at hstream
      simp only [Value.typeString] at hstream
      simp [Value.typeString, hstream.1, hstream.2.1, hstream.2.2]
  have h := unmarshal_after_body lib r _ v v hdata hb
  refine ⟨hb, ?_, ?_⟩
  · rw [h.1]
  · rw [h.2]
    exact location_loop_error_some lib v v.fields [] _ rfl

/-- C18, at a payload member of type `*int64` tagged `type:"integer"`: the
bind reports `unknown payload type *int64`, the body `abc` is unread and the
member is still nil. -/
theorem unknown_payload_type_is_error_witness :
    Unmarshal noLib (mkRequest (bodyResponse (str "abc"))
        (payloadShape (str "Count") (str "integer") (.ptrInt64 none)))
      = .done { mkRequest (bodyResponse (str "abc"))
          (payloadShape (str "Count") (str "integer") (.ptrInt64 none)) with
          Error := some (decodeError (.unknownPayloadType (str "*int64"))) } ∧
    unmarshalBody (mkRequest (bodyResponse (str "abc"))
        (payloadShape (str "Count") (str "integer") (.ptrInt64 none)))
        (payloadShape (str "Count") (str "integer") (.ptrInt64 none))
      = .done ({ mkRequest (bodyResponse (str "abc"))
          (payloadShape (str "Count") (str "integer") (.ptrInt64 none)) with
          Error := some (decodeError (.unknownPayloadType (str "*int64"))) },
        payloadShape (str "Count") (str "integer") (.ptrInt64 none)) :=
  ⟨by decide,
    (unknown_payload_type_is_error noLib
      (mkRequest (bodyResponse (str "abc"))
        (payloadShape (str "Count") (str "integer") (.ptrInt64 none)))
      (payloadShape (str "Count") (str "integer") (.ptrInt64 none))
      { Name := str "SDKShapeTraits"
        Tag := [(str "type", str "structure"), (str "payload", str "Count")]
        Value := .other (str "bool") none }
      { Name := str "Count", Tag := [(str "type", str "integer")], Value := .ptrInt64 none }
      rfl (by decide) (by decide) (by decide) (by decide) (by decide) (by decide)
      (by intro o h; cases h) (by intro o h; cases h) (by decide)).1⟩


theorem location_run_first_exported (lib : StdLib) (r : Request) (v : Shape)
    (pre post : List Field) (f : Field) (e0 : APIError)
    (hfields : v.fields = pre ++ f :: post)
    (hpre : ∀ g ∈ pre, g.Name ≠ [] ∧ isExported g.Name = false)
    (hexp : isExported f.Name = true)
    (herr : r.Error = some e0) :
    (unmarshalLocationElements lib r v).state.1.Error
      = (unmarshalLocationElements.field lib r.HTTPResponse (some e0) f).state.2 := by
  have hp : ∀ g ∈ pre, g.Name ≠ [] ∧ (isExported g.Name = true →
      r.Error = none ∧ bindsCleanly lib r.HTTPResponse g = true) := by
    intro g hg
    refine ⟨(hpre g hg).1, fun hx => ?_⟩
    rw [(hpre g hg).2] at hx
    exact absurd hx (by simp)
  have hsome := field_error_some lib r.HTTPResponse (some e0) f rfl
  unfold unmarshalLocationElements
  rw [hfields, location_loop_prefix lib r v (f :: post) pre [] hp,
    location_loop_bind lib r v _ post f hexp, herr]
  cases hfield : unmarshalLocationElements.field lib r.HTTPResponse (some e0) f with
  | panic msg s =>
    obtain ⟨m, e⟩ := s
    rfl
  | done s =>
    obtain ⟨m, e⟩ := s
    rw [hfield] at hsome
    simp only [Outcome.state] at hsome
    simp only [hsome, if_true, Outcome.state]

/-- C19. The error of a failed payload step does not always reach the caller.
With the header member `Num` (value `abc`) declared first and a `[]byte`
payload whose body read fails, `unmarshalBody` puts the read failure on the
request, but `Unmarshal` returns with the `ParseInt` error of `Num`: the
location loop tests `r.Error` only after it has bound a field, so the first
exported field is still bound and its failure replaces the error. The same
happens to the error of an unknown payload type. In general, after a failed
payload step the error that `unmarshalLocationElements` leaves is the one that
the switch of the first exported field gives. -/
theorem payload_error_is_replaced_by_first_header_error :
    (unmarshalBody (mkRequest brokenBodyResponse headerThenPayloadShape)
        headerThenPayloadShape).state.1.Error
      = some (decodeError (.readError (str "unexpected EOF"))) ∧
    (Unmarshal noLib (mkRequest brokenBodyResponse headerThenPayloadShape)).returned = true ∧
    (Unmarshal noLib (mkRequest brokenBodyResponse headerThenPayloadShape)).state.Error
      = some (decodeError (.numError "ParseInt" (str "abc") false)) ∧
    (unmarshalBody (mkRequest headerThenPayloadResponse headerThenUnknownPayloadShape)
        headerThenUnknownPayloadShape).state.1.Error
      = some (decodeError (.unknownPayloadType (str "*int64"))) ∧
    (Unmarshal noLib (mkRequest headerThenPayloadResponse headerThenUnknownPayloadShape)).state.Error
      = some (decodeError (.numError "ParseInt" (str "abc") false)) ∧
    (∀ (lib : StdLib) (r : Request) (v : Shape) (pre post : List Field) (f : Field)
        (e0 : APIError),
      v.fields = pre ++ f :: post →
      (∀ g ∈ pre, g.Name ≠ [] ∧ isExported g.Name = false) →
      isExported f.Name = true →
      r.Error = some e0 →
      (unmarshalLocationElements lib r v).state.1.Error
        = (unmarshalLocationElements.field lib r.HTTPResponse (some e0) f).state.2) := by
  refine ⟨by decide, by decide, by decide, by decide, by decide, ?_⟩
  intro lib r v pre post f e0 hfields hpre hexp herr
  exact location_run_first_exported lib r v pre post f e0 hfields hpre hexp herr


/-! ## The order in which the headers are enumerated -/

theorem matchesPrefix_ascii (lib : StdLib) (p : GoString) (hP : isASCII p = true)
    (e : GoString × List GoString) :
    matchesPrefix lib p e = StartsWithFold lib (CanonicalHeaderKey e.1) p :=
  hasPrefix_toLower lib _ p hP

theorem headerMapOf_mem (lib : StdLib) (p : GoString) (hs : Header) (key val : GoString) :
    (key, val) ∈ headerMapOf lib p hs ↔
      ∃ e ∈ hs, matchesPrefix lib p e = true ∧
        key = (CanonicalHeaderKey e.1).drop p.length ∧ val = e.2.headD [] := by
  unfold headerMapOf
  simp only [List.mem_filterMap]
  constructor
  · rintro ⟨e, he, h⟩
    split at h
    · rename_i hm
      simp only [Option.some.injEq, Prod.mk.injEq] at h
      exact ⟨e, he, hm, h.1.symm, h.2.symm⟩
    · exact absurd h (by simp)
  · rintro ⟨e, he, hm, hk, hv⟩
    exact ⟨e, he, by simp [hm, hk, hv]⟩

theorem headerMapOf_nodup (lib : StdLib) (p : GoString) : ∀ (hs : Header),
    noCollision lib p hs → ((headerMapOf lib p hs).map Prod.fst).Nodup
  | [], _ => by simp [headerMapOf]
  | e :: rest, h => by
    unfold noCollision at h
    rw [List.pairwise_cons] at h
    have ih := headerMapOf_nodup lib p rest h.2
    by_cases hm : matchesPrefix lib p e = true
    · have hspec : headerMapOf lib p (e :: rest)
          = ((CanonicalHeaderKey e.1).drop p.length, e.2.headD []) :: headerMapOf lib p rest := by
        simp [headerMapOf, hm]
      rw [hspec, List.map_cons, List.nodup_cons]
      refine ⟨?_, ih⟩
      intro hc
      rw [List.mem_map] at hc
      obtain ⟨⟨k, v⟩, hkv, hk⟩ := hc
      obtain ⟨e2, he2, hm2, hk2, _⟩ := (headerMapOf_mem lib p rest k v).1 hkv
      exact h.1 e2 he2 hm hm2 (by rw [← hk2]; exact hk.symm)
    · have hspec : headerMapOf lib p (e :: rest) = headerMapOf lib p rest := by
        simp [headerMapOf, hm]
      rw [hspec]
      exact ih

theorem headerMap_loop_done (lib : StdLib) (p : GoString) : ∀ (hs : Header) (out : StringMap),
    (∀ e ∈ hs, matchesPrefix lib p e = true →
      p.length ≤ (CanonicalHeaderKey e.1).length ∧ e.2 ≠ []) →
    ((out ++ headerMapOf lib p hs).map Prod.fst).Nodup →
    unmarshalHeaderMap.loop lib p hs out = .done (out ++ headerMapOf lib p hs)
  | [], out, _, _ => by simp [unmarshalHeaderMap.loop, headerMapOf]
  | (k0, v) :: rest, out, hv, hnd => by
    have hrest : ∀ e ∈ rest, matchesPrefix lib p e = true →
        p.length ≤ (CanonicalHeaderKey e.1).length ∧ e.2 ≠ [] :=
      fun e he => hv e (List.mem_cons_of_mem _ he)
    unfold unmarshalHeaderMap.loop
    by_cases hm : matchesPrefix lib p (k0, v) = true
    · obtain ⟨hlen, hval⟩ := hv (k0, v) (List.mem_cons_self _ _) hm
      have hspec : headerMapOf lib p ((k0, v) :: rest)
          = ((CanonicalHeaderKey k0).drop p.length, v.headD []) :: headerMapOf lib p rest := by
        simp [headerMapOf, hm]
      rw [hspec] at hnd
      have hm' : HasPrefix (strings.ToLower lib (CanonicalHeaderKey k0)) (strings.ToLower lib p)
          = true := hm
      simp only at hlen
      rw [hspec]
      simp only [hm', if_true]
      rw [if_neg (by omega)]
      cases v with
      | nil => exact absurd rfl hval
      | cons v0 vs =>
        simp only [List.headD_cons] at hnd ⊢
        have hfresh : (CanonicalHeaderKey k0).drop p.length ∉ out.map Prod.fst := by
          intro hc
          rw [List.map_append, List.nodup_append] at hnd
          exact hnd.2.2 hc (by simp)
        rw [insert_fresh _ _ _ hfresh]
        have := headerMap_loop_done lib p rest (out ++ [((CanonicalHeaderKey k0).drop p.length, v0)])
          hrest (by simpa using hnd)
        simpa using this
    · have hspec : headerMapOf lib p ((k0, v) :: rest) = headerMapOf lib p rest := by
        simp [headerMapOf, hm]
      rw [hspec] at hnd
      have hm' : ¬ HasPrefix (strings.ToLower lib (CanonicalHeaderKey k0)) (strings.ToLower lib p)
          = true := hm
      rw [hspec]
      simp only [hm', if_false]
      exact headerMap_loop_done lib p rest out hrest hnd

theorem headerMap_loop_panic (lib : StdLib) (p : GoString) : ∀ (hs : Header) (out : StringMap),
    (∃ e ∈ hs, matchesPrefix lib p e = true ∧
      ¬ (p.length ≤ (CanonicalHeaderKey e.1).length ∧ e.2 ≠ [])) →
    ∃ (msg : String) (out' : StringMap), unmarshalHeaderMap.loop lib p hs out = .panic msg out'
  | [], _, h => by simp at h
  | (k0, v) :: rest, out, h => by
    unfold unmarshalHeaderMap.loop
    by_cases hm : matchesPrefix lib p (k0, v) = true
    · have hm' : HasPrefix (strings.ToLower lib (CanonicalHeaderKey k0)) (strings.ToLower lib p)
          = true := hm
      simp only [hm', if_true]
      by_cases hlen : (CanonicalHeaderKey k0).length < p.length
      · rw [if_pos hlen]
        exact ⟨_, out, rfl⟩
      · rw [if_neg hlen]
        cases v with
        | nil => exact ⟨_, out, rfl⟩
        | cons v0 vs =>
          simp only
          apply headerMap_loop_panic lib p rest
          obtain ⟨e, he, hme, hbad⟩ := h
          rcases List.mem_cons.1 he with rfl | he
          · exact absurd ⟨by simp only; omega, by simp⟩ hbad
          · exact ⟨e, he, hme, hbad⟩
    · have hm' : ¬ HasPrefix (strings.ToLower lib (CanonicalHeaderKey k0)) (strings.ToLower lib p)
          = true := hm
      simp only [hm', if_false]
      apply headerMap_loop_panic lib p rest
      obtain ⟨e, he, hme, hbad⟩ := h
      rcases List.mem_cons.1 he with rfl | he
      · exact absurd hme hm
      · exact ⟨e, he, hme, hbad⟩

theorem headerMapOf_perm (lib : StdLib) (p : GoString) (hs hs' : Header) (h : hs.Perm hs') :
    (headerMapOf lib p hs).Perm (headerMapOf lib p hs') :=
  List.Perm.filterMap _ h

theorem unmarshalHeaderMap_perm (lib : StdLib) (p : GoString) (hs hs' : Header)
    (old : Option StringMap)
    (hperm : hs.Perm hs') (hnd : ((headerMapOf lib p hs).map Prod.fst).Nodup) :
    (unmarshalHeaderMap lib (.stringMap old) hs p
        = .done (.stringMap (some (headerMapOf lib p hs))) ∧
      unmarshalHeaderMap lib (.stringMap old) hs' p
        = .done (.stringMap (some (headerMapOf lib p hs')))) ∨
    (∃ msg msg' : String,
      unmarshalHeaderMap lib (.stringMap old) hs p = .panic msg (.stringMap old) ∧
      unmarshalHeaderMap lib (.stringMap old) hs' p = .panic msg' (.stringMap old)) := by
  have hnd' : ((headerMapOf lib p hs').map Prod.fst).Nodup :=
    (((headerMapOf_perm lib p hs hs' hperm).map Prod.fst).nodup_iff).1 hnd
  by_cases hex : ∃ e ∈ hs, matchesPrefix lib p e = true ∧
      ¬ (p.length ≤ (CanonicalHeaderKey e.1).length ∧ e.2 ≠ [])
  · right
    have hex' : ∃ e ∈ hs', matchesPrefix lib p e = true ∧
        ¬ (p.length ≤ (CanonicalHeaderKey e.1).length ∧ e.2 ≠ []) := by
      obtain ⟨e, he, h⟩ := hex
      exact ⟨e, hperm.mem_iff.1 he, h⟩
    obtain ⟨m1, o1, h1⟩ := headerMap_loop_panic lib p hs [] hex
    obtain ⟨m2, o2, h2⟩ := headerMap_loop_panic lib p hs' [] hex'
    exact ⟨m1, m2, by simp only [unmarshalHeaderMap, h1], by simp only [unmarshalHeaderMap, h2]⟩
  · left
    have hv : ∀ e ∈ hs, matchesPrefix lib p e = true →
        p.length ≤ (CanonicalHeaderKey e.1).length ∧ e.2 ≠ [] := by
      intro e he hm
      by_contra hc
      exact hex ⟨e, he, hm, hc⟩
    have hv' : ∀ e ∈ hs', matchesPrefix lib p e = true →
        p.length ≤ (CanonicalHeaderKey e.1).length ∧ e.2 ≠ [] :=
      fun e he hm => hv e (hperm.mem_iff.2 he) hm
    have h1 := headerMap_loop_done lib p hs [] hv (by simpa using hnd)
    have h2 := headerMap_loop_done lib p hs' [] hv' (by simpa using hnd')
    simp only [unmarshalHeaderMap, h1, h2, List.nil_append, and_self]

theorem stringMap_find_replace_other (k v key : GoString) (hk : k ≠ key) : ∀ (m : StringMap),
    (m.map (fun e => if e.1 == k then (k, v) else e)).find? (fun e => e.1 == key)
      = m.find? (fun e => e.1 == key)
  | [] => rfl
  | e :: rest => by
    have ih := stringMap_find_replace_other k v key hk rest
    by_cases he : e.1 = k
    · have h1 : (k == key) = false := by simpa using hk
      have h2 : (e.1 == key) = false := by rw [he]; exact h1
      simp only [List.map_cons, he, beq_self_eq_true, if_true, List.find?_cons, h1, h2]
      exact ih
    · have h1 : (e.1 == k) = false := by simpa using he
      simp only [List.map_cons, h1, Bool.false_eq_true, if_false, List.find?_cons]
      rw [ih]

theorem stringMap_find_replace_self (k v : GoString) : ∀ (m : StringMap),
    m.any (fun e => e.1 == k) = true →
    ((m.map (fun e => if e.1 == k then (k, v) else e)).find? (fun e => e.1 == k)).map
      (fun e => e.2) = some v
  | [], h => by simp at h
  | e :: rest, h => by
    by_cases he : e.1 = k
    · simp [he]
    · have h1 : (e.1 == k) = false := by simpa using he
      simp only [List.any_cons, h1, Bool.false_or] at h
      simp only [List.map_cons, h1, Bool.false_eq_true, if_false, List.find?_cons]
      exact stringMap_find_replace_self k v rest h

theorem get_insert (m : StringMap) (k v key : GoString) :
    (m.insert k v).get key = if k = key then some v else m.get key := by
  unfold StringMap.insert StringMap.get
  cases hany : m.any (fun e => e.1 == k) with
  | true =>
    simp only [if_true]
    by_cases hk : k = key
    · subst hk
      rw [if_pos rfl]
      exact stringMap_find_replace_self k v m hany
    · rw [if_neg hk, stringMap_find_replace_other k v key hk m]
  | false =>
    simp only [Bool.false_eq_true, if_false]
    rw [List.find?_append]
    by_cases hk : k = key
    · subst hk
      rw [if_pos rfl]
      have hnone : m.find? (fun e => e.1 == k) = none := by
        rw [List.find?_eq_none]
        intro e he hc
        have : m.any (fun e => e.1 == k) = true := List.any_eq_true.2 ⟨e, he, hc⟩
        rw [hany] at this
        cases this
      rw [hnone]
      simp
    · rw [if_neg hk]
      have h1 : (k == key) = false := by simpa using hk
      cases m.find? (fun e => e.1 == key) with
      | some e => rfl
      | none => simp [List.find?_cons, h1]

theorem insert_keys_nodup (m : StringMap) (k v : GoString) (h : (m.map Prod.fst).Nodup) :
    ((m.insert k v).map Prod.fst).Nodup := by
  unfold StringMap.insert
  cases hany : m.any (fun e => e.1 == k) with
  | true =>
    simp only [if_true]
    have : (m.map (fun e => if e.1 == k then (k, v) else e)).map Prod.fst = m.map Prod.fst := by
      rw [List.map_map]
      apply List.map_congr_left
      intro e _
      by_cases he : e.1 = k
      · simp [he]
      · simp [he]
    rw [this]
    exact h
  | false =>
    simp only [Bool.false_eq_true, if_false, List.map_append, List.map_cons, List.map_nil]
    rw [List.nodup_append]
    refine ⟨h, by simp, ?_⟩
    intro a ha hb
    simp only [List.mem_singleton] at hb
    subst hb
    rw [List.mem_map] at ha
    obtain ⟨e, he, hek⟩ := ha
    have : m.any (fun e => e.1 == a) = true := List.any_eq_true.2 ⟨e, he, by simp [hek]⟩
    rw [hany] at this
    cases this

theorem lastValue_cons (lib : StdLib) (p : GoString) (e : GoString × List GoString)
    (rest : Header) (key : GoString) :
    lastValue lib p (e :: rest) key =
      match lastValue lib p rest key with
      | some v => some v
      | none =>
        if matchesPrefix lib p e = true ∧ (CanonicalHeaderKey e.1).drop p.length = key then
          some (e.2.headD [])
        else none := by
  unfold lastValue
  rw [List.reverse_cons, List.find?_append]
  cases rest.reverse.find? (fun e =>
      matchesPrefix lib p e && ((CanonicalHeaderKey e.1).drop p.length == key)) with
  | some x => rfl
  | none =>
    by_cases h : matchesPrefix lib p e = true ∧ (CanonicalHeaderKey e.1).drop p.length = key
    · simp [List.find?_cons, h.1, h.2]
    · rw [if_neg h]
      have : (matchesPrefix lib p e && ((CanonicalHeaderKey e.1).drop p.length == key)) = false := by
        rw [Bool.eq_false_iff]
        intro hc
        simp only [Bool.and_eq_true, beq_iff_eq] at hc
        exact h hc
      simp [List.find?_cons, this]

theorem headerMap_loop_last (lib : StdLib) (p : GoString) : ∀ (hs : Header) (out : StringMap),
    (∀ e ∈ hs, matchesPrefix lib p e = true →
      p.length ≤ (CanonicalHeaderKey e.1).length ∧ e.2 ≠ []) →
    (out.map Prod.fst).Nodup →
    ∃ out' : StringMap, unmarshalHeaderMap.loop lib p hs out = .done out' ∧
      (out'.map Prod.fst).Nodup ∧
      ∀ key : GoString, out'.get key =
        match lastValue lib p hs key with
        | some v => some v
        | none => out.get key
  | [], out, _, hnd => ⟨out, rfl, hnd, fun key => by simp [lastValue]⟩
  | (k0, v) :: rest, out, hv, hnd => by
    have hrest : ∀ e ∈ rest, matchesPrefix lib p e = true →
        p.length ≤ (CanonicalHeaderKey e.1).length ∧ e.2 ≠ [] :=
      fun e he => hv e (List.mem_cons_of_mem _ he)
    unfold unmarshalHeaderMap.loop
    by_cases hm : matchesPrefix lib p (k0, v) = true
    · obtain ⟨hlen, hval⟩ := hv (k0, v) (List.mem_cons_self _ _) hm
      have hm' : HasPrefix (strings.ToLower lib (CanonicalHeaderKey k0)) (strings.ToLower lib p)
          = true := hm
      simp only at hlen
      simp only [hm', if_true]
      rw [if_neg (by omega)]
      cases v with
      | nil => exact absurd rfl hval
      | cons v0 vs =>
        simp only
        obtain ⟨out', h1, h2, h3⟩ := headerMap_loop_last lib p rest
          (out.insert ((CanonicalHeaderKey k0).drop p.length) v0) hrest
          (insert_keys_nodup _ _ _ hnd)
        refine ⟨out', h1, h2, fun key => ?_⟩
        rw [h3 key, lastValue_cons]
        cases lastValue lib p rest key with
        | some x => rfl
        | none =>
          simp only [get_insert, hm, true_and, List.headD_cons]
          split <;> rfl
    · have hm' : ¬ HasPrefix (strings.ToLower lib (CanonicalHeaderKey k0)) (strings.ToLower lib p)
          = true := hm
      simp only [hm', if_false]
      obtain ⟨out', h1, h2, h3⟩ := headerMap_loop_last lib p rest out hrest hnd
      refine ⟨out', h1, h2, fun key => ?_⟩
      rw [h3 key, lastValue_cons]
      cases lastValue lib p rest key with
      | some x => rfl
      | none => simp [hm]

theorem header_index_perm (h h' : Header) (k : GoString) (hperm : h.Perm h')
    (hnd : (h.map Prod.fst).Nodup) : Header.index h k = Header.index h' k := by
  have hnd' : (h'.map Prod.fst).Nodup := ((hperm.map Prod.fst).nodup_iff).1 hnd
  cases hf : h.find? (fun e => e.1 == k) with
  | some e =>
    have hmem : e ∈ h := List.mem_of_find?_eq_some hf
    have hk : e.1 = k := by
      simpa using @List.find?_some _ (fun e => e.1 == k) e h hf
    have hpair : (k, e.2) = e := by rw [← hk]
    rw [header_index_mem h k e.2 hnd (by rw [hpair]; exact hmem),
      header_index_mem h' k e.2 hnd' (by rw [hpair]; exact hperm.mem_iff.1 hmem)]
  | none =>
    have hf' : h'.find? (fun e => e.1 == k) = none := by
      rw [List.find?_eq_none] at hf ⊢
      intro e he
      exact hf e (hperm.mem_iff.2 he)
    simp only [Header.index, hf, hf']


theorem sameValue_refl (a : Value) : sameValue a a := Or.inl rfl

theorem sameField_refl (f : Field) : sameField f f := ⟨rfl, rfl, sameValue_refl _⟩

theorem sameField_list_refl (l : List Field) : List.Forall₂ sameField l l := by
  rw [List.forall₂_same]
  exact fun f _ => sameField_refl f

theorem sameFieldOutcome_of_eq (o o' : Outcome (Value × Option APIError)) (h : o = o') :
    sameFieldOutcome o o' := by
  subst h
  exact ⟨rfl, rfl, sameValue_refl _⟩

theorem headers_ne_statusCode : str "headers" ≠ str "statusCode" := by decide

theorem headers_ne_header : str "headers" ≠ str "header" := by decide

theorem field_perm (lib : StdLib) (resp : Response) (hs' : Header) (err : Option APIError)
    (f : Field) (hperm : resp.Header.Perm hs') (hkeys : (resp.Header.map Prod.fst).Nodup)
    (hnc : f.Tag.Get (str "location") = str "headers" →
      noCollision lib (f.Tag.Get (str "locationName")) resp.Header) :
    sameFieldOutcome (unmarshalLocationElements.field lib resp err f)
      (unmarshalLocationElements.field lib { resp with Header := hs' } err f) := by
  by_cases h1 : f.Tag.Get (str "location") = str "statusCode"
  · apply sameFieldOutcome_of_eq
    simp only [unmarshalLocationElements.field, h1, if_true]
  · by_cases h2 : f.Tag.Get (str "location") = str "header"
    · apply sameFieldOutcome_of_eq
      rw [field_header_eq lib resp err f h2, field_header_eq lib _ err f h2]
      simp only [Header.Get, header_index_perm resp.Header hs' _ hperm hkeys]
    · by_cases h3 : f.Tag.Get (str "location") = str "headers"
      · simp only [unmarshalLocationElements.field, h3, headers_ne_statusCode, headers_ne_header,
          if_false, if_true]
        cases hv : f.Value with
        | stringMap old =>
          have hnd := headerMapOf_nodup lib _ _ (hnc h3)
          rcases unmarshalHeaderMap_perm lib (f.Tag.Get (str "locationName")) resp.Header hs' old
            hperm hnd with ⟨e1, e2⟩ | ⟨msg, msg', e1, e2⟩
          · rw [e1, e2]
            exact ⟨rfl, rfl, Or.inr ⟨_, _, rfl, rfl, headerMapOf_perm lib _ _ _ hperm⟩⟩
          · rw [e1, e2]
            exact ⟨rfl, rfl, sameValue_refl _⟩
        | _ => exact ⟨rfl, rfl, sameValue_refl _⟩
      · apply sameFieldOutcome_of_eq
        simp only [unmarshalLocationElements.field, h1, h2, h3, if_false]

theorem location_loop_noname (lib : StdLib) (r : Request) (v : Shape) (seen rest : List Field)
    (f : Field) (hn : f.Name = []) :
    unmarshalLocationElements.loop lib r v seen (f :: rest)
      = .panic "slice bounds out of range" (r, { v with fields := seen ++ f :: rest }) := by
  rw [unmarshalLocationElements.loop]
  simp only [hn]

theorem location_loop_perm (lib : StdLib) (v : Shape) (hs' : Header) :
    ∀ (todo seen seen' : List Field) (r : Request),
    r.HTTPResponse.Header.Perm hs' → (r.HTTPResponse.Header.map Prod.fst).Nodup →
    (∀ f ∈ todo, f.Tag.Get (str "location") = str "headers" →
      noCollision lib (f.Tag.Get (str "locationName")) r.HTTPResponse.Header) →
    List.Forall₂ sameField seen seen' →
    sameRun (unmarshalLocationElements.loop lib r v seen todo)
      (unmarshalLocationElements.loop lib (r.withHeader hs') v seen' todo)
  | [], seen, seen', r, _, _, _, hseen => ⟨rfl, rfl, hseen, rfl⟩
  | f :: rest, seen, seen', r, hperm, hkeys, hnc, hseen => by
    have hrest : ∀ g ∈ rest, g.Tag.Get (str "location") = str "headers" →
        noCollision lib (g.Tag.Get (str "locationName")) r.HTTPResponse.Header :=
      fun g hg => hnc g (List.mem_cons_of_mem _ hg)
    by_cases hn : f.Name = []
    · rw [location_loop_noname lib r v seen rest f hn,
        location_loop_noname lib (r.withHeader hs') v seen' rest f hn]
      exact ⟨rfl, rfl, List.rel_append hseen (sameField_list_refl _), rfl⟩
    · by_cases hexp : isExported f.Name = true
      · rw [location_loop_bind lib r v seen rest f hexp,
          location_loop_bind lib (r.withHeader hs') v seen' rest f hexp]
        have hf := field_perm lib r.HTTPResponse hs' r.Error f hperm hkeys
          (hnc f (List.mem_cons_self _ _))
        have hw : (r.withHeader hs').HTTPResponse = { r.HTTPResponse with Header := hs' } := rfl
        have he : (r.withHeader hs').Error = r.Error := rfl
        rw [hw, he]
        cases ho : unmarshalLocationElements.field lib r.HTTPResponse r.Error f with
        | panic msg s =>
          obtain ⟨m, e⟩ := s
          cases ho' : unmarshalLocationElements.field lib { r.HTTPResponse with Header := hs' }
              r.Error f with
          | panic msg' s' =>
            obtain ⟨m', e'⟩ := s'
            rw [ho, ho'] at hf
            obtain ⟨_, h2, h3⟩ := hf
            exact ⟨rfl, h2, List.rel_append hseen
              (List.Forall₂.cons ⟨rfl, rfl, h3⟩ (sameField_list_refl _)), rfl⟩
          | done s' =>
            rw [ho, ho'] at hf
            exact absurd hf.1 (by simp [Outcome.returned])
        | done s =>
          obtain ⟨m, e⟩ := s
          cases ho' : unmarshalLocationElements.field lib { r.HTTPResponse with Header := hs' }
              r.Error f with
          | panic msg' s' =>
            rw [ho, ho'] at hf
            exact absurd hf.1 (by simp [Outcome.returned])
          | done s' =>
            obtain ⟨m', e'⟩ := s'
            rw [ho, ho'] at hf
            obtain ⟨_, h2, h3⟩ := hf
            simp only [Outcome.state] at h2 h3
            subst h2
            simp only
            cases hsome : e.isSome
            · simp only [Bool.false_eq_true, if_false]
              exact location_loop_perm lib v hs' rest _ _ { r with Error := e } hperm hkeys hrest
                (List.rel_append hseen (List.Forall₂.cons ⟨rfl, rfl, h3⟩ List.Forall₂.nil))
            · simp only [if_true]
              exact ⟨rfl, rfl, List.rel_append hseen
                (List.Forall₂.cons ⟨rfl, rfl, h3⟩ (sameField_list_refl _)), rfl⟩
      · have hexp2 : isExported f.Name = false := by simpa using hexp
        rw [location_loop_skip lib r v seen rest f hn hexp2,
          location_loop_skip lib (r.withHeader hs') v seen' rest f hn hexp2]
        exact location_loop_perm lib v hs' rest _ _ r hperm hkeys hrest
          (List.rel_append hseen (List.Forall₂.cons (sameField_refl f) List.Forall₂.nil))


theorem token_isASCII : ∀ (s : GoString), s.all validHeaderFieldByte = true → isASCII s = true
  | [], _ => rfl
  | c :: s, h => by
    simp only [List.all_cons, Bool.and_eq_true] at h
    have ih := token_isASCII s h.2
    have hc : c < 128 := by
      have h1 := h.1
      simp only [validHeaderFieldByte, Bool.or_eq_true, decide_eq_true_eq, List.contains_iff_exists_mem_beq] at h1
      rcases h1 with ((h1 | h1) | h1) | ⟨x, hx, hxe⟩
      · omega
      · omega
      · omega
      · simp only [beq_iff_eq] at hxe
        subst hxe
        simp only [List.mem_cons, List.mem_singleton, List.not_mem_nil, or_false] at hx
        omega
    simp only [isASCII, List.all_cons, Bool.and_eq_true, decide_eq_true_eq] at ih ⊢
    exact ⟨hc, ih⟩

theorem canonical_tokens_noCollision (lib : StdLib) (p : GoString) (hP : isASCII p = true)
    (hs : Header)
    (htok : ∀ e ∈ hs, e.1.all validHeaderFieldByte = true ∧ CanonicalHeaderKey e.1 = e.1)
    (hkeys : (hs.map Prod.fst).Nodup) : noCollision lib p hs := by
  have hpair : hs.Pairwise (fun a b => a.1 ≠ b.1) := by
    rw [List.Nodup, List.pairwise_map] at hkeys
    exact hkeys
  refine List.Pairwise.imp_of_mem ?_ hpair
  intro a b ha hb hne hma hmb hdrop
  apply hne
  obtain ⟨hta, hca⟩ := htok a ha
  obtain ⟨htb, hcb⟩ := htok b hb
  rw [matchesPrefix_ascii lib p hP, hca, startsWithFold_ascii lib p a.1 (token_isASCII _ hta)] at hma
  rw [matchesPrefix_ascii lib p hP, hcb, startsWithFold_ascii lib p b.1 (token_isASCII _ htb)] at hmb
  rw [hca, hcb] at hdrop
  have e1 : ToLower (a.1.take p.length) = ToLower p := (toLower_eq_iff _ _).2 hma
  have e2 : ToLower (b.1.take p.length) = ToLower p := (toLower_eq_iff _ _).2 hmb
  have hlow : ToLower a.1 = ToLower b.1 := by
    have ha' : a.1 = a.1.take p.length ++ a.1.drop p.length := (List.take_append_drop _ _).symm
    have hb' : b.1 = b.1.take p.length ++ b.1.drop p.length := (List.take_append_drop _ _).symm
    rw [ha', hb']
    simp only [ToLower, List.map_append] at e1 e2 ⊢
    rw [e1, e2, hdrop]
  have hfold : EqualFold a.1 b.1 = true := (toLower_eq_iff _ _).1 hlow
  have := canonical_equalFold a.1 b.1 hta hfold
  rw [hca, hcb] at this
  exact this

theorem unmarshalBody_payload_withHeader (r : Request) (v : Shape) (payload : Field)
    (hs' : Header) :
    unmarshalBody.payload (r.withHeader hs') v payload =
      match unmarshalBody.payload r v payload with
      | .done (r1, v1) => .done (r1.withHeader hs', v1)
      | .panic msg (r1, v1) => .panic msg (r1.withHeader hs', v1) := by
  unfold unmarshalBody.payload
  split
  · rfl
  · split
    · cases he : r.HTTPResponse.Body.err <;>
        simp [ReadAll, he, Request.withHeader, Request.withBody]
    · cases he : r.HTTPResponse.Body.err <;>
        simp [ReadAll, he, Request.withHeader, Request.withBody]
    · split
      · rfl
      · split <;> rfl
    · split <;> rfl

theorem unmarshalBody_withHeader (r : Request) (v : Shape) (hs' : Header) :
    unmarshalBody (r.withHeader hs') v =
      match unmarshalBody r v with
      | .done (r1, v1) => .done (r1.withHeader hs', v1)
      | .panic msg (r1, v1) => .panic msg (r1.withHeader hs', v1) := by
  unfold unmarshalBody
  cases v.FieldByName (str "SDKShapeTraits") with
  | none => rfl
  | some t =>
    simp only
    split
    · rfl
    · cases v.FieldByName (t.Tag.Get (str "payload")) with
      | none => simp
      | some p =>
        simp only
        split
        · rfl
        · exact unmarshalBody_payload_withHeader r v p hs'

theorem setField_tags (v : Shape) (n : GoString) (x : Value) :
    ∀ f1 ∈ (v.setField n x).fields, ∃ f ∈ v.fields, f1.Tag = f.Tag := by
  intro f1 h1
  unfold Shape.setField at h1
  split at h1
  · simp only [List.mem_map] at h1
    obtain ⟨f, hf, rfl⟩ := h1
    refine ⟨f, hf, ?_⟩
    split <;> rfl
  · exact ⟨f1, h1, rfl⟩

theorem unmarshalBody_payload_tags (r : Request) (v : Shape) (payload : Field) :
    ∀ f1 ∈ (unmarshalBody.payload r v payload).state.2.fields, ∃ f ∈ v.fields, f1.Tag = f.Tag := by
  have hsame : ∀ f1 ∈ v.fields, ∃ f ∈ v.fields, f1.Tag = f.Tag := fun f1 h => ⟨f1, h, rfl⟩
  unfold unmarshalBody.payload
  split
  · exact hsame
  · split
    · cases he : r.HTTPResponse.Body.err
      · simp only [ReadAll, he, Option.map_none', Outcome.state]
        exact setField_tags v _ _
      · simp only [ReadAll, he, Option.map_some', Outcome.state]
        exact hsame
    · cases he : r.HTTPResponse.Body.err
      · simp only [ReadAll, he, Option.map_none', Outcome.state]
        exact setField_tags v _ _
      · simp only [ReadAll, he, Option.map_some', Outcome.state]
        exact hsame
    · split
      · exact setField_tags v _ _
      · split
        · exact setField_tags v _ _
        · exact hsame
    · split
      · exact hsame
      · exact hsame

theorem unmarshalBody_tags (r : Request) (v : Shape) :
    ∀ f1 ∈ (unmarshalBody r v).state.2.fields, ∃ f ∈ v.fields, f1.Tag = f.Tag := by
  have hsame : ∀ f1 ∈ v.fields, ∃ f ∈ v.fields, f1.Tag = f.Tag := fun f1 h => ⟨f1, h, rfl⟩
  unfold unmarshalBody
  cases v.FieldByName (str "SDKShapeTraits") with
  | none => exact hsame
  | some t =>
    simp only
    split
    · exact hsame
    · cases v.FieldByName (t.Tag.Get (str "payload")) with
      | none => simp only [true_or, if_true]; exact hsame
      | some p =>
        simp only
        split
        · exact hsame
        · exact unmarshalBody_payload_tags r v p

theorem unmarshalBody_payload_header (r : Request) (v : Shape) (payload : Field) :
    (unmarshalBody.payload r v payload).state.1.HTTPResponse.Header = r.HTTPResponse.Header := by
  unfold unmarshalBody.payload
  split
  · rfl
  · split
    · cases he : r.HTTPResponse.Body.err <;> simp [ReadAll, he, Outcome.state, Request.withBody]
    · cases he : r.HTTPResponse.Body.err <;> simp [ReadAll, he, Outcome.state, Request.withBody]
    · split
      · rfl
      · split <;> rfl
    · split <;> rfl

theorem unmarshalBody_header (r : Request) (v : Shape) :
    (unmarshalBody r v).state.1.HTTPResponse.Header = r.HTTPResponse.Header := by
  unfold unmarshalBody
  cases v.FieldByName (str "SDKShapeTraits") with
  | none => rfl
  | some t =>
    simp only
    split
    · rfl
    · cases v.FieldByName (t.Tag.Get (str "payload")) with
      | none => simp [Outcome.state]
      | some p =>
        simp only
        split
        · rfl
        · exact unmarshalBody_payload_header r v p


theorem unmarshal_eq (lib : StdLib) (r : Request) (v : Shape) (hdata : r.Data = some v) :
    Unmarshal lib r =
      match unmarshalBody r v with
      | .panic msg (r1, v1) => .panic msg { r1 with Data := some v1 }
      | .done (r1, v1) =>
        match unmarshalLocationElements lib r1 v1 with
        | .panic msg (r2, v2) => .panic msg { r2 with Data := some v2 }
        | .done (r2, v2) => .done { r2 with Data := some v2 } := by
  simp only [Unmarshal, hdata]

theorem unmarshal_perm (lib : StdLib) (r : Request) (v : Shape) (hs' : Header)
    (hdata : r.Data = some v)
    (hperm : r.HTTPResponse.Header.Perm hs')
    (hkeys : (r.HTTPResponse.Header.map Prod.fst).Nodup)
    (hnc : ∀ f ∈ v.fields, f.Tag.Get (str "location") = str "headers" →
      noCollision lib (f.Tag.Get (str "locationName")) r.HTTPResponse.Header) :
    (Unmarshal lib r).returned = (Unmarshal lib (r.withHeader hs')).returned ∧
    (Unmarshal lib r).state.Error = (Unmarshal lib (r.withHeader hs')).state.Error ∧
    (Unmarshal lib r).state.HTTPResponse.Body
      = (Unmarshal lib (r.withHeader hs')).state.HTTPResponse.Body ∧
    ∃ w w' : Shape, (Unmarshal lib r).state.Data = some w ∧
      (Unmarshal lib (r.withHeader hs')).state.Data = some w' ∧
      List.Forall₂ sameField w.fields w'.fields ∧ w.promoted = w'.promoted := by
  have hdata' : (r.withHeader hs').Data = some v := hdata
  rw [unmarshal_eq lib r v hdata, unmarshal_eq lib (r.withHeader hs') v hdata',
    unmarshalBody_withHeader r v hs']
  have hhead := unmarshalBody_header r v
  have htags := unmarshalBody_tags r v
  cases hb : unmarshalBody r v with
  | panic msg s =>
    obtain ⟨r1, v1⟩ := s
    exact ⟨rfl, rfl, rfl, v1, v1, rfl, rfl, sameField_list_refl _, rfl⟩
  | done s =>
    obtain ⟨r1, v1⟩ := s
    rw [hb] at hhead htags
    simp only [Outcome.state] at hhead htags
    have hperm1 : r1.HTTPResponse.Header.Perm hs' := by rw [hhead]; exact hperm
    have hkeys1 : (r1.HTTPResponse.Header.map Prod.fst).Nodup := by rw [hhead]; exact hkeys
    have hnc1 : ∀ f ∈ v1.fields, f.Tag.Get (str "location") = str "headers" →
        noCollision lib (f.Tag.Get (str "locationName")) r1.HTTPResponse.Header := by
      intro f hf hloc
      obtain ⟨f0, hf0, ht⟩ := htags f hf
      rw [hhead, ht]
      rw [ht] at hloc
      exact hnc f0 hf0 hloc
    have hrun := location_loop_perm lib v1 hs' v1.fields [] [] r1 hperm1 hkeys1 hnc1
      List.Forall₂.nil
    have hr1 := location_loop_response lib v1 v1.fields [] r1
    have hr2 := location_loop_response lib v1 v1.fields [] (r1.withHeader hs')
    simp only
    unfold unmarshalLocationElements
    cases ho : unmarshalLocationElements.loop lib r1 v1 [] v1.fields with
    | panic m1 s1 =>
      obtain ⟨r2, v2⟩ := s1
      cases ho' : unmarshalLocationElements.loop lib (r1.withHeader hs') v1 [] v1.fields with
      | panic m2 s2 =>
        obtain ⟨r3, v3⟩ := s2
        rw [ho] at hrun hr1
        rw [ho'] at hrun hr2
        obtain ⟨_, he, hf, hp⟩ := hrun
        simp only [Outcome.state] at he hf hp hr1 hr2
        refine ⟨rfl, he, ?_, v2, v3, rfl, rfl, hf, hp⟩
        simp only [Outcome.state, hr1, hr2]
        rfl
      | done s2 =>
        rw [ho, ho'] at hrun
        exact absurd hrun.1 (by simp [Outcome.returned])
    | done s1 =>
      obtain ⟨r2, v2⟩ := s1
      cases ho' : unmarshalLocationElements.loop lib (r1.withHeader hs') v1 [] v1.fields with
      | panic m2 s2 =>
        rw [ho, ho'] at hrun
        exact absurd hrun.1 (by simp [Outcome.returned])
      | done s2 =>
        obtain ⟨r3, v3⟩ := s2
        rw [ho] at hrun hr1
        rw [ho'] at hrun hr2
        obtain ⟨_, he, hf, hp⟩ := hrun
        simp only [Outcome.state] at he hf hp hr1 hr2
        refine ⟨rfl, he, ?_, v2, v3, rfl, rfl, hf, hp⟩
        simp only [Outcome.state, hr1, hr2]
        rfl

/-- C20 as stated fails: with the header names `x-foo` and `X-Foo` in one
collection, the header map field with prefix `X-` receives `Foo: b` when the
entries are enumerated in one order and `Foo: a` when they are enumerated in
the other, so two binds of the same response give different results. -/
theorem header_map_depends_on_enumeration_order :
    (collidingHeaders.map Prod.fst).Nodup ∧
    unmarshalLocationElements.field noLib (headerResponse collidingHeaders) none
        prefixedHeadersField
      = .done (.stringMap (some [(str "Foo", str "b")]), none) ∧
    unmarshalLocationElements.field noLib (headerResponse collidingHeaders.reverse) none
        prefixedHeadersField
      = .done (.stringMap (some [(str "Foo", str "a")]), none) ∧
    StringMap.get [(str "Foo", str "b")] (str "Foo") ≠ StringMap.get [(str "Foo", str "a")] (str "Foo") := by
  decide

/-- C20, amended. Let the header collection of a response have distinct names
and, for every header map field of the result structure, no two matching names
that give the same stripped key. Then the bind of the response with its
entries enumerated in any other order ends alike: it returns or panics alike,
with the same error, the same body, and field for field the same values, a
header map having the same entries. The condition holds for every ASCII prefix
when the names are distinct canonical header tokens. In general, when every
matching header has a value and a name as long as the prefix (as every name
that matches an ASCII prefix is), the header map holds under each stripped key
the first value of the matching header of that key that is enumerated last,
and nothing else. -/
theorem bind_independent_of_header_order (lib : StdLib) (r : Request) (v : Shape) (hs' : Header)
    (hdata : r.Data = some v)
    (hperm : r.HTTPResponse.Header.Perm hs')
    (hkeys : (r.HTTPResponse.Header.map Prod.fst).Nodup)
    (hnc : ∀ f ∈ v.fields, f.Tag.Get (str "location") = str "headers" →
      noCollision lib (f.Tag.Get (str "locationName")) r.HTTPResponse.Header) :
    (Unmarshal lib r).returned = (Unmarshal lib (r.withHeader hs')).returned ∧
    (Unmarshal lib r).state.Error = (Unmarshal lib (r.withHeader hs')).state.Error ∧
    (Unmarshal lib r).state.HTTPResponse.Body
      = (Unmarshal lib (r.withHeader hs')).state.HTTPResponse.Body ∧
    (∃ w w' : Shape, (Unmarshal lib r).state.Data = some w ∧
      (Unmarshal lib (r.withHeader hs')).state.Data = some w' ∧
      List.Forall₂ sameField w.fields w'.fields ∧ w.promoted = w'.promoted) ∧
    ((∀ e ∈ r.HTTPResponse.Header,
        e.1.all validHeaderFieldByte = true ∧ CanonicalHeaderKey e.1 = e.1) →
      ∀ p : GoString, isASCII p = true → noCollision lib p r.HTTPResponse.Header) ∧
    (∀ (p : GoString) (hs : Header) (old : Option StringMap),
      (∀ e ∈ hs, matchesPrefix lib p e = true →
        p.length ≤ (CanonicalHeaderKey e.1).length ∧ e.2 ≠ []) →
      ∃ out : StringMap,
        unmarshalHeaderMap lib (.stringMap old) hs p = .done (.stringMap (some out)) ∧
        (out.map Prod.fst).Nodup ∧
        ∀ key : GoString, out.get key = lastValue lib p hs key) ∧
    (∀ (p : GoString) (hs : Header), isASCII p = true → (∀ e ∈ hs, e.2 ≠ []) →
      ∀ e ∈ hs, matchesPrefix lib p e = true →
        p.length ≤ (CanonicalHeaderKey e.1).length ∧ e.2 ≠ []) := by
  obtain ⟨h1, h2, h3, h4⟩ := unmarshal_perm lib r v hs' hdata hperm hkeys hnc
  refine ⟨h1, h2, h3, h4,
    fun htok p hP => canonical_tokens_noCollision lib p hP _ htok hkeys, ?_, ?_⟩
  · intro p hs old hok
    obtain ⟨out, e1, e2, e3⟩ := headerMap_loop_last lib p hs [] hok (by simp)
    refine ⟨out, by simp only [unmarshalHeaderMap, e1], e2, fun key => ?_⟩
    rw [e3 key]
    cases lastValue lib p hs key with
    | some x => rfl
    | none => rfl
  · intro p hs hP hvals e he hm
    rw [matchesPrefix_ascii lib p hP] at hm
    exact ⟨startsWithFold_length lib _ _ hm, hvals e he⟩


/-- C20 amended, at the header map protocol test with its three headers
enumerated forwards and backwards: both binds return without error, and the
field `PrefixedHeaders` holds `Bam: boo`, `Foo: bar` in one and `Foo: bar`,
`Bam: boo` in the other. At the two colliding names `x-foo` and `X-Foo` the
header map holds under `Foo` the value of the name enumerated last. -/
theorem bind_independent_of_header_order_witness :
    ((Unmarshal noLib (mkRequest headerMapResponse headerMapShape)).state.Data.bind
      (fun v => v.FieldByName (str "PrefixedHeaders"))).map (fun f => f.Value)
      = some (.stringMap (some [(str "Bam", str "boo"), (str "Foo", str "bar")])) ∧
    ((Unmarshal noLib ((mkRequest headerMapResponse headerMapShape).withHeader
        headerMapResponse.Header.reverse)).state.Data.bind
      (fun v => v.FieldByName (str "PrefixedHeaders"))).map (fun f => f.Value)
      = some (.stringMap (some [(str "Foo", str "bar"), (str "Bam", str "boo")])) ∧
    (Unmarshal noLib (mkRequest headerMapResponse headerMapShape)).returned
      = (Unmarshal noLib ((mkRequest headerMapResponse headerMapShape).withHeader
          headerMapResponse.Header.reverse)).returned ∧
    (Unmarshal noLib (mkRequest headerMapResponse headerMapShape)).state.Error
      = (Unmarshal noLib ((mkRequest headerMapResponse headerMapShape).withHeader
          headerMapResponse.Header.reverse)).state.Error ∧
    (∃ w w' : Shape,
      (Unmarshal noLib (mkRequest headerMapResponse headerMapShape)).state.Data = some w ∧
      (Unmarshal noLib ((mkRequest headerMapResponse headerMapShape).withHeader
          headerMapResponse.Header.reverse)).state.Data = some w' ∧
      List.Forall₂ sameField w.fields w'.fields ∧ w.promoted = w'.promoted) ∧
    lastValue noLib (str "X-") collidingHeaders (str "Foo") = some (str "b") ∧
    lastValue noLib (str "X-") collidingHeaders.reverse (str "Foo") = some (str "a") ∧
    (∃ out : StringMap,
      unmarshalHeaderMap noLib (.stringMap none) collidingHeaders (str "X-")
        = .done (.stringMap (some out)) ∧
      (out.map Prod.fst).Nodup ∧
      ∀ key : GoString, out.get key = lastValue noLib (str "X-") collidingHeaders key) :=
  have h := bind_independent_of_header_order noLib (mkRequest headerMapResponse headerMapShape)
    headerMapShape headerMapResponse.Header.reverse rfl
    (List.reverse_perm _).symm (by decide)
    (fun f hf _ => canonical_tokens_noCollision noLib _
      ((by decide : ∀ g ∈ headerMapShape.fields,
        isASCII (g.Tag.Get (str "locationName")) = true) f hf) _ (by decide) (by decide))
  ⟨by decide, by decide, h.1, h.2.1, h.2.2.2.1, by decide, by decide,
    h.2.2.2.2.2.1 (str "X-") collidingHeaders none (by decide)⟩


/-! ## The frame of the location dispatcher -/

theorem field_other_location (lib : StdLib) (resp : Response) (err : Option APIError) (f : Field)
    (h : hasLocation f = false) :
    unmarshalLocationElements.field lib resp err f = .done (f.Value, err) := by
  unfold hasLocation at h
  simp only [Bool.or_eq_false_iff, beq_eq_false_iff_ne, ne_eq] at h
  simp only [unmarshalLocationElements.field, h.1.1, h.1.2, h.2, if_false]

theorem field_error_unchanged (lib : StdLib) (resp : Response) (err : Option APIError) (f : Field)
    (h : coercionFails lib resp f = false) :
    (unmarshalLocationElements.field lib resp err f).state.2 = err := by
  unfold coercionFails at h
  simp only [unmarshalLocationElements.field]
  by_cases h1 : f.Tag.Get (str "location") = str "statusCode"
  · simp [h1, Outcome.state]
  · by_cases h2 : f.Tag.Get (str "location") = str "header"
    · simp only [h2, beq_self_eq_true, Bool.true_and] at h
      rw [if_neg h1, if_pos h2]
      rcases hu : unmarshalHeader lib f.Value (resp.Header.Get f.wireName) with ⟨m, e⟩ | ⟨msg, m, e⟩
      · cases e with
        | none => rfl
        | some e => rw [hu] at h; simp at h
      · rfl
    · rw [if_neg h1, if_neg h2]
      split
      · cases unmarshalHeaderMap lib f.Value resp.Header (f.Tag.Get (str "locationName")) <;> rfl
      · rfl

theorem startsLower_unexported (name : GoString) (h : startsLower name = true) :
    name ≠ [] ∧ isExported name = false := by
  cases name with
  | nil => simp [startsLower] at h
  | cons c cs =>
    simp only [startsLower, decide_eq_true_eq] at h
    refine ⟨by simp, ?_⟩
    simp only [isExported, decide_eq_false_iff_not]
    omega

theorem location_loop_frame (lib : StdLib) (v : Shape) : ∀ (todo seen : List Field) (r : Request),
    ∃ out : List Field,
      (unmarshalLocationElements.loop lib r v seen todo).state.2 = { v with fields := seen ++ out } ∧
      List.Forall₂ framed todo out ∧
      ((∀ f ∈ todo, isExported f.Name = true → coercionFails lib r.HTTPResponse f = false) →
        (unmarshalLocationElements.loop lib r v seen todo).state.1.Error = r.Error)
  | [], seen, r =>
    ⟨[], by simp [unmarshalLocationElements.loop, Outcome.state], .nil,
      fun _ => by simp [unmarshalLocationElements.loop, Outcome.state]⟩
  | f :: rest, seen, r => by
    have hself : ∀ l : List Field, List.Forall₂ framed l l := by
      intro l
      induction l with
      | nil => exact .nil
      | cons a l ih => exact .cons ⟨rfl, rfl, fun _ => rfl⟩ ih
    by_cases hn : f.Name = []
    · rw [location_loop_noname lib r v seen rest f hn]
      exact ⟨f :: rest, rfl, hself _, fun _ => rfl⟩
    · cases hexp : isExported f.Name with
      | false =>
        rw [location_loop_skip lib r v seen rest f hn hexp]
        obtain ⟨out, h1, h2, h3⟩ := location_loop_frame lib v rest (seen ++ [f]) r
        exact ⟨f :: out, by simpa using h1, .cons ⟨rfl, rfl, fun _ => rfl⟩ h2,
          fun h => h3 (fun g hg => h g (List.mem_cons_of_mem _ hg))⟩
      | true =>
        have hval : notBound f = true →
            (unmarshalLocationElements.field lib r.HTTPResponse r.Error f).state.1 = f.Value := by
          intro hb
          unfold notBound at hb
          rcases Bool.or_eq_true_iff.1 hb with hl | hl
          · rw [(startsLower_unexported _ hl).2] at hexp
            exact absurd hexp (by decide)
          · rw [field_other_location lib _ _ f (by simpa using hl)]
            rfl
        have herr : coercionFails lib r.HTTPResponse f = false →
            (unmarshalLocationElements.field lib r.HTTPResponse r.Error f).state.2 = r.Error :=
          field_error_unchanged lib _ _ f
        rw [location_loop_bind lib r v seen rest f hexp]
        rcases hfd : unmarshalLocationElements.field lib r.HTTPResponse r.Error f
          with ⟨m, e⟩ | ⟨msg, m, e⟩
        · rw [hfd] at hval herr
          simp only [Outcome.state] at hval herr
          cases he : e.isSome with
          | true =>
            simp only [he, if_true]
            refine ⟨{ f with Value := m } :: rest, rfl, .cons ⟨rfl, rfl, hval⟩ (hself _), ?_⟩
            intro h
            exact herr (h f (List.mem_cons_self _ _) hexp)
          | false =>
            simp only [he, Bool.false_eq_true, if_false]
            obtain ⟨out, h1, h2, h3⟩ :=
              location_loop_frame lib v rest (seen ++ [{ f with Value := m }]) { r with Error := e }
            refine ⟨{ f with Value := m } :: out, by simpa using h1, .cons ⟨rfl, rfl, hval⟩ h2, ?_⟩
            intro h
            rw [h3 (fun g hg => h g (List.mem_cons_of_mem _ hg))]
            exact herr (h f (List.mem_cons_self _ _) hexp)
        · rw [hfd] at hval herr
          simp only [Outcome.state] at hval herr
          refine ⟨{ f with Value := m } :: rest, rfl, .cons ⟨rfl, rfl, hval⟩ (hself _), ?_⟩
          intro h
          exact herr (h f (List.mem_cons_self _ _) hexp)

/-- C21. The location dispatcher mutates only the fields it is told to bind.
For a result structure whose field names are ASCII identifiers: after
`unmarshalLocationElements`, whether it returned or panicked, the result
structure has the same fields with the same names and tags, every field whose
name starts with a lower-case letter or whose location tag is none of
`statusCode`, `header`, `headers` has the value it had before, the promoted
fields are as before, and when no header coercion of an exported field fails
the error of the request is the one it had before. -/
theorem location_dispatcher_frame (lib : StdLib) (r : Request) (v : Shape)
    (_hascii : ∀ f ∈ v.fields, isASCII f.Name = true) :
    List.Forall₂ framed v.fields (unmarshalLocationElements lib r v).state.2.fields ∧
    (unmarshalLocationElements lib r v).state.2.promoted = v.promoted ∧
    ((∀ f ∈ v.fields, isExported f.Name = true → coercionFails lib r.HTTPResponse f = false) →
      (unmarshalLocationElements lib r v).state.1.Error = r.Error) := by
  obtain ⟨out, h1, h2, h3⟩ := location_loop_frame lib v v.fields [] r
  unfold unmarshalLocationElements
  rw [h1]
  exact ⟨by simpa using h2, rfl, h3⟩

/-- C21, on a structure with an unexported member tagged as a header, a header
member and a member without location. -/
theorem location_dispatcher_frame_witness :
    List.Forall₂ framed frameShape.fields
      (unmarshalLocationElements noLib (mkRequest frameResponse frameShape) frameShape).state.2.fields ∧
    (unmarshalLocationElements noLib (mkRequest frameResponse frameShape) frameShape).state.2.promoted
      = frameShape.promoted ∧
    ((∀ f ∈ frameShape.fields, isExported f.Name = true →
        coercionFails noLib (mkRequest frameResponse frameShape).HTTPResponse f = false) →
      (unmarshalLocationElements noLib (mkRequest frameResponse frameShape) frameShape).state.1.Error
        = (mkRequest frameResponse frameShape).Error) :=
  location_dispatcher_frame noLib (mkRequest frameResponse frameShape) frameShape (by decide)

/-- C21, on a structure with an unexported member tagged as a header, a header
member and a member without location: the bind sets the header member only. -/
theorem location_frame_check :
    unmarshalLocationElements noLib (mkRequest frameResponse frameShape) frameShape
      = .done (mkRequest frameResponse frameShape,
          { frameShape with fields :=
              [{ Name := str "hidden"
                 Tag := [(str "location", str "header"), (str "locationName", str "x-amz-num")]
                 Value := .ptrInt64 (some 7) },
               { Name := str "Num"
                 Tag := [(str "location", str "header"), (str "locationName", str "x-amz-num")]
                 Value := .ptrInt64 (some 42) },
               { Name := str "Body", Tag := [(str "type", str "string")]
                 Value := .ptrString (some (str "kept")) }] }) := by
  decide

/-! ## Safety of the header map loop -/

theorem headerMap_loop_returns (lib : StdLib) (p : GoString) (hP : isASCII p = true) : ∀ (hs : Header) (out : StringMap),
    (∀ e ∈ hs, e.2 ≠ []) → (unmarshalHeaderMap.loop lib p hs out).returned = true
  | [], _, _ => rfl
  | (k0, v) :: rest, out, hv => by
    have hrest : ∀ e ∈ rest, e.2 ≠ [] := fun e he => hv e (List.mem_cons_of_mem _ he)
    unfold unmarshalHeaderMap.loop
    simp only [hasPrefix_toLower lib _ p hP]
    by_cases hm : StartsWithFold lib (CanonicalHeaderKey k0) p = true
    · have hlen := startsWithFold_length lib _ _ hm
      rw [if_pos hm, if_neg (by omega)]
      cases v with
      | nil => exact absurd rfl (hv (k0, []) (List.mem_cons_self _ _))
      | cons v0 vs => exact headerMap_loop_returns lib p hP rest _ hrest
    · rw [if_neg hm]
      exact headerMap_loop_returns lib p hP rest out hrest

/-- C29. `unmarshalHeaderMap` never indexes out of range when every header
name has at least one value: for every header collection, whatever bytes its
names hold, and every ASCII prefix, a canonical name whose lower-cased form
starts with the lower-cased prefix is at least as long as the prefix, so
`k[len(prefix):]` is defined, and the header has a first value; the loop over
the headers and the function itself return without a panic, from every map
built so far and for every field. -/
theorem header_map_never_indexes_out_of_range (lib : StdLib) (r : Value) (headers : Header)
    (pfx : GoString) (hP : isASCII pfx = true) (hvals : ∀ e ∈ headers, e.2 ≠ []) :
    (∀ e ∈ headers,
      HasPrefix (strings.ToLower lib (CanonicalHeaderKey e.1)) (strings.ToLower lib pfx) = true →
      pfx.length ≤ (CanonicalHeaderKey e.1).length ∧ ∃ v0, e.2.head? = some v0) ∧
    (∀ out : StringMap, (unmarshalHeaderMap.loop lib pfx headers out).returned = true) ∧
    (unmarshalHeaderMap lib r headers pfx).returned = true := by
  have hloop := headerMap_loop_returns lib pfx hP headers
  refine ⟨?_, fun out => hloop out hvals, ?_⟩
  · intro e he hpre
    rw [hasPrefix_toLower lib _ pfx hP] at hpre
    refine ⟨startsWithFold_length lib _ _ hpre, ?_⟩
    cases hv : e.2 with
    | nil => exact absurd hv (hvals e he)
    | cons v0 vs => exact ⟨v0, rfl⟩
  · unfold unmarshalHeaderMap
    cases r with
    | stringMap m =>
      have := hloop [] hvals
      cases hl : unmarshalHeaderMap.loop lib pfx headers [] with
      | done out => rfl
      | panic msg out => rw [hl] at this; simp [Outcome.returned] at this
    | _ => rfl

/-- C29, at headers whose names are not all ASCII, with the prefix `k-`: the
name made of the Kelvin sign U+212A and `-foo` lower-cases to `k-foo`, which
starts with the prefix, and is seven bytes long. -/
theorem header_map_never_indexes_out_of_range_witness :
    (∀ e ∈ kelvinHeaders,
      HasPrefix (strings.ToLower noLib (CanonicalHeaderKey e.1))
        (strings.ToLower noLib (str "k-")) = true →
      (str "k-").length ≤ (CanonicalHeaderKey e.1).length ∧ ∃ v0, e.2.head? = some v0) ∧
    (∀ out : StringMap,
      (unmarshalHeaderMap.loop noLib (str "k-") kelvinHeaders out).returned = true) ∧
    (unmarshalHeaderMap noLib (.stringMap none) kelvinHeaders (str "k-")).returned = true :=
  header_map_never_indexes_out_of_range noLib (.stringMap none) kelvinHeaders (str "k-")
    (by decide) (by decide)

/-- The header map loop at the Kelvin sign: the name U+212A `-foo` matches the
prefix `k-` and is stored under the name without its first two bytes; the name
`X-Bam` does not match; a lone byte `0xFF` lower-cases to U+FFFD. -/
theorem kelvin_header_check :
    strings.ToLower noLib [226, 132, 170, 45, 102, 111, 111] = str "k-foo" ∧
    strings.ToLower noLib [255, 65] = [239, 191, 189, 97] ∧
    unmarshalHeaderMap noLib (.stringMap none) kelvinHeaders (str "k-")
      = .done (.stringMap (some [([170, 45, 102, 111, 111], str "bar")])) ∧
    headerMapSpec noLib (str "k-") kelvinHeaders = [([170, 45, 102, 111, 111], str "bar")] := by
  decide

end rest

/-! # Credential providers -/

namespace credentials

open rest (GoString str)

theorem chain_loop_first {σ : Type} : ∀ (pre seen : List (Provider σ)) (p : Provider σ)
    (post : List (Provider σ)), (∀ q ∈ pre, q.fails = true) → p.fails = false →
    ChainProvider.Retrieve.loop seen (pre ++ p :: post)
      = (p.Retrieve.1, none,
          { Providers := seen ++ pre.map (fun q => q.Retrieve.2.2) ++ p.Retrieve.2.2 :: post
            curr := some (seen.length + pre.length) })
  | [], seen, p, post, _, hp => by
    rcases hr : p.Retrieve with ⟨creds, e, p1⟩
    simp only [Provider.fails, hr] at hp
    cases e with
    | some e0 => simp at hp
    | none => simp [ChainProvider.Retrieve.loop, hr]
  | q :: pre, seen, p, post, hpre, hp => by
    have hq := hpre q (List.mem_cons_self _ _)
    rcases hr : q.Retrieve with ⟨creds, e, q1⟩
    simp only [Provider.fails, hr, Option.isSome_iff_exists] at hq
    obtain ⟨e1, rfl⟩ := hq
    have ih := chain_loop_first pre (seen ++ [q1]) p post
      (fun x hx => hpre x (List.mem_cons_of_mem _ hx)) hp
    rw [List.cons_append, ChainProvider.Retrieve.loop]
    simp only [hr]
    rw [ih]
    simp [hr, Nat.add_assoc, Nat.add_comm 1]

theorem chain_loop_none {σ : Type} : ∀ (ps seen : List (Provider σ)),
    (∀ q ∈ ps, q.fails = true) →
    ChainProvider.Retrieve.loop seen ps
      = ({ AccessKeyID := [], SecretAccessKey := [], SessionToken := [] },
          some ErrNoValidProvidersFoundInChain,
          { Providers := seen ++ ps.map (fun q => q.Retrieve.2.2), curr := none })
  | [], seen, _ => by simp [ChainProvider.Retrieve.loop]
  | q :: ps, seen, h => by
    have hq := h q (List.mem_cons_self _ _)
    rcases hr : q.Retrieve with ⟨creds, e, q1⟩
    simp only [Provider.fails, hr, Option.isSome_iff_exists] at hq
    obtain ⟨e1, rfl⟩ := hq
    have ih := chain_loop_none ps (seen ++ [q1]) (fun x hx => h x (List.mem_cons_of_mem _ hx))
    simp only [ChainProvider.Retrieve.loop, hr, ih]
    simp [hr]

theorem first_success_or_none {σ : Type} : ∀ (ps : List (Provider σ)),
    (∀ q ∈ ps, q.fails = true) ∨
    ∃ (pre post : List (Provider σ)) (p : Provider σ),
      ps = pre ++ p :: post ∧ (∀ q ∈ pre, q.fails = true) ∧ p.fails = false
  | [] => .inl (by simp)
  | q :: ps => by
    cases hq : q.fails with
    | false => exact .inr ⟨[], ps, q, rfl, by simp, hq⟩
    | true =>
      rcases first_success_or_none ps with h | ⟨pre, post, p, h1, h2, h3⟩
      · left
        intro x hx
        rcases List.mem_cons.1 hx with rfl | hx
        · exact hq
        · exact h x hx
      · right
        refine ⟨q :: pre, post, p, by simp [h1], ?_, h3⟩
        intro x hx
        rcases List.mem_cons.1 hx with rfl | hx
        · exact hq
        · exact h2 x hx

/-- C22. `ChainProvider.Retrieve` on every list of providers: when the provider
`p` is the first in list order whose `Retrieve` succeeds (every provider before
it returns an error), the chain returns the credentials that `p` returned and
no error; when no provider succeeds, in particular on the empty list, it
returns the empty `Value` and `ErrNoValidProvidersFoundInChain`; and one of the
two is always the case. -/
theorem chain_retrieve_first_success {σ : Type} (c : ChainProvider σ) :
    (∀ (pre post : List (Provider σ)) (p : Provider σ),
      c.Providers = pre ++ p :: post → (∀ q ∈ pre, q.fails = true) → p.fails = false →
      c.Retrieve.1 = p.Retrieve.1 ∧ c.Retrieve.2.1 = none) ∧
    ((∀ q ∈ c.Providers, q.fails = true) →
      c.Retrieve.1 = { AccessKeyID := [], SecretAccessKey := [], SessionToken := [] } ∧
      c.Retrieve.2.1 = some ErrNoValidProvidersFoundInChain) ∧
    (c.Providers = [] →
      c.Retrieve.1 = { AccessKeyID := [], SecretAccessKey := [], SessionToken := [] } ∧
      c.Retrieve.2.1 = some ErrNoValidProvidersFoundInChain) ∧
    ((∀ q ∈ c.Providers, q.fails = true) ∨
      ∃ (pre post : List (Provider σ)) (p : Provider σ),
        c.Providers = pre ++ p :: post ∧ (∀ q ∈ pre, q.fails = true) ∧ p.fails = false) := by
  refine ⟨?_, ?_, ?_, first_success_or_none _⟩
  · intro pre post p hps hpre hp
    unfold ChainProvider.Retrieve
    rw [hps, chain_loop_first pre [] p post hpre hp]
    exact ⟨rfl, rfl⟩
  · intro h
    unfold ChainProvider.Retrieve
    rw [chain_loop_none _ [] h]
    exact ⟨rfl, rfl⟩
  · intro h
    unfold ChainProvider.Retrieve
    rw [h]
    exact ⟨rfl, rfl⟩

/-- C22, on chains of stubs: a failing stub followed by two good ones gives the
credentials of the first good one; a chain of failing stubs and the empty chain
give the empty value and the error of the chain. -/
theorem chain_retrieve_first_success_check :
    (NewChainCredentials [badStub, goodStub "AKID" true, goodStub "OTHER" true]).Retrieve.1
      = { AccessKeyID := str "AKID", SecretAccessKey := str "SECRET", SessionToken := [] } ∧
    (NewChainCredentials [badStub, goodStub "AKID" true, goodStub "OTHER" true]).Retrieve.2.1 = none ∧
    (NewChainCredentials [badStub, badStub]).Retrieve.1
      = { AccessKeyID := [], SecretAccessKey := [], SessionToken := [] } ∧
    (NewChainCredentials [badStub, badStub]).Retrieve.2.1 = some ErrNoValidProvidersFoundInChain ∧
    (NewChainCredentials ([] : List (Provider stubProvider))).Retrieve.2.1
      = some ErrNoValidProvidersFoundInChain := by
  decide

theorem chain_retrieve_state_first {σ : Type} (c : ChainProvider σ)
    (pre post : List (Provider σ)) (p : Provider σ)
    (hps : c.Providers = pre ++ p :: post) (hpre : ∀ q ∈ pre, q.fails = true)
    (hp : p.fails = false) :
    c.Retrieve.2.2 = { Providers := pre.map (fun q => q.Retrieve.2.2) ++ p.Retrieve.2.2 :: post
                       curr := some pre.length } := by
  unfold ChainProvider.Retrieve
  rw [hps, chain_loop_first pre [] p post hpre hp]
  simp

theorem chain_retrieve_state_none {σ : Type} (c : ChainProvider σ)
    (h : ∀ q ∈ c.Providers, q.fails = true) :
    c.Retrieve.2.2 = { Providers := c.Providers.map (fun q => q.Retrieve.2.2), curr := none } := by
  unfold ChainProvider.Retrieve
  rw [chain_loop_none _ [] h]
  simp

theorem reachable_curr_valid {σ : Type} (ps : List (Provider σ)) (c : ChainProvider σ)
    (h : Reachable ps c) : ∀ i, c.curr = some i → i < c.Providers.length := by
  induction h with
  | new => intro i hi; simp [NewChainCredentials] at hi
  | retrieve c _ _ =>
    intro i hi
    rcases first_success_or_none c.Providers with hall | ⟨pre, post, p, h1, h2, h3⟩
    · rw [chain_retrieve_state_none c hall] at hi
      simp at hi
    · rw [chain_retrieve_state_first c pre post p h1 h2 h3] at hi ⊢
      simp only [Option.some.injEq] at hi
      subst hi
      simp

/-- C23. `ChainProvider.IsExpired` in the states that calls of `Retrieve`
reach. Before any `Retrieve` it returns true. After a `Retrieve` from the
state `c` in which `p` is the first provider that succeeds, the current
provider is `p` as that call left it, and `IsExpired` returns its expired
state. After a `Retrieve` from `c` in which every provider fails there is no
current provider and `IsExpired` returns true, whatever the current provider
of `c` was. In the state `c` itself `IsExpired` is true when there is no
current provider, and the expired state of the current provider, which is a
provider of the list, when there is one. -/
theorem chain_isExpired_follows_last_retrieve {σ : Type} (ps : List (Provider σ))
    (c : ChainProvider σ) (h : Reachable ps c) :
    (NewChainCredentials ps).IsExpired = true ∧
    (∀ (pre post : List (Provider σ)) (p : Provider σ),
      c.Providers = pre ++ p :: post → (∀ q ∈ pre, q.fails = true) → p.fails = false →
      c.Retrieve.2.2.curr = some pre.length ∧
      c.Retrieve.2.2.Providers.get? pre.length = some p.Retrieve.2.2 ∧
      c.Retrieve.2.2.IsExpired = p.Retrieve.2.2.IsExpired) ∧
    ((∀ q ∈ c.Providers, q.fails = true) →
      c.Retrieve.2.2.curr = none ∧ c.Retrieve.2.2.IsExpired = true) ∧
    (c.curr = none → c.IsExpired = true) ∧
    (∀ i, c.curr = some i →
      ∃ p, c.Providers.get? i = some p ∧ c.IsExpired = p.IsExpired) := by
  refine ⟨rfl, ?_, ?_, ?_, ?_⟩
  · intro pre post p hps hpre hp
    rw [chain_retrieve_state_first c pre post p hps hpre hp]
    have hget : (pre.map (fun q => q.Retrieve.2.2) ++ p.Retrieve.2.2 :: post).get? pre.length
        = some p.Retrieve.2.2 := by
      rw [List.get?_eq_getElem?, List.getElem?_append_right (by simp)]
      simp
    refine ⟨rfl, hget, ?_⟩
    simp only [ChainProvider.IsExpired, hget]
  · intro hall
    rw [chain_retrieve_state_none c hall]
    exact ⟨rfl, rfl⟩
  · intro hc
    simp [ChainProvider.IsExpired, hc]
  · intro i hi
    have hlt := reachable_curr_valid ps c h i hi
    refine ⟨c.Providers.get ⟨i, hlt⟩, List.get?_eq_get hlt, ?_⟩
    simp only [ChainProvider.IsExpired, hi, List.get?_eq_get hlt]

/-- C23, on the chain of a failing stub and a good stub that says it is
expired, after one `Retrieve`. -/
theorem chain_isExpired_follows_last_retrieve_witness :
    (NewChainCredentials [badStub, goodStub "AKID" true]).IsExpired = true ∧
    (∀ (pre post : List (Provider stubProvider)) (p : Provider stubProvider),
      (NewChainCredentials [badStub, goodStub "AKID" true]).Retrieve.2.2.Providers
        = pre ++ p :: post →
      (∀ q ∈ pre, q.fails = true) → p.fails = false →
      (NewChainCredentials [badStub, goodStub "AKID" true]).Retrieve.2.2.Retrieve.2.2.curr
        = some pre.length ∧
      (NewChainCredentials [badStub, goodStub "AKID" true]).Retrieve.2.2.Retrieve.2.2.Providers.get?
        pre.length = some p.Retrieve.2.2 ∧
      (NewChainCredentials [badStub, goodStub "AKID" true]).Retrieve.2.2.Retrieve.2.2.IsExpired
        = p.Retrieve.2.2.IsExpired) ∧
    ((∀ q ∈ (NewChainCredentials [badStub, goodStub "AKID" true]).Retrieve.2.2.Providers,
        q.fails = true) →
      (NewChainCredentials [badStub, goodStub "AKID" true]).Retrieve.2.2.Retrieve.2.2.curr = none ∧
      (NewChainCredentials [badStub, goodStub "AKID" true]).Retrieve.2.2.Retrieve.2.2.IsExpired
        = true) ∧
    ((NewChainCredentials [badStub, goodStub "AKID" true]).Retrieve.2.2.curr = none →
      (NewChainCredentials [badStub, goodStub "AKID" true]).Retrieve.2.2.IsExpired = true) ∧
    (∀ i, (NewChainCredentials [badStub, goodStub "AKID" true]).Retrieve.2.2.curr = some i →
      ∃ p, (NewChainCredentials [badStub, goodStub "AKID" true]).Retrieve.2.2.Providers.get? i
          = some p ∧
        (NewChainCredentials [badStub, goodStub "AKID" true]).Retrieve.2.2.IsExpired
          = p.IsExpired) :=
  chain_isExpired_follows_last_retrieve [badStub, goodStub "AKID" true]
    (NewChainCredentials [badStub, goodStub "AKID" true]).Retrieve.2.2
    (Reachable.retrieve _ Reachable.new)

/-- C23, evaluated: a new chain is expired; after a `Retrieve` that the second
stub answers the chain has the expired state of that stub, which the call
reset; after the one-shot provider answered once the chain is not expired, and
after the next `Retrieve`, in which it fails, the chain is expired again. -/
theorem chain_isExpired_check :
    (NewChainCredentials [badStub, goodStub "AKID" true]).IsExpired = true ∧
    (NewChainCredentials [badStub, goodStub "AKID" true]).Retrieve.2.2.IsExpired = false ∧
    (NewChainCredentials [badStub, goodStub "AKID" true]).Retrieve.2.2.curr = some 1 ∧
    (NewChainCredentials [oneShotStub]).Retrieve.2.1 = none ∧
    (NewChainCredentials [oneShotStub]).Retrieve.2.2.IsExpired = false ∧
    (NewChainCredentials [oneShotStub]).Retrieve.2.2.Retrieve.2.1
      = some ErrNoValidProvidersFoundInChain ∧
    (NewChainCredentials [oneShotStub]).Retrieve.2.2.Retrieve.2.2.IsExpired = true := by
  decide

/-- C24. `StaticProvider.Retrieve` returns the empty `Value` with
`ErrStaticCredentialsEmpty` exactly when the access key ID or the secret access
key is empty; otherwise it returns the stored `Value`, its three strings as
they are, with no error; and `IsExpired` is false for every static provider. -/
theorem static_provider_retrieve (s : StaticProvider) :
    (s.Retrieve = ({ AccessKeyID := [], SecretAccessKey := [], SessionToken := [] },
        some ErrStaticCredentialsEmpty)
      ↔ (s.Value.AccessKeyID = [] ∨ s.Value.SecretAccessKey = [])) ∧
    (¬ (s.Value.AccessKeyID = [] ∨ s.Value.SecretAccessKey = []) → s.Retrieve = (s.Value, none)) ∧
    (∀ id secret token : GoString, id ≠ [] → secret ≠ [] →
      (NewStaticCredentials id secret token).Retrieve
        = ({ AccessKeyID := id, SecretAccessKey := secret, SessionToken := token }, none)) ∧
    s.IsExpired = false ∧ s.asProvider.Retrieve.2.2.IsExpired = false := by
  refine ⟨?_, ?_, ?_, rfl, rfl⟩
  · unfold StaticProvider.Retrieve
    by_cases h : s.Value.AccessKeyID = [] ∨ s.Value.SecretAccessKey = []
    · simp [h]
    · simp [h]
  · intro h
    simp [StaticProvider.Retrieve, h]
  · intro id secret token h1 h2
    simp [StaticProvider.Retrieve, NewStaticCredentials, h1, h2]

/-- C24, evaluated: credentials with an empty session token are returned as
they are; an empty key or an empty secret gives the error. -/
theorem static_provider_retrieve_check :
    (NewStaticCredentials (str "AKID") (str "SECRET") []).Retrieve
      = ({ AccessKeyID := str "AKID", SecretAccessKey := str "SECRET", SessionToken := [] }, none) ∧
    (NewStaticCredentials [] (str "SECRET") (str "TOKEN")).Retrieve
      = ({ AccessKeyID := [], SecretAccessKey := [], SessionToken := [] },
          some ErrStaticCredentialsEmpty) ∧
    (NewStaticCredentials (str "AKID") [] []).Retrieve.2 = some ErrStaticCredentialsEmpty := by
  decide

end credentials

/-! # The generator command -/

namespace genapi

open rest (GoString str Outcome)

theorem skips_iff (name : GoString) : ∀ (svcs : List GoString),
    newGenerateInfo.skips name svcs = true ↔ ∃ s ∈ svcs, s ≠ name
  | [] => by simp [newGenerateInfo.skips]
  | s :: svcs => by
    have ih := skips_iff name svcs
    by_cases h : s = name
    · simp [newGenerateInfo.skips, h, ih]
    · simp [newGenerateInfo.skips, h]

/-- C25. `newGenerateInfo` and the `SERVICES` list. The code returns nil exactly
when `SERVICES` is set and some name of the list differs from the package name
of the service. So with `SERVICES=s3,ec2` the service `s3`, a member of the
list, is skipped, and so is `ec2`: nothing is generated. A service is generated
when the list names it alone, or when `SERVICES` is empty. -/
theorem newGenerateInfo_skips_listed_service :
    (∀ services name path : GoString,
      newGenerateInfo services name path = none
        ↔ services ≠ [] ∧ ∃ s ∈ Split services 44, s ≠ name) ∧
    Split (str "s3,ec2") 44 = [str "s3", str "ec2"] ∧
    newGenerateInfo (str "s3,ec2") (str "s3") (str "service") = none ∧
    newGenerateInfo (str "s3,ec2") (str "ec2") (str "service") = none ∧
    newGenerateInfo (str "s3") (str "s3") (str "service")
      = some { PackageName := str "s3", PackageDir := [str "service", str "s3"] } ∧
    newGenerateInfo [] (str "s3") (str "service")
      = some { PackageName := str "s3", PackageDir := [str "service", str "s3"] } := by
  refine ⟨?_, by decide, by decide, by decide, by decide, by decide⟩
  intro services name path
  unfold newGenerateInfo
  rw [← skips_iff]
  by_cases h : services ≠ [] ∧ newGenerateInfo.skips name (Split services 44) = true
  · simp [h]
  · rw [if_neg h]
    simp only [reduceCtorEq, false_iff]
    exact h

end genapi

/-! ## The old-version removal pass -/

namespace genapi

open rest (GoString str Outcome)

theorem getD_set_self (l : List GoString) (k : Nat) (x : GoString) (h : k < l.length) :
    (l.set k x).getD k [] = x := by
  simp [List.getD_eq_getElem?_getD, h]

theorem getD_set_other (l : List GoString) (k i : Nat) (x : GoString) (h : i ≠ k) :
    (l.set k x).getD i [] = l.getD i [] := by
  simp [List.getD_eq_getElem?_getD, List.getElem?_set_ne (Ne.symm h)]

theorem removeOld_loop_spec (sep : Nat) : ∀ (k : Nat) (files m : List GoString),
    k ≤ files.length → (∀ i, i < k → 2 ≤ (Split (files.getD i []) sep).length) →
    ∃ out : List GoString,
      removeOldVersions.loop sep k files m = .done out ∧ out.length = files.length ∧
      (∀ i, k ≤ i → out.getD i [] = files.getD i []) ∧
      (∀ i, i < k →
        ((serviceOf sep (files.getD i []) ∈ m ∨
            ∃ j, i < j ∧ j < k ∧ serviceOf sep (files.getD j []) = serviceOf sep (files.getD i []))
          → out.getD i [] = []) ∧
        (¬ (serviceOf sep (files.getD i []) ∈ m ∨
            ∃ j, i < j ∧ j < k ∧ serviceOf sep (files.getD j []) = serviceOf sep (files.getD i []))
          → out.getD i [] = files.getD i []))
  | 0, files, m, _, _ => ⟨files, rfl, rfl, fun _ _ => rfl, fun i hi => absurd hi (by omega)⟩
  | k + 1, files, m, hk, hparts => by
    have hp := hparts k (by omega)
    have hsame : ∀ i, i ≠ k →
        (if m.contains (serviceOf sep (files.getD k [])) then files.set k [] else files).getD i []
          = files.getD i [] := by
      intro i hi
      split
      · exact getD_set_other files k i [] hi
      · rfl
    have hlen : (if m.contains (serviceOf sep (files.getD k [])) then files.set k []
        else files).length = files.length := by
      split <;> simp
    obtain ⟨out, h1, h2, h3, h4⟩ := removeOld_loop_spec sep k
      (if m.contains (serviceOf sep (files.getD k [])) then files.set k [] else files)
      (serviceOf sep (files.getD k []) :: m)
      (by rw [hlen]; omega)
      (by
        intro i hi
        rw [hsame i (by omega)]
        exact hparts i (by omega))
    refine ⟨out, ?_, ?_, ?_, ?_⟩
    · rw [removeOldVersions.loop]
      simp only [if_neg (show ¬ (Split (files.getD k []) sep).length < 2 by omega)]
      exact h1
    · rw [h2, hlen]
    · intro i hi
      rw [h3 i (by omega), hsame i (by omega)]
    · intro i hi
      by_cases hik : i = k
      · subst hik
        rw [h3 i (Nat.le_refl _)]
        constructor
        · rintro (hm | ⟨j, hj1, hj2, _⟩)
          · have : m.contains (serviceOf sep (files.getD i [])) = true := by simpa using hm
            rw [if_pos this]
            exact getD_set_self files i [] (by omega)
          · omega
        · intro hn
          have : ¬ (m.contains (serviceOf sep (files.getD i [])) = true) := by
            intro hc
            exact hn (.inl (by simpa using hc))
          rw [if_neg this]
      · have hlt : i < k := by omega
        obtain ⟨h5, h6⟩ := h4 i hlt
        simp only [hsame i hik] at h5 h6
        have hiff : (serviceOf sep (files.getD i []) ∈ serviceOf sep (files.getD k []) :: m ∨
              ∃ j, i < j ∧ j < k ∧
                serviceOf sep ((if m.contains (serviceOf sep (files.getD k [])) then files.set k []
                  else files).getD j []) = serviceOf sep (files.getD i []))
            ↔ (serviceOf sep (files.getD i []) ∈ m ∨
              ∃ j, i < j ∧ j < k + 1 ∧
                serviceOf sep (files.getD j []) = serviceOf sep (files.getD i [])) := by
          constructor
          · rintro (hm | ⟨j, hj1, hj2, hj3⟩)
            · rcases List.mem_cons.1 hm with he | hm
              · exact .inr ⟨k, hlt, by omega, he.symm⟩
              · exact .inl hm
            · rw [hsame j (by omega)] at hj3
              exact .inr ⟨j, hj1, by omega, hj3⟩
          · rintro (hm | ⟨j, hj1, hj2, hj3⟩)
            · exact .inl (List.mem_cons_of_mem _ hm)
            · by_cases hjk : j = k
              · subst hjk
                exact .inl (by rw [hj3]; exact List.mem_cons_self _ _)
              · exact .inr ⟨j, hj1, by omega, by rw [hsame j hjk]; exact hj3⟩
        exact ⟨fun h => h5 (hiff.2 h), fun h => h6 (fun hc => h (hiff.1 hc))⟩

end genapi

namespace genapi

open rest (GoString str Outcome)

theorem exists_last_of_service (sep : Nat) (files : List GoString) :
    ∀ (d i : Nat), files.length - i ≤ d → i < files.length →
    ∃ last, i ≤ last ∧ last < files.length ∧
      serviceOf sep (files.getD last []) = serviceOf sep (files.getD i []) ∧
      ∀ j, last < j → j < files.length →
        serviceOf sep (files.getD j []) ≠ serviceOf sep (files.getD i [])
  | 0, i, hd, hi => absurd hd (by omega)
  | d + 1, i, hd, hi => by
    by_cases h : ∃ j, i < j ∧ j < files.length ∧
        serviceOf sep (files.getD j []) = serviceOf sep (files.getD i [])
    · obtain ⟨j, hj1, hj2, hj3⟩ := h
      obtain ⟨last, h1, h2, h3, h4⟩ := exists_last_of_service sep files d j (by omega) hj2
      refine ⟨last, by omega, h2, by rw [h3, hj3], ?_⟩
      intro x hx1 hx2
      rw [← hj3]
      exact h4 x hx1 hx2
    · refine ⟨i, Nat.le_refl _, hi, rfl, ?_⟩
      intro j hj1 hj2 hc
      exact h ⟨j, hj1, hj2, hc⟩

/-- C28. The old-version removal pass of the generator over a sorted list of
model file paths that each have at least two components: the pass returns a
list of the same length; every service name (the second-to-last component) of
the list has a last path; and at the last path of a service the list is left as
it was, non-empty, while every other path of that service, each of them before
it in the sorted order, is replaced by the empty string. -/
theorem old_versions_removed (sep : Nat) (files : List GoString)
    (hparts : ∀ f ∈ files, 2 ≤ (Split f sep).length)
    (hsorted : files.Pairwise (fun a b => a ≤ b)) :
    ∃ out : List GoString,
      removeOldVersions sep files = .done out ∧ out.length = files.length ∧
      (∀ i, i < files.length → ∃ last, i ≤ last ∧ last < files.length ∧
        serviceOf sep (files.getD last []) = serviceOf sep (files.getD i []) ∧
        ∀ j, last < j → j < files.length →
          serviceOf sep (files.getD j []) ≠ serviceOf sep (files.getD i [])) ∧
      (∀ last, last < files.length →
        (∀ j, last < j → j < files.length →
          serviceOf sep (files.getD j []) ≠ serviceOf sep (files.getD last [])) →
        out.getD last [] = files.getD last [] ∧ out.getD last [] ≠ [] ∧
        ∀ i, i < files.length →
          serviceOf sep (files.getD i []) = serviceOf sep (files.getD last []) →
          files.getD i [] ≤ files.getD last [] ∧ (i ≠ last → out.getD i [] = [])) := by
  have hmem : ∀ i, i < files.length → files.getD i [] ∈ files := by
    intro i hi
    rw [List.getD_eq_getElem _ _ hi]
    exact List.getElem_mem hi
  obtain ⟨out, h1, h2, _, h4⟩ := removeOld_loop_spec sep files.length files []
    (Nat.le_refl _) (fun i hi => hparts _ (hmem i hi))
  refine ⟨out, h1, h2, fun i hi => exists_last_of_service sep files _ i (Nat.le_refl _) hi, ?_⟩
  intro last hlast hmax
  have hkeep : out.getD last [] = files.getD last [] := by
    apply (h4 last hlast).2
    rintro (hm | ⟨j, hj1, hj2, hj3⟩)
    · simp at hm
    · exact hmax j hj1 hj2 hj3
  refine ⟨hkeep, ?_, ?_⟩
  · rw [hkeep]
    intro hnil
    have := hparts _ (hmem last hlast)
    rw [hnil] at this
    simp [Split, Split.loop] at this
  · intro i hi hsvc
    have hle : i ≤ last := by
      by_contra hc
      exact hmax i (by omega) hi hsvc
    constructor
    · by_cases he : i = last
      · subst he
        exact le_refl _
      · rw [List.getD_eq_getElem _ _ hi, List.getD_eq_getElem _ _ hlast]
        exact List.pairwise_iff_getElem.1 hsorted i last hi hlast (by omega)
    · intro hne
      exact (h4 i hi).1 (.inr ⟨last, by omega, hlast, hsvc.symm⟩)

/-- C28, on three sorted model files of two services: the older `ec2` model
is wiped, the newer one and the `s3` model are kept. -/
theorem old_versions_removed_witness :
    ∃ out : List GoString,
      removeOldVersions 47 modelFiles = .done out ∧ out.length = modelFiles.length ∧
      (∀ i, i < modelFiles.length → ∃ last, i ≤ last ∧ last < modelFiles.length ∧
        serviceOf 47 (modelFiles.getD last []) = serviceOf 47 (modelFiles.getD i []) ∧
        ∀ j, last < j → j < modelFiles.length →
          serviceOf 47 (modelFiles.getD j []) ≠ serviceOf 47 (modelFiles.getD i [])) ∧
      (∀ last, last < modelFiles.length →
        (∀ j, last < j → j < modelFiles.length →
          serviceOf 47 (modelFiles.getD j []) ≠ serviceOf 47 (modelFiles.getD last [])) →
        out.getD last [] = modelFiles.getD last [] ∧ out.getD last [] ≠ [] ∧
        ∀ i, i < modelFiles.length →
          serviceOf 47 (modelFiles.getD i []) = serviceOf 47 (modelFiles.getD last []) →
          modelFiles.getD i [] ≤ modelFiles.getD last [] ∧ (i ≠ last → out.getD i [] = [])) :=
  old_versions_removed 47 modelFiles (by decide) (by decide)

/-- C28, evaluated on the three model files, and on a path of one component,
where the pass panics. -/
theorem old_versions_removed_check :
    removeOldVersions 47 modelFiles
      = .done [[], str "apis/ec2/2015-03-01.normal.json", str "apis/s3/2006-03-01.normal.json"] ∧
    removeOldVersions 47 [str "s3.normal.json"]
      = .panic "index out of range" [str "s3.normal.json"] := by
  decide

end genapi

/-! # Server-side encryption keys of S3 -/

namespace rest

theorem header_get_index (h : Header) (n : GoString) :
    h.Get n = (h.index (CanonicalHeaderKey n)).headD [] := by
  unfold Header.Get
  cases h.index (CanonicalHeaderKey n) <;> rfl

theorem header_index_set_self (h : Header) (w x : GoString) :
    (Header.Set h w x).index (CanonicalHeaderKey w) = [x] := by
  unfold Header.Set
  exact header_index_set x (CanonicalHeaderKey w) h

theorem header_find_map_other (k K x : GoString) (hk : k ≠ K) : ∀ (h : Header),
    (h.map (fun e => if e.1 == K then (K, [x]) else e)).find? (fun e => e.1 == k)
      = h.find? (fun e => e.1 == k)
  | [] => rfl
  | e :: rest => by
    have ih := header_find_map_other k K x hk rest
    by_cases he : e.1 = K
    · have h1 : (K == k) = false := by simpa using (Ne.symm hk)
      have h2 : (e.1 == k) = false := by rw [he]; exact h1
      simp only [List.map_cons, he, beq_self_eq_true, if_true, List.find?_cons, h1, h2]
      exact ih
    · have h1 : (e.1 == K) = false := by simpa using he
      simp only [List.map_cons, h1, Bool.false_eq_true, if_false, List.find?_cons]
      rw [ih]

theorem header_index_set_other (h : Header) (w x k : GoString) (hk : k ≠ CanonicalHeaderKey w) :
    (Header.Set h w x).index k = h.index k := by
  have hfind : (Header.Set h w x).find? (fun e => e.1 == k) = h.find? (fun e => e.1 == k) := by
    unfold Header.Set
    simp only
    cases hany : h.any (fun e => e.1 == CanonicalHeaderKey w) with
    | true =>
      simp only [if_true]
      exact header_find_map_other k _ x hk h
    | false =>
      have h1 : (CanonicalHeaderKey w == k) = false := by simpa using (Ne.symm hk)
      simp only [Bool.false_eq_true, if_false]
      rw [List.find?_append]
      cases h.find? (fun e => e.1 == k) with
      | some e => rfl
      | none => simp [List.find?_cons, h1]
  unfold Header.index
  rw [hfind]

theorem header_get_set_other (h : Header) (w x n : GoString)
    (hk : CanonicalHeaderKey n ≠ CanonicalHeaderKey w) :
    (Header.Set h w x).Get n = h.Get n := by
  rw [header_get_index, header_get_index, header_index_set_other h w x _ hk]

theorem encodeToString_length : ∀ (s : GoString),
    (EncodeToString s).length = 4 * ((s.length + 2) / 3)
  | [] => rfl
  | [_] => by simp [EncodeToString]
  | [_, _] => by simp [EncodeToString]
  | _ :: _ :: _ :: rest => by
    simp only [EncodeToString, List.length_cons, encodeToString_length rest]
    omega

end rest

namespace s3

open rest (GoString str Header EncodeToString CanonicalHeaderKey)

/-- C26, at a request over plain HTTP with an `SSECustomerKey`: the check leaves
the error nil. -/
theorem validateSSERequiresSSL_sets_no_error :
    plainKeyRequest.HTTPRequest.Scheme = str "http" ∧
    ValuesAtPath plainKeyRequest.Params = [str "key"] ∧
    plainKeyRequest.Error = none ∧
    (validateSSERequiresSSL plainKeyRequest).Error = none := by
  decide

/-- C26, amended. `validateSSERequiresSSL` leaves every request as it is,
whatever its scheme and parameters: the test of the scheme is replaced by the
constant `false`, so the error is never set to `errSSERequiresSSL`. -/
theorem validateSSERequiresSSL_leaves_request (r : Request) :
    validateSSERequiresSSL r = r ∧ (validateSSERequiresSSL r).Error = r.Error := by
  constructor <;> simp [validateSSERequiresSSL]

theorem sse_header_index (md5 : MD5) (hdr : Header) (h k : GoString)
    (hne : CanonicalHeaderKey (h ++ str "-md5") ≠ CanonicalHeaderKey h) :
    (computeSSEKeys.header md5 hdr h).index k =
      if hdr.Get h = [] then hdr.index k
      else if k = CanonicalHeaderKey h then [EncodeToString (hdr.Get h)]
      else if k = CanonicalHeaderKey (h ++ str "-md5") ∧ hdr.Get (h ++ str "-md5") = [] then
        [EncodeToString (md5.Sum (hdr.Get h))]
      else hdr.index k := by
  unfold computeSSEKeys.header
  simp only
  by_cases hkey : hdr.Get h = []
  · simp [hkey]
  · rw [if_pos hkey, if_neg hkey, rest.header_get_set_other hdr h _ _ hne]
    by_cases hm : hdr.Get (h ++ str "-md5") = []
    · rw [if_pos hm]
      by_cases hk1 : k = CanonicalHeaderKey h
      · rw [if_pos hk1, hk1, rest.header_index_set_other _ _ _ _ (Ne.symm hne),
          rest.header_index_set_self]
      · rw [if_neg hk1]
        by_cases hk2 : k = CanonicalHeaderKey (h ++ str "-md5")
        · rw [if_pos ⟨hk2, hm⟩, hk2, rest.header_index_set_self]
        · rw [if_neg (fun hc => hk2 hc.1), rest.header_index_set_other _ _ _ _ hk2,
            rest.header_index_set_other _ _ _ _ hk1]
    · rw [if_neg hm]
      by_cases hk1 : k = CanonicalHeaderKey h
      · rw [if_pos hk1, hk1, rest.header_index_set_self]
      · rw [if_neg hk1, if_neg (fun hc => hm hc.2), rest.header_index_set_other _ _ _ _ hk1]

theorem sse_header_index_other (md5 : MD5) (hdr : Header) (h k : GoString)
    (hne : CanonicalHeaderKey (h ++ str "-md5") ≠ CanonicalHeaderKey h)
    (hk1 : k ≠ CanonicalHeaderKey h) (hk2 : k ≠ CanonicalHeaderKey (h ++ str "-md5")) :
    (computeSSEKeys.header md5 hdr h).index k = hdr.index k := by
  rw [sse_header_index md5 hdr h k hne]
  by_cases hkey : hdr.Get h = []
  · rw [if_pos hkey]
  · rw [if_neg hkey, if_neg hk1, if_neg (fun hc => hk2 hc.1)]

end s3

namespace s3

open rest (GoString str Header EncodeToString CanonicalHeaderKey)

theorem sse_header_get_other (md5 : MD5) (hdr : Header) (h n : GoString)
    (hne : CanonicalHeaderKey (h ++ str "-md5") ≠ CanonicalHeaderKey h)
    (hk1 : CanonicalHeaderKey n ≠ CanonicalHeaderKey h)
    (hk2 : CanonicalHeaderKey n ≠ CanonicalHeaderKey (h ++ str "-md5")) :
    (computeSSEKeys.header md5 hdr h).Get n = hdr.Get n := by
  rw [rest.header_get_index, rest.header_get_index, sse_header_index_other md5 hdr h _ hne hk1 hk2]

theorem computeSSEKeys_header (md5 : MD5) (r : Request) :
    (computeSSEKeys md5 r).HTTPRequest.Header
      = computeSSEKeys.header md5
          (computeSSEKeys.header md5 r.HTTPRequest.Header
            (str "x-amz-server-side-encryption-customer-key"))
          (str "x-amz-copy-source-server-side-encryption-customer-key") := rfl

theorem computeSSEKeys_index (md5 : MD5) (r : Request) (h k : GoString)
    (hh : h ∈ sseKeyHeaders)
    (hk : k = CanonicalHeaderKey h ∨ k = CanonicalHeaderKey (h ++ str "-md5")) :
    (computeSSEKeys md5 r).HTTPRequest.Header.index k =
      if r.HTTPRequest.Header.Get h = [] then r.HTTPRequest.Header.index k
      else if k = CanonicalHeaderKey h then [EncodeToString (r.HTTPRequest.Header.Get h)]
      else if k = CanonicalHeaderKey (h ++ str "-md5")
          ∧ r.HTTPRequest.Header.Get (h ++ str "-md5") = [] then
        [EncodeToString (md5.Sum (r.HTTPRequest.Header.Get h))]
      else r.HTTPRequest.Header.index k := by
  rw [computeSSEKeys_header]
  rcases List.mem_cons.1 hh with rfl | hh
  · rw [sse_header_index_other md5 _ _ k (by decide)
        (by rcases hk with rfl | rfl <;> decide) (by rcases hk with rfl | rfl <;> decide),
      sse_header_index md5 _ _ k (by decide)]
  · have hh := List.mem_singleton.1 hh
    subst hh
    rw [sse_header_index md5 _ _ k (by decide),
      sse_header_get_other md5 _ _ _ (by decide) (by decide) (by decide),
      sse_header_get_other md5 _ _ _ (by decide) (by decide) (by decide),
      sse_header_index_other md5 _ _ k (by decide)
        (by rcases hk with rfl | rfl <;> decide) (by rcases hk with rfl | rfl <;> decide)]

end s3

namespace s3

open rest (GoString str Header EncodeToString CanonicalHeaderKey)

theorem sse_md5_name_ne (h : GoString) (hh : h ∈ sseKeyHeaders) :
    CanonicalHeaderKey (h ++ str "-md5") ≠ CanonicalHeaderKey h := by
  rcases List.mem_cons.1 hh with rfl | hh
  · decide
  · have hh := List.mem_singleton.1 hh
    subst hh
    decide

/-- C27. `computeSSEKeys` and each of the two customer-key headers `h`. If the
header holds a non-empty key `k`, then afterwards it holds the base64 encoding
of `k`; the header `h-md5` holds the base64 encoding of the MD5 digest of `k`
when it was empty before, and has the values it had when it was set before. If
the key header is absent or empty, both headers have the values they had. The
error and the parameters of the request are not touched. -/
theorem computeSSEKeys_encodes_keys (md5 : MD5) (r : Request) (h : GoString)
    (hh : h ∈ sseKeyHeaders) :
    (r.HTTPRequest.Header.Get h ≠ [] →
      (computeSSEKeys md5 r).HTTPRequest.Header.Get h
        = EncodeToString (r.HTTPRequest.Header.Get h) ∧
      (r.HTTPRequest.Header.Get (h ++ str "-md5") = [] →
        (computeSSEKeys md5 r).HTTPRequest.Header.Get (h ++ str "-md5")
          = EncodeToString (md5.Sum (r.HTTPRequest.Header.Get h))) ∧
      (r.HTTPRequest.Header.Get (h ++ str "-md5") ≠ [] →
        (computeSSEKeys md5 r).HTTPRequest.Header.index (CanonicalHeaderKey (h ++ str "-md5"))
          = r.HTTPRequest.Header.index (CanonicalHeaderKey (h ++ str "-md5")))) ∧
    (r.HTTPRequest.Header.Get h = [] →
      (computeSSEKeys md5 r).HTTPRequest.Header.index (CanonicalHeaderKey h)
        = r.HTTPRequest.Header.index (CanonicalHeaderKey h) ∧
      (computeSSEKeys md5 r).HTTPRequest.Header.index (CanonicalHeaderKey (h ++ str "-md5"))
        = r.HTTPRequest.Header.index (CanonicalHeaderKey (h ++ str "-md5"))) ∧
    (computeSSEKeys md5 r).Error = r.Error ∧ (computeSSEKeys md5 r).Params = r.Params := by
  have hne := sse_md5_name_ne h hh
  have hK := computeSSEKeys_index md5 r h (CanonicalHeaderKey h) hh (.inl rfl)
  have hM := computeSSEKeys_index md5 r h (CanonicalHeaderKey (h ++ str "-md5")) hh (.inr rfl)
  refine ⟨?_, ?_, rfl, rfl⟩
  · intro hkey
    rw [if_neg hkey, if_pos rfl] at hK
    rw [if_neg hkey, if_neg hne] at hM
    refine ⟨by rw [rest.header_get_index, hK]; rfl, ?_, ?_⟩
    · intro hm
      rw [if_pos ⟨rfl, hm⟩] at hM
      rw [rest.header_get_index, hM]
      rfl
    · intro hm
      rw [if_neg (fun hc => hm hc.2)] at hM
      exact hM
  · intro hkey
    rw [if_pos hkey] at hK hM
    exact ⟨hK, hM⟩

/-- C27, at a request that carries the key `key` and no `-md5` header. -/
theorem computeSSEKeys_encodes_keys_witness :
    (plainKeyRequest.HTTPRequest.Header.Get (str "x-amz-server-side-encryption-customer-key") ≠ [] →
      (computeSSEKeys testMD5 plainKeyRequest).HTTPRequest.Header.Get
          (str "x-amz-server-side-encryption-customer-key")
        = EncodeToString (plainKeyRequest.HTTPRequest.Header.Get
            (str "x-amz-server-side-encryption-customer-key")) ∧
      (plainKeyRequest.HTTPRequest.Header.Get
          (str "x-amz-server-side-encryption-customer-key" ++ str "-md5") = [] →
        (computeSSEKeys testMD5 plainKeyRequest).HTTPRequest.Header.Get
            (str "x-amz-server-side-encryption-customer-key" ++ str "-md5")
          = EncodeToString (testMD5.Sum (plainKeyRequest.HTTPRequest.Header.Get
              (str "x-amz-server-side-encryption-customer-key")))) ∧
      (plainKeyRequest.HTTPRequest.Header.Get
          (str "x-amz-server-side-encryption-customer-key" ++ str "-md5") ≠ [] →
        (computeSSEKeys testMD5 plainKeyRequest).HTTPRequest.Header.index
            (CanonicalHeaderKey (str "x-amz-server-side-encryption-customer-key" ++ str "-md5"))
          = plainKeyRequest.HTTPRequest.Header.index
            (CanonicalHeaderKey (str "x-amz-server-side-encryption-customer-key" ++ str "-md5")))) ∧
    (plainKeyRequest.HTTPRequest.Header.Get (str "x-amz-server-side-encryption-customer-key") = [] →
      (computeSSEKeys testMD5 plainKeyRequest).HTTPRequest.Header.index
          (CanonicalHeaderKey (str "x-amz-server-side-encryption-customer-key"))
        = plainKeyRequest.HTTPRequest.Header.index
          (CanonicalHeaderKey (str "x-amz-server-side-encryption-customer-key")) ∧
      (computeSSEKeys testMD5 plainKeyRequest).HTTPRequest.Header.index
          (CanonicalHeaderKey (str "x-amz-server-side-encryption-customer-key" ++ str "-md5"))
        = plainKeyRequest.HTTPRequest.Header.index
          (CanonicalHeaderKey (str "x-amz-server-side-encryption-customer-key" ++ str "-md5"))) ∧
    (computeSSEKeys testMD5 plainKeyRequest).Error = plainKeyRequest.Error ∧
    (computeSSEKeys testMD5 plainKeyRequest).Params = plainKeyRequest.Params :=
  computeSSEKeys_encodes_keys testMD5 plainKeyRequest
    (str "x-amz-server-side-encryption-customer-key") (by decide)

/-- C27, evaluated: the key `key` becomes `a2V5`, the `-md5` header is added,
and nothing is added for the copy-source key, which the request does not
carry; a `-md5` header that the caller set is kept. -/
theorem computeSSEKeys_check :
    (computeSSEKeys testMD5 plainKeyRequest).HTTPRequest.Header
      = [(str "X-Amz-Server-Side-Encryption-Customer-Key", [str "a2V5"]),
         (str "X-Amz-Server-Side-Encryption-Customer-Key-Md5",
           [EncodeToString (testMD5.Sum (str "key"))])] ∧
    (computeSSEKeys testMD5 presetMD5Request).HTTPRequest.Header
      = [(str "X-Amz-Server-Side-Encryption-Customer-Key", [str "a2V5"]),
         (str "X-Amz-Server-Side-Encryption-Customer-Key-Md5", [str "mine"])] := by
  decide

end s3

namespace s3

open rest (GoString str Header EncodeToString CanonicalHeaderKey)

theorem encode_twice_ne (k : GoString) (hk : k ≠ []) :
    EncodeToString (EncodeToString k) ≠ EncodeToString k := by
  intro hc
  have h1 := congrArg List.length hc
  rw [rest.encodeToString_length, rest.encodeToString_length] at h1
  have h2 : 1 ≤ k.length := by
    cases k with
    | nil => exact absurd rfl hk
    | cons a l => simp
  omega

theorem digest_encoding_ne_nil (md5 : MD5) (k : GoString) : EncodeToString (md5.Sum k) ≠ [] := by
  apply rest.encodeToString_ne_nil
  intro hc
  have := md5.size k
  rw [hc] at this
  simp at this

/-- C30, at a request whose caller has set the `-md5` header to `mine`: after
two applications that header holds `mine`, which is not the encoded digest of
the key, whatever digest `md5.Sum` gives. -/
theorem preset_md5_header_is_no_digest :
    presetMD5Request.HTTPRequest.Header.Get (str "x-amz-server-side-encryption-customer-key")
      = str "key" ∧
    (∀ md5 : MD5,
      (computeSSEKeys md5 (computeSSEKeys md5 presetMD5Request)).HTTPRequest.Header.Get
          (str "x-amz-server-side-encryption-customer-key-md5") = str "mine" ∧
      EncodeToString (md5.Sum (str "key")) ≠ str "mine") := by
  refine ⟨by decide, fun md5 => ⟨rfl, ?_⟩⟩
  intro hc
  have h1 := congrArg List.length hc
  rw [rest.encodeToString_length, md5.size] at h1
  revert h1
  decide

/-- C30, amended. `computeSSEKeys` is not idempotent: for every request that
carries a non-empty customer key `k` in one of the two key headers, one
application leaves the base64 encoding of `k` in that header and two leave the
base64 encoding of that encoding, which is another text, so the two requests
differ; the `-md5` header is after two applications as it was after one: it
holds the encoded digest of the original `k` when it was empty at the start,
and the values the caller gave it when it was set. -/
theorem computeSSEKeys_twice_encodes_twice (md5 : MD5) (r : Request) (h : GoString)
    (hh : h ∈ sseKeyHeaders) (hk : r.HTTPRequest.Header.Get h ≠ []) :
    (computeSSEKeys md5 r).HTTPRequest.Header.Get h
      = EncodeToString (r.HTTPRequest.Header.Get h) ∧
    (computeSSEKeys md5 (computeSSEKeys md5 r)).HTTPRequest.Header.Get h
      = EncodeToString (EncodeToString (r.HTTPRequest.Header.Get h)) ∧
    (computeSSEKeys md5 (computeSSEKeys md5 r)).HTTPRequest.Header.Get h
      ≠ (computeSSEKeys md5 r).HTTPRequest.Header.Get h ∧
    computeSSEKeys md5 (computeSSEKeys md5 r) ≠ computeSSEKeys md5 r ∧
    (computeSSEKeys md5 (computeSSEKeys md5 r)).HTTPRequest.Header.index
        (CanonicalHeaderKey (h ++ str "-md5"))
      = (computeSSEKeys md5 r).HTTPRequest.Header.index (CanonicalHeaderKey (h ++ str "-md5")) ∧
    (r.HTTPRequest.Header.Get (h ++ str "-md5") = [] →
      (computeSSEKeys md5 (computeSSEKeys md5 r)).HTTPRequest.Header.Get (h ++ str "-md5")
        = EncodeToString (md5.Sum (r.HTTPRequest.Header.Get h))) ∧
    (r.HTTPRequest.Header.Get (h ++ str "-md5") ≠ [] →
      (computeSSEKeys md5 (computeSSEKeys md5 r)).HTTPRequest.Header.index
          (CanonicalHeaderKey (h ++ str "-md5"))
        = r.HTTPRequest.Header.index (CanonicalHeaderKey (h ++ str "-md5"))) := by
  have hne := sse_md5_name_ne h hh
  have hK := computeSSEKeys_index md5 r h (CanonicalHeaderKey h) hh (.inl rfl)
  have hM := computeSSEKeys_index md5 r h (CanonicalHeaderKey (h ++ str "-md5")) hh (.inr rfl)
  rw [if_neg hk, if_pos rfl] at hK
  rw [if_neg hk, if_neg hne] at hM
  have hget1 : (computeSSEKeys md5 r).HTTPRequest.Header.Get h
      = EncodeToString (r.HTTPRequest.Header.Get h) := by
    rw [rest.header_get_index, hK]; rfl
  have hget1ne : (computeSSEKeys md5 r).HTTPRequest.Header.Get h ≠ [] := by
    rw [hget1]
    exact rest.encodeToString_ne_nil _ hk
  have hmd1 : (computeSSEKeys md5 r).HTTPRequest.Header.Get (h ++ str "-md5") ≠ [] := by
    rw [rest.header_get_index, hM]
    by_cases hm : r.HTTPRequest.Header.Get (h ++ str "-md5") = []
    · rw [if_pos ⟨rfl, hm⟩]
      exact digest_encoding_ne_nil md5 _
    · rw [if_neg (fun hc => hm hc.2), ← rest.header_get_index]
      exact hm
  have hK2 := computeSSEKeys_index md5 (computeSSEKeys md5 r) h (CanonicalHeaderKey h) hh (.inl rfl)
  have hM2 := computeSSEKeys_index md5 (computeSSEKeys md5 r) h
    (CanonicalHeaderKey (h ++ str "-md5")) hh (.inr rfl)
  rw [if_neg hget1ne, if_pos rfl, hget1] at hK2
  rw [if_neg hget1ne, if_neg hne, if_neg (fun hc => hmd1 hc.2)] at hM2
  have hget2 : (computeSSEKeys md5 (computeSSEKeys md5 r)).HTTPRequest.Header.Get h
      = EncodeToString (EncodeToString (r.HTTPRequest.Header.Get h)) := by
    rw [rest.header_get_index, hK2]; rfl
  have hdiff : (computeSSEKeys md5 (computeSSEKeys md5 r)).HTTPRequest.Header.Get h
      ≠ (computeSSEKeys md5 r).HTTPRequest.Header.Get h := by
    rw [hget2, hget1]
    exact encode_twice_ne _ hk
  refine ⟨hget1, hget2, hdiff, fun hc => hdiff (by rw [hc]), hM2, ?_, ?_⟩
  · intro hm
    rw [rest.header_get_index, hM2, hM, if_pos ⟨rfl, hm⟩]
    rfl
  · intro hm
    rw [hM2, hM, if_neg (fun hc => hm hc.2)]

/-- C30, at a request that carries the key `key` and no `-md5` header. -/
theorem computeSSEKeys_twice_encodes_twice_witness :
    (computeSSEKeys testMD5 plainKeyRequest).HTTPRequest.Header.Get
        (str "x-amz-server-side-encryption-customer-key")
      = EncodeToString (plainKeyRequest.HTTPRequest.Header.Get
          (str "x-amz-server-side-encryption-customer-key")) ∧
    (computeSSEKeys testMD5 (computeSSEKeys testMD5 plainKeyRequest)).HTTPRequest.Header.Get
        (str "x-amz-server-side-encryption-customer-key")
      = EncodeToString (EncodeToString (plainKeyRequest.HTTPRequest.Header.Get
          (str "x-amz-server-side-encryption-customer-key"))) ∧
    (computeSSEKeys testMD5 (computeSSEKeys testMD5 plainKeyRequest)).HTTPRequest.Header.Get
        (str "x-amz-server-side-encryption-customer-key")
      ≠ (computeSSEKeys testMD5 plainKeyRequest).HTTPRequest.Header.Get
        (str "x-amz-server-side-encryption-customer-key") ∧
    computeSSEKeys testMD5 (computeSSEKeys testMD5 plainKeyRequest)
      ≠ computeSSEKeys testMD5 plainKeyRequest ∧
    (computeSSEKeys testMD5 (computeSSEKeys testMD5 plainKeyRequest)).HTTPRequest.Header.index
        (CanonicalHeaderKey (str "x-amz-server-side-encryption-customer-key" ++ str "-md5"))
      = (computeSSEKeys testMD5 plainKeyRequest).HTTPRequest.Header.index
        (CanonicalHeaderKey (str "x-amz-server-side-encryption-customer-key" ++ str "-md5")) ∧
    (plainKeyRequest.HTTPRequest.Header.Get
        (str "x-amz-server-side-encryption-customer-key" ++ str "-md5") = [] →
      (computeSSEKeys testMD5 (computeSSEKeys testMD5 plainKeyRequest)).HTTPRequest.Header.Get
          (str "x-amz-server-side-encryption-customer-key" ++ str "-md5")
        = EncodeToString (testMD5.Sum (plainKeyRequest.HTTPRequest.Header.Get
            (str "x-amz-server-side-encryption-customer-key")))) ∧
    (plainKeyRequest.HTTPRequest.Header.Get
        (str "x-amz-server-side-encryption-customer-key" ++ str "-md5") ≠ [] →
      (computeSSEKeys testMD5 (computeSSEKeys testMD5 plainKeyRequest)).HTTPRequest.Header.index
          (CanonicalHeaderKey (str "x-amz-server-side-encryption-customer-key" ++ str "-md5"))
        = plainKeyRequest.HTTPRequest.Header.index
          (CanonicalHeaderKey (str "x-amz-server-side-encryption-customer-key" ++ str "-md5"))) :=
  computeSSEKeys_twice_encodes_twice testMD5 plainKeyRequest
    (str "x-amz-server-side-encryption-customer-key") (by decide) (by decide)

/-- C30, evaluated: `key` becomes `a2V5` after one application and `YTJWNQ==`
after two. -/
theorem computeSSEKeys_twice_check :
    (computeSSEKeys testMD5 plainKeyRequest).HTTPRequest.Header.Get
        (str "x-amz-server-side-encryption-customer-key") = str "a2V5" ∧
    (computeSSEKeys testMD5 (computeSSEKeys testMD5 plainKeyRequest)).HTTPRequest.Header.Get
        (str "x-amz-server-side-encryption-customer-key") = str "YTJWNQ==" := by
  decide

end s3
